import Mathlib

/-!
# Travel logs: voice transcript parsing and mileage derivation

A shallow embedding of the algorithmic parts of the travel-log application:

* `src/components/VoiceInput.jsx`: `parseVoiceInput` and its `extract*` helpers,
* `src/hooks/useVoiceInput.js`: the generic `parseVoiceInput`,
* `src/hooks/useBusinessExpenses.js`: `addMileageEntry`,
* `src/components/MileageLog.jsx`: `handleSubmit`,
* `src/components/ExpenseForm.jsx`: `handleSubmit`,
* `src/hooks/useExpenses.js` and `src/hooks/useBusinessExpenses.js`: `addExpense`,
  `deleteExpense`, `deleteMileageEntry`,
* `src/components/Reports.jsx`: `getPeriodData`, `filteredExpenses` and the category
  breakdown,
* `src/components/Analytics.jsx`: the monthly totals, `categoryData`, the top category and
  `weeklyData`,
* `src/components/Reports.jsx`: the delimited table of `generateCSV`,
* `src/hooks/useExpenses.js`: `saveExpenses` and the load step.

Modelling conventions.

* A JavaScript string is a Lean `String`, processed as its list of characters.  Every
  character test in the sources is against ASCII characters or the JavaScript white space
  set, so the difference between UTF-16 code units and Unicode scalar values is not
  observable by the functions modelled here.
* A JavaScript number is a `JSNum`: `NaN`, a rational or an infinity.  `parseFloat` and
  `parseInt` round the value of a numeral to binary64 (`JSNum.ofRat`) and overflow to an
  infinity; the results of the arithmetic operators are held exactly, so their rounding
  and negative zero are outside the model.
* A regular expression is a term of `RE`, run by a backtracking matcher that lists the
  ways of matching in the priority order of the JavaScript matcher (greedy quantifiers,
  left alternative first); the first element of that list is the match JavaScript reports.
* React state is passed explicitly: a state setter becomes the new value of the state.
* `Date.now()` and the current calendar day are parameters.
* A `Date` object is the local time it denotes, in milliseconds; the offset of local time
  from UTC is a parameter and is taken to be constant.
* The text that `JSON.stringify` writes is held as the value that `JSON.parse` reads from
  it; the ISO string of a date is held as text and parsed.
-/

namespace TravelLogs

/-! ## JavaScript strings -/

/-- White space in the sense of JavaScript (`WhiteSpace` and `LineTerminator`): the
characters matched by `\s` and removed by `String.prototype.trim`. -/
def isJsSpace (c : Char) : Bool :=
  c.toNat = 0x09 || c.toNat = 0x0A || c.toNat = 0x0B || c.toNat = 0x0C || c.toNat = 0x0D ||
  c.toNat = 0x20 || c.toNat = 0xA0 || c.toNat = 0x1680 ||
  (0x2000 ≤ c.toNat && c.toNat ≤ 0x200A) ||
  c.toNat = 0x2028 || c.toNat = 0x2029 || c.toNat = 0x202F || c.toNat = 0x205F ||
  c.toNat = 0x3000 || c.toNat = 0xFEFF

/-- The method `trim` on a list of characters. -/
def jsTrim (s : List Char) : List Char :=
  ((s.dropWhile isJsSpace).reverse.dropWhile isJsSpace).reverse

/-- The method `toLowerCase` on one character.  ASCII capitals are mapped to their small
letters.  Outside ASCII only U+212A (Kelvin sign, to `k`) and U+0130 (to `i` followed by
U+0307) have an ASCII letter in their lower-case form; every other non-ASCII character has
a non-ASCII lower-case form and is left as it is, which no test of the program can
observe. -/
def lowerChar (c : Char) : List Char :=
  if c.toNat = 0x212A then ['k']
  else if c.toNat = 0x0130 then ['i', Char.ofNat 0x0307]
  else [c.toLower]

/-- The method `toLowerCase` on a list of characters. -/
def toLowerCase (s : List Char) : List Char :=
  s.flatMap lowerChar

/-- Does `s` begin with `p`?  The method `startsWith`. -/
def startsWith : List Char → List Char → Bool
  | [], _ => true
  | _ :: _, [] => false
  | p :: ps, c :: cs => p = c && startsWith ps cs

/-- The method `includes`: does `p` occur in `s` as a substring? -/
def includes (p : List Char) : List Char → Bool
  | [] => startsWith p []
  | c :: cs => startsWith p (c :: cs) || includes p cs

/-- The method `replace` with a one-character string pattern: the first occurrence of `c`
is replaced by `rep`. -/
def replaceFirstChar (c : Char) (rep : List Char) : List Char → List Char
  | [] => []
  | d :: ds => if d = c then rep ++ ds else d :: replaceFirstChar c rep ds

/-- The truthiness of `a || b` for a value `a` that is a string or `null`/`undefined`:
`null`, `undefined` and the empty string are falsy. -/
def orElseStr (a : Option String) (b : String) : String :=
  match a with
  | some s => if s = "" then b else s
  | none => b

/-! ## JavaScript numbers -/

/-- A JavaScript number: `NaN`, a finite value, held exactly, or an infinity
(`inf false` is `Infinity`, `inf true` is `-Infinity`). -/
inductive JSNum where
  | nan
  | num (q : ℚ)
  | inf (negative : Bool)
deriving DecidableEq

namespace JSNum

/-- The operator `-`. -/
def sub : JSNum → JSNum → JSNum
  | num a, num b => num (a - b)
  | inf s, num _ => inf s
  | num _, inf s => inf (!s)
  | inf s, inf t => if s = t then nan else inf s
  | _, _ => nan

/-- The operator `*`. -/
def mul : JSNum → JSNum → JSNum
  | num a, num b => num (a * b)
  | inf s, num b => if b = 0 then nan else inf (xor s (decide (b < 0)))
  | num a, inf s => if a = 0 then nan else inf (xor s (decide (a < 0)))
  | inf s, inf t => inf (xor s t)
  | _, _ => nan

/-- The operator `<=`: false as soon as one side is `NaN`. -/
def le : JSNum → JSNum → Bool
  | num a, num b => decide (a ≤ b)
  | inf true, num _ => true
  | inf true, inf _ => true
  | num _, inf false => true
  | inf false, inf false => true
  | _, _ => false

/-- The operator `>`: false as soon as one side is `NaN`. -/
def gt : JSNum → JSNum → Bool
  | num a, num b => decide (b < a)
  | inf false, num _ => true
  | inf false, inf true => true
  | num _, inf true => true
  | _, _ => false

/-- Is the value a number other than `NaN`? -/
def isNumeric : JSNum → Bool
  | nan => false
  | _ => true

/-- The operator `+` on numbers. -/
def add : JSNum → JSNum → JSNum
  | num a, num b => num (a + b)
  | inf s, num _ => inf s
  | num _, inf s => inf s
  | inf s, inf t => if s = t then inf s else nan
  | _, _ => nan

/-- The operator `/`: a finite value over zero is an infinity with the sign of the
dividend, zero over zero is `NaN`. -/
def div : JSNum → JSNum → JSNum
  | num a, num b =>
    if b = 0 then (if a = 0 then nan else inf (decide (a < 0))) else num (a / b)
  | num _, inf _ => num 0
  | inf s, num b => inf (xor s (decide (b < 0)))
  | _, _ => nan

/-- The value of `v || 0`: `NaN` and `0` are falsy. -/
def orZero : JSNum → JSNum
  | num a => num a
  | inf s => inf s
  | nan => num 0

/-- The value of a finite number as a rational, `0` for the others. -/
def toRat : JSNum → ℚ
  | num a => a
  | _ => 0

end JSNum

/-- The position of the leading binary digit of a natural number below `2 ^ fuel`: the `e`
with `2 ^ e ≤ n < 2 ^ (e + 1)`, and `0` for `n = 0`. -/
def leadingBit : Nat → Nat → Nat
  | 0, _ => 0
  | fuel + 1, n => if n < 2 then 0 else leadingBit fuel (n / 2) + 1

/-- The exponent of the leading binary digit of the positive rational `n / d`: the integer
`e` with `2 ^ e ≤ n / d < 2 ^ (e + 1)`. -/
def binaryExponent (n d : Nat) : Int :=
  let k : Int := (leadingBit n n : Int) - (leadingBit d d : Int)
  if d * 2 ^ k.toNat ≤ n * 2 ^ (-k).toNat then k else k - 1

/-- The integer nearest to `n / d`, the even one of the two when `n / d` lies half way
between them. -/
def roundHalfEven (n d : Nat) : Nat :=
  if 2 * (n % d) < d then n / d
  else if d < 2 * (n % d) then n / d + 1
  else if n / d % 2 = 0 then n / d
  else n / d + 1

/-- The Number value for a mathematical value (the rounding that ECMAScript applies to the
value of a numeric literal): the binary64 value nearest to `q`, the one with an even
significand when two are equally near, and an infinity when the rounded magnitude reaches
`2 ^ 1024`.  With `p` the exponent of the last binary digit kept (53 digits, and `-1074`
at the least), the result is `m * 2 ^ p` for the integer `m` nearest to `|q| / 2 ^ p`. -/
def JSNum.ofRat (q : ℚ) : JSNum :=
  if q = 0 then JSNum.num 0
  else
    let p : Int := max (binaryExponent q.num.natAbs q.den - 52) (-1074)
    let m : Nat := roundHalfEven (q.num.natAbs * 2 ^ (-p).toNat) (q.den * 2 ^ p.toNat)
    if 1024 ≤ leadingBit 54 m + p.toNat then JSNum.inf (decide (q < 0))
    else JSNum.num ((if q < 0 then -1 else 1) * ((m * 2 ^ p.toNat : Nat) : ℚ) /
      ((2 ^ (-p).toNat : Nat) : ℚ))

/-- The value of a decimal digit character. -/
def digitVal (c : Char) : Nat := c.toNat - 48

/-- The value of a run of decimal digits. -/
def digitsToNat (ds : List Char) : Nat :=
  ds.foldl (fun n c => 10 * n + digitVal c) 0

/-- Is the character a hexadecimal digit? -/
def isHexDigit (c : Char) : Bool :=
  c.isDigit || (97 ≤ c.toNat && c.toNat ≤ 102) || (65 ≤ c.toNat && c.toNat ≤ 70)

/-- The value of a hexadecimal digit character. -/
def hexVal (c : Char) : Nat :=
  if c.isDigit then c.toNat - 48
  else if 97 ≤ c.toNat then c.toNat - 87
  else c.toNat - 55

/-- The exponent part `e±ddd` of a decimal literal, `0` when there is none or it is
incomplete. -/
def parseExponent : List Char → Int
  | [] => 0
  | e :: r =>
    if e = 'e' ∨ e = 'E' then
      match r with
      | '-' :: d =>
        if d.takeWhile Char.isDigit = [] then 0 else - (digitsToNat (d.takeWhile Char.isDigit) : Int)
      | '+' :: d =>
        if d.takeWhile Char.isDigit = [] then 0 else (digitsToNat (d.takeWhile Char.isDigit) : Int)
      | d =>
        if d.takeWhile Char.isDigit = [] then 0 else (digitsToNat (d.takeWhile Char.isDigit) : Int)
    else 0

/-- Scale a rational by a power of ten. -/
def scale10 (q : ℚ) (e : Int) : ℚ :=
  if 0 ≤ e then q * 10 ^ e.toNat else q / 10 ^ (-e).toNat

/-- The unsigned part of `parseFloat`: the longest prefix that is a decimal literal
(`ddd`, `ddd.`, `ddd.ddd` or `.ddd`, each with an optional exponent), `NaN` without one;
the value of the literal is rounded to a Number. -/
def parseUnsignedFloat (u : List Char) : JSNum :=
  let ip := u.takeWhile Char.isDigit
  match u.dropWhile Char.isDigit with
  | '.' :: r =>
    let fp := r.takeWhile Char.isDigit
    if ip = [] ∧ fp = [] then JSNum.nan
    else JSNum.ofRat (scale10 ((digitsToNat (ip ++ fp) : ℚ) / 10 ^ fp.length)
      (parseExponent (r.dropWhile Char.isDigit)))
  | r =>
    if ip = [] then JSNum.nan
    else JSNum.ofRat (scale10 (digitsToNat ip : ℚ) (parseExponent r))

/-- The function `parseFloat` (the literal `Infinity` is outside the model). -/
def parseFloat (s : List Char) : JSNum :=
  match s.dropWhile isJsSpace with
  | '-' :: u => JSNum.mul (JSNum.num (-1)) (parseUnsignedFloat u)
  | '+' :: u => parseUnsignedFloat u
  | u => parseUnsignedFloat u

/-- The unsigned part of `parseInt` without a radix argument: radix 16 after a `0x`
prefix, radix 10 otherwise; the longest prefix of digits of the radix, `NaN` without
one; the integer read is rounded to a Number. -/
def parseUnsignedInt (u : List Char) : JSNum :=
  match u with
  | '0' :: x :: r =>
    if x = 'x' ∨ x = 'X' then
      if r.takeWhile isHexDigit = [] then JSNum.nan
      else JSNum.ofRat
        (((r.takeWhile isHexDigit).foldl (fun n c => 16 * n + hexVal c) 0 : Nat) : ℚ)
    else JSNum.ofRat (digitsToNat (u.takeWhile Char.isDigit) : ℚ)
  | _ =>
    if u.takeWhile Char.isDigit = [] then JSNum.nan
    else JSNum.ofRat (digitsToNat (u.takeWhile Char.isDigit) : ℚ)

/-- The function `parseInt` called with one argument. -/
def parseInt (s : List Char) : JSNum :=
  match s.dropWhile isJsSpace with
  | '-' :: u => JSNum.mul (JSNum.num (-1)) (parseUnsignedInt u)
  | '+' :: u => parseUnsignedInt u
  | u => parseUnsignedInt u

/-! ## Regular expressions -/

/-- The regular expressions used by the sources: a character class, a greedy repetition
`c{min,}` of a character class (`+` is `min = 1`, `*` is `min = 0`), a greedy option `r?`,
concatenation, alternation and a capturing group. -/
inductive RE where
  | cls (p : Char → Bool)
  | many (p : Char → Bool) (min : Nat)
  | opt (r : RE)
  | seq (r s : RE)
  | alt (r s : RE)
  | group (r : RE)

/-- One way of matching a regular expression at the start of an input: the text matched,
the captures in the order in which their groups open, and the rest of the input. -/
structure Match where
  matched : List Char
  caps : List (List Char)
  rest : List Char
deriving DecidableEq

/-- The ways of matching `c{min,}` at the start of the input, as pairs of text matched and
rest, the longest first: the matcher takes one more character whenever it can and falls
back to stopping here only when the minimum has been reached. -/
def manyRun (p : Char → Bool) : Nat → List Char → List (List Char × List Char)
  | n, [] => if n = 0 then [([], [])] else []
  | n, c :: cs =>
    if p c then
      (manyRun p (n - 1) cs).map (fun x => (c :: x.1, x.2)) ++
        (if n = 0 then [([], c :: cs)] else [])
    else if n = 0 then [([], c :: cs)] else []

/-- All the ways of matching a regular expression at the start of the input, in the order
in which the backtracking matcher tries them. -/
def RE.run : RE → List Char → List Match
  | .cls _, [] => []
  | .cls p, c :: cs => if p c then [⟨[c], [], cs⟩] else []
  | .many p n, s => (manyRun p n s).map (fun x => ⟨x.1, [], x.2⟩)
  | .opt r, s => r.run s ++ [⟨[], [], s⟩]
  | .seq r1 r2, s =>
    (r1.run s).flatMap (fun x =>
      (r2.run x.rest).map (fun y => ⟨x.matched ++ y.matched, x.caps ++ y.caps, y.rest⟩))
  | .alt r1 r2, s => r1.run s ++ r2.run s
  | .group r, s => (r.run s).map (fun x => ⟨x.matched, x.matched :: x.caps, x.rest⟩)

/-- The leftmost match of a regular expression in the input (`String.prototype.match`
without the flag `g`, `RegExp.prototype.exec`): the text before the match and the match,
`none` (JavaScript `null`) when there is no match at any position. -/
def RE.search (r : RE) : List Char → Option (List Char × Match)
  | [] => (r.run []).head?.map (fun m => ([], m))
  | c :: cs =>
    match (r.run (c :: cs)).head? with
    | some m => some ([], m)
    | none => (r.search cs).map (fun x => (c :: x.1, x.2))

/-- The successive matches of a regular expression with the flag `g`, each search starting
where the previous match ended (one character further after an empty match).  The first
argument bounds the number of matches. -/
def RE.matchAllAux (r : RE) : Nat → List Char → List (List Char)
  | 0, _ => []
  | n + 1, s =>
    match r.search s with
    | none => []
    | some (_, m) =>
      m.matched ::
        (match m.matched, m.rest with
          | [], [] => []
          | [], _ :: t => r.matchAllAux n t
          | _ :: _, t => r.matchAllAux n t)

/-- The list of all matches of a regular expression with the flag `g`
(`String.prototype.match`); the empty list stands for `null`.  There are at most
`s.length + 1` matches. -/
def RE.matchAll (r : RE) (s : List Char) : List (List Char) :=
  r.matchAllAux (s.length + 1) s

/-- The input with every match of a regular expression with the flag `g` replaced by `rep`
(`String.prototype.replace`).  The first argument bounds the number of matches. -/
def RE.replaceAllAux (r : RE) (rep : List Char) : Nat → List Char → List Char
  | 0, s => s
  | n + 1, s =>
    match r.search s with
    | none => s
    | some (pre, m) =>
      pre ++ rep ++
        (match m.matched, m.rest with
          | [], [] => []
          | [], c :: t => c :: r.replaceAllAux rep n t
          | _ :: _, t => r.replaceAllAux rep n t)

/-- The method `replace` with a regular expression with the flag `g`. -/
def RE.replaceAll (r : RE) (rep : List Char) (s : List Char) : List Char :=
  r.replaceAllAux rep (s.length + 1) s

/-- The class of one character. -/
def RE.char (c : Char) : RE := .cls (fun d => d = c)

/-- The class `\d`. -/
def RE.digit : RE := .cls Char.isDigit

/-- A literal word under the flag `i`: each letter matches itself in either case.  (For an
ASCII letter of the pattern the flag `i` accepts exactly its two ASCII forms.) -/
def RE.wordCI : List Char → RE
  | [] => .many (fun _ => false) 0
  | [c] => .cls (fun d => d.toUpper = c.toUpper)
  | c :: cs => .seq (.cls (fun d => d.toUpper = c.toUpper)) (RE.wordCI cs)

/-- The class `[^,\.]` of the pattern built by `extractLocation`: any character but a
comma and a period. -/
def notCommaPeriod (c : Char) : Bool := c ≠ ',' && c ≠ '.'

/-- The class `[^,\\.]` of the regular expression literals: any character but a comma, a
backslash and a period. -/
def notCommaBackslashPeriod (c : Char) : Bool := c ≠ ',' && c ≠ '\\' && c ≠ '.'

/-- The entry `match[i]` of a match result for `i ≥ 1`: the text captured by the `i`-th
group. -/
def Match.cap (m : Match) (i : Nat) : List Char := m.caps.getD (i - 1) []

/-! ## Records -/

/-- A calendar day.  A date string of the form `yyyy-MM-dd` and the `Date` object that
`new Date` builds from it are both represented by the day they denote; `none` in a field of
type `Option CalDate` is a missing or unparsable date (`Invalid Date`). -/
structure CalDate where
  year : Nat
  month : Nat
  day : Nat
deriving DecidableEq

/-- A notification shown by `react-hot-toast`. -/
inductive Toast where
  | error (msg : String)
  | success (msg : String)
deriving DecidableEq

/-- The draft record returned by `parseVoiceInput` of `VoiceInput.jsx` and received by
`addExpense` and `addMileageEntry`: an object in which any property may be missing
(`none`).  The properties `id`, `totalKm` and `rate` are never set by the parser; they are
listed because `addMileageEntry` spreads whatever object it receives. -/
structure Draft where
  id : Option String := none
  date : Option CalDate := none
  description : Option String := none
  type : Option String := none
  category : Option String := none
  amount : Option JSNum := none
  title : Option String := none
  location : Option String := none
  odometerReading : Option JSNum := none
  startOdometer : Option JSNum := none
  endOdometer : Option JSNum := none
  startLocation : Option String := none
  endLocation : Option String := none
  businessPurpose : Option String := none
  attendees : Option String := none
  totalKm : Option JSNum := none
  rate : Option JSNum := none
deriving DecidableEq

/-- The value of a numeric property in an arithmetic expression: a missing property is
`undefined`, which converts to `NaN`. -/
def toNumber (v : Option JSNum) : JSNum := v.getD JSNum.nan

/-- The expression `t ? f(t) : 0` for `t` an entry of a match array: `undefined` and the
empty string are falsy. -/
def parsedOrZero (f : List Char → JSNum) (t : Option (List Char)) : JSNum :=
  match t with
  | some [] => JSNum.num 0
  | some (c :: cs) => f (c :: cs)
  | none => JSNum.num 0

/-! ## `src/components/VoiceInput.jsx` -/

namespace VoiceInput

/-- The regular expression `/\d+\.?\d*/g`. -/
def numberRE : RE :=
  .seq (.many Char.isDigit 1) (.seq (.opt (RE.char '.')) (.many Char.isDigit 0))

/-- The array `numbers` of `parseVoiceInput`: `text.match(/\d+\.?\d*/g) || []`. -/
def numbers (text : String) : List (List Char) :=
  numberRE.matchAll text.toList

/-- The regular expression built by `extractLocation` from a preposition without
metacharacters: the preposition, `\s+` and the group `([^,\.]+)`, under the flag `i`. -/
def locationRE (preposition : String) : RE :=
  .seq (RE.wordCI preposition.toList)
    (.seq (.many isJsSpace 1) (.group (.many notCommaPeriod 1)))

/-- The regular expressions `/word\s+([^,\\.]+)/i` of the other extractors. -/
def phraseRE (word : String) : RE :=
  .seq (RE.wordCI word.toList)
    (.seq (.many isJsSpace 1) (.group (.many notCommaBackslashPeriod 1)))

/-- The function `extractLocation`. -/
def extractLocation (text : String) (preposition : String) : Option String :=
  match (locationRE preposition).search text.toList with
  | some (_, m) => some (String.mk (jsTrim (m.cap 1)))
  | none => none

/-- The function `extractAttendees`. -/
def extractAttendees (text : String) : Option String :=
  match (phraseRE "with").search text.toList with
  | some (_, m) => some (String.mk (jsTrim (m.cap 1)))
  | none =>
    match (phraseRE "meeting").search text.toList with
    | some (_, m) => some (String.mk (jsTrim (m.cap 1)))
    | none => none

/-- The function `extractPurpose`. -/
def extractPurpose (text : String) : Option String :=
  match (phraseRE "for").search text.toList with
  | some (_, m) => some (String.mk (jsTrim (m.cap 1)))
  | none =>
    match (phraseRE "purpose").search text.toList with
    | some (_, m) => some (String.mk (jsTrim (m.cap 1)))
    | none => none

/-- The function `extractRestaurant`. -/
def extractRestaurant (text : String) : Option String :=
  match (phraseRE "at").search text.toList with
  | some (_, m) => some (String.mk (jsTrim (m.cap 1)))
  | none => none

/-- The regular expression `/(hotel|inn|resort|motel)\s+([^,\\.]+)/i`. -/
def hotelRE : RE :=
  .seq
    (.group (.alt (RE.wordCI "hotel".toList) (.alt (RE.wordCI "inn".toList)
      (.alt (RE.wordCI "resort".toList) (RE.wordCI "motel".toList)))))
    (.seq (.many isJsSpace 1) (.group (.many notCommaBackslashPeriod 1)))

/-- The function `extractHotel`: the whole match, trimmed. -/
def extractHotel (text : String) : Option String :=
  match hotelRE.search text.toList with
  | some (_, m) => some (String.mk (jsTrim m.matched))
  | none => none

/-- The array `expenseTypes` of `extractExpenseType`. -/
def expenseTypes : List String :=
  ["parking", "toll", "taxi", "uber", "supplies", "equipment"]

/-- The expression `type.charAt(0).toUpperCase() + type.slice(1)`. -/
def capitalize (type : String) : String :=
  match type.toList with
  | [] => ""
  | c :: cs => String.mk (c.toUpper :: cs)

/-- The function `extractExpenseType`. -/
def extractExpenseType (text : String) : Option String :=
  (expenseTypes.find? (fun type => includes type.toList (toLowerCase text.toList))).map
    capitalize

/-- The function `parseVoiceInput`; `today` is the day `format(new Date(), 'yyyy-MM-dd')`
denotes. -/
def parseVoiceInput (today : CalDate) (text : String) (type : String) : Draft :=
  let numbers := numbers text
  let baseData : Draft := { date := some today, description := some text }
  if type = "mileage" then
    { baseData with
      startOdometer := some (parsedOrZero parseInt numbers[0]?)
      endOdometer := some (parsedOrZero parseInt numbers[1]?)
      startLocation := some (orElseStr (extractLocation text "from") "Home Office")
      endLocation := some (orElseStr (extractLocation text "to") "Client Location")
      businessPurpose := some (orElseStr (extractPurpose text) "Business meeting")
      attendees := some (orElseStr (extractAttendees text) "Client") }
  else if type = "fuel" then
    { baseData with
      type := some "fuel"
      category := some "Fuel"
      amount := some (parsedOrZero parseFloat numbers[0]?)
      title := some (orElseStr (extractLocation text "at") "Gas Station")
      location := some (orElseStr (extractLocation text "at") "Gas Station")
      odometerReading := some (parsedOrZero parseInt numbers[1]?) }
  else if type = "meal" then
    { baseData with
      type := some "meal"
      category := some "Meals"
      amount := some (parsedOrZero parseFloat numbers[0]?)
      title := some (orElseStr (extractRestaurant text) "Business Meal")
      location := some (orElseStr (extractRestaurant text) "Restaurant")
      attendees := some (orElseStr (extractAttendees text) "Client")
      businessPurpose := some (orElseStr (extractPurpose text) "Business meeting") }
  else if type = "accommodation" then
    { baseData with
      type := some "accommodation"
      category := some "Accommodation"
      amount := some (parsedOrZero parseFloat numbers[0]?)
      title := some (orElseStr (extractHotel text) "Hotel Stay")
      location := some (orElseStr (extractLocation text "in") "City") }
  else if type = "miscellaneous" then
    { baseData with
      type := some "miscellaneous"
      category := some "Miscellaneous"
      amount := some (parsedOrZero parseFloat numbers[0]?)
      title := some (orElseStr (extractExpenseType text) "Business Expense")
      businessPurpose := some (orElseStr (extractPurpose text) "Business purpose") }
  else baseData

end VoiceInput

/-! ## `src/hooks/useVoiceInput.js` -/

namespace UseVoiceInput

/-- The record returned by the generic `parseVoiceInput`. -/
structure GenericDraft where
  amount : JSNum
  category : String
  title : String
  description : String
deriving DecidableEq

/-- The regular expression `/\$?\d+(?:\.\d{2})?/` (used with the flag `g` by `replace`). -/
def amountRE : RE :=
  .seq (.opt (RE.char '$'))
    (.seq (.many Char.isDigit 1) (.opt (.seq (RE.char '.') (.seq RE.digit RE.digit))))

/-- The category chosen by the chain of `includes` tests on the lower-cased text. -/
def inferCategory (lowerText : List Char) : String :=
  if includes "fuel".toList lowerText || includes "gas".toList lowerText ||
      includes "gasoline".toList lowerText then "Fuel"
  else if includes "food".toList lowerText || includes "restaurant".toList lowerText ||
      includes "meal".toList lowerText || includes "lunch".toList lowerText ||
      includes "dinner".toList lowerText then "Meals"
  else if includes "hotel".toList lowerText || includes "accommodation".toList lowerText ||
      includes "lodging".toList lowerText then "Accommodation"
  else if includes "taxi".toList lowerText || includes "uber".toList lowerText ||
      includes "transport".toList lowerText then "Transportation"
  else "Miscellaneous"

/-- The function `parseVoiceInput` of the hook `useVoiceInput`. -/
def parseVoiceInput (text : String) : GenericDraft :=
  let lowerText := toLowerCase text.toList
  let amount :=
    match (RE.group amountRE).search lowerText with
    | some (_, m) => parseFloat (replaceFirstChar '$' [] (m.cap 1))
    | none => JSNum.num 0
  let category := inferCategory lowerText
  let description := String.mk (jsTrim (amountRE.replaceAll [] text.toList))
  { amount := amount
    category := category
    title := orElseStr (some description) (category ++ " expense")
    description := text }

end UseVoiceInput

/-! ## `src/hooks/useBusinessExpenses.js` -/

namespace UseBusinessExpenses

/-- A record of the collection `mileageEntries`: the object
`{ id, ...mileageData, totalKm, rate, amount, date }`.  The properties written after the
spread replace those of `mileageData`; `id`, written before it, is replaced by an `id` of
`mileageData` when it has one. -/
structure MileageEntry where
  id : String
  date : Option CalDate
  description : Option String
  type : Option String
  category : Option String
  title : Option String
  location : Option String
  odometerReading : Option JSNum
  startOdometer : Option JSNum
  endOdometer : Option JSNum
  startLocation : Option String
  endLocation : Option String
  businessPurpose : Option String
  attendees : Option String
  totalKm : JSNum
  rate : JSNum
  amount : JSNum
deriving DecidableEq

/-- What a call of `addMileageEntry` leaves behind: the value the returned promise settles
with (`Except.error` for a rejection), the new value of the state `mileageEntries`, and the
toast shown. -/
structure AddMileageResult where
  returned : Except String MileageEntry
  mileageEntries : List MileageEntry
  toast : Toast

/-- The constant `rate` of `addMileageEntry` ("Current CRA rate"). -/
def rate : ℚ := 0.68

/-- The object `newEntry` built by `addMileageEntry`; `now` is the value of `Date.now()`. -/
def newEntry (now : Nat) (mileageData : Draft) : MileageEntry :=
  let totalKm := JSNum.sub (toNumber mileageData.endOdometer) (toNumber mileageData.startOdometer)
  let amount := JSNum.mul totalKm (JSNum.num rate)
  { id := mileageData.id.getD (toString now)
    date := mileageData.date
    description := mileageData.description
    type := mileageData.type
    category := mileageData.category
    title := mileageData.title
    location := mileageData.location
    odometerReading := mileageData.odometerReading
    startOdometer := mileageData.startOdometer
    endOdometer := mileageData.endOdometer
    startLocation := mileageData.startLocation
    endLocation := mileageData.endLocation
    businessPurpose := mileageData.businessPurpose
    attendees := mileageData.attendees
    totalKm := totalKm
    rate := JSNum.num rate
    amount := amount }

/-- The function `addMileageEntry` applied to the state `prev`.  No statement of its `try`
block can throw, so its `catch` block is never entered: the entry is always put at the
head of the collection and returned. -/
def addMileageEntry (now : Nat) (mileageData : Draft) (prev : List MileageEntry) :
    AddMileageResult :=
  { returned := Except.ok (newEntry now mileageData)
    mileageEntries := newEntry now mileageData :: prev
    toast := Toast.success "Mileage entry added successfully!" }

end UseBusinessExpenses

/-! ## `src/components/MileageLog.jsx` -/

namespace MileageLog

/-- The state `formData`: the values of the form controls, all strings but the date. -/
structure FormData where
  date : Option CalDate
  startLocation : String
  endLocation : String
  startOdometer : String
  endOdometer : String
  businessPurpose : String
  clientName : String
deriving DecidableEq

/-- A record of the state `mileageEntries` of the component:
`{ id, ...formData, startOdometer, endOdometer, distance, amount, date }`. -/
structure LogEntry where
  id : String
  date : Option CalDate
  startLocation : String
  endLocation : String
  startOdometer : JSNum
  endOdometer : JSNum
  businessPurpose : String
  clientName : String
  distance : JSNum
  amount : JSNum
deriving DecidableEq

/-- The state of the component. -/
structure State where
  mileageEntries : List LogEntry
  showForm : Bool
  formData : FormData
deriving DecidableEq

/-- The constant `CRA_RATE_2024`. -/
def CRA_RATE_2024 : ℚ := 0.68

/-- The form as `handleSubmit` resets it; `today` is the day of
`new Date().toISOString().split('T')[0]`. -/
def emptyForm (today : CalDate) : FormData :=
  { date := some today, startLocation := "", endLocation := "", startOdometer := "",
    endOdometer := "", businessPurpose := "", clientName := "" }

/-- The object `newEntry` built by `handleSubmit`; `now` is the value of `Date.now()`. -/
def newEntry (now : Nat) (formData : FormData) : LogEntry :=
  let startOdo := parseFloat formData.startOdometer.toList
  let endOdo := parseFloat formData.endOdometer.toList
  let distance := JSNum.sub endOdo startOdo
  let amount := JSNum.mul distance (JSNum.num CRA_RATE_2024)
  { id := toString now
    date := formData.date
    startLocation := formData.startLocation
    endLocation := formData.endLocation
    startOdometer := startOdo
    endOdometer := endOdo
    businessPurpose := formData.businessPurpose
    clientName := formData.clientName
    distance := distance
    amount := amount }

/-- The function `handleSubmit`: the state after the submission and the toast shown. -/
def handleSubmit (now : Nat) (today : CalDate) (st : State) : State × Toast :=
  let startOdo := parseFloat st.formData.startOdometer.toList
  let endOdo := parseFloat st.formData.endOdometer.toList
  if JSNum.le endOdo startOdo then
    (st, Toast.error "End odometer must be greater than start odometer")
  else
    ({ mileageEntries := newEntry now st.formData :: st.mileageEntries
       showForm := false
       formData := emptyForm today },
     Toast.success "Mileage entry added successfully!")

end MileageLog

/-! ## Notions of the specification -/

/-- Modelled from the spec: the lookup `rateFor` of the Rate Table (§4.1), which the
sources do not contain (they use the constant `0.68` directly).  The table lists
`(year, rate)` pairs in ascending order of year; the rate is that of the greatest
configured year at or before `year`, the earliest configured rate when `year` predates all
of them, and `dflt` for an empty table. -/
def rateFor (table : List (Nat × ℚ)) (dflt : ℚ) (year : Nat) : ℚ :=
  match (table.filter (fun e => e.1 ≤ year)).getLast? with
  | some e => e.2
  | none =>
    match table.head? with
    | some e => e.2
    | none => dflt

/-- The only pair the sources configure: the rate of `CRA_RATE_2024`. -/
def craRateTable : List (Nat × ℚ) := [(2024, MileageLog.CRA_RATE_2024)]

/-- Rounding to 2 decimal places, half up. -/
def round2 (q : ℚ) : ℚ := (⌊q * 100 + 1 / 2⌋ : ℚ) / 100

/-! ## Direct descriptions of what the regular expressions find -/

/-- Does the input begin with the letters of `p`, each in either case? -/
def startsWithCI : List Char → List Char → Bool
  | [], _ => true
  | _ :: _, [] => false
  | p :: ps, c :: cs => c.toUpper = p.toUpper && startsWithCI ps cs

/-- Does the input begin with the letters of `p`, in either case, followed by a white space
character and then by a character that is neither a comma nor a period? -/
def phraseStartsHere (p s : List Char) : Bool :=
  startsWithCI p s &&
    (match s.drop p.length with
      | w :: d :: _ => isJsSpace w && notCommaPeriod d
      | _ => false)

/-- The phrase after a preposition, described without a regular expression: at the first
position where `phraseStartsHere` holds, the text after the letters of `p` up to the next
comma or period (or the end of the input), trimmed; `none` when there is no such
position. -/
def phraseAfter (p : List Char) : List Char → Option (List Char)
  | [] => none
  | c :: cs =>
    if phraseStartsHere p (c :: cs) then
      some (jsTrim (((c :: cs).drop p.length).takeWhile notCommaPeriod))
    else phraseAfter p cs

/-- The texts that the group of `\s{n,}([^,\.]+)` can capture at the start of the input,
in the order in which the matcher tries them. -/
def capsAfterSpaces (n : Nat) (s : List Char) : List (List Char) :=
  (manyRun isJsSpace n s).flatMap (fun x => (manyRun notCommaPeriod 1 x.2).map (fun y => y.1))

/-- The numeral at the start of an input that begins with a digit, and the input after it:
the run of digits and, when a period follows, the period and the run of digits after it. -/
def lexNumeral (s : List Char) : List Char × List Char :=
  if (s.dropWhile Char.isDigit).head? = some '.' then
    (s.takeWhile Char.isDigit ++ '.' :: ((s.dropWhile Char.isDigit).tail).takeWhile Char.isDigit,
      ((s.dropWhile Char.isDigit).tail).dropWhile Char.isDigit)
  else (s.takeWhile Char.isDigit, s.dropWhile Char.isDigit)

/-- The first decimal numeral token of an input, scanning from the left, and the input
after it; `none` when the input has no digit. -/
def firstNumeral : List Char → Option (List Char × List Char)
  | [] => none
  | c :: cs => if c.isDigit then some (lexNumeral (c :: cs)) else firstNumeral cs

/-- The second decimal numeral token of an input: the first one of what follows the first
one. -/
def secondNumeral (s : List Char) : Option (List Char × List Char) :=
  (firstNumeral s).bind (fun x => firstNumeral x.2)

/-- The digits after the period of a numeral token `ddd`, `ddd.` or `ddd.ddd`. -/
def fractionDigits (t : List Char) : List Char := (t.dropWhile Char.isDigit).drop 1

/-- The numeric value of a numeral token `ddd`, `ddd.` or `ddd.ddd`: its integer part plus
its fraction digits over the matching power of ten. -/
def numeralValue (t : List Char) : ℚ :=
  (digitsToNat (t.takeWhile Char.isDigit) : ℚ) +
    (digitsToNat (fractionDigits t) : ℚ) / 10 ^ (fractionDigits t).length

/-- The value of a numeral token that may be missing, `0` for a missing one. -/
def valueOrZero (t : Option (List Char × List Char)) : ℚ :=
  match t with
  | some x => numeralValue x.1
  | none => 0

/-- The part of a numeral token that the pattern `\d+(?:\.\d{2})?` reads: the integer
part, with the period and the first two fraction digits when the token has at least two
fraction digits. -/
def twoDecimalPart (t : List Char) : List Char :=
  if 2 ≤ (fractionDigits t).length then
    t.takeWhile Char.isDigit ++ '.' :: (fractionDigits t).take 2
  else t.takeWhile Char.isDigit

/-! ## Dates -/

/-- The number of milliseconds of a day. -/
def msPerDay : Int := 86400000

/-- The day number of the first day of a year (`DayFromYear` of ECMAScript), counted from
1 January 1970. -/
def dayFromYear (y : Int) : Int :=
  365 * (y - 1970) + (y - 1969) / 4 - (y - 1901) / 100 + (y - 1601) / 400

/-- Is the year a leap year? -/
def isLeapYear (y : Int) : Bool :=
  (y % 4 = 0 && y % 100 ≠ 0) || y % 400 = 0

/-- The number of days of a year before its month `m` (0 is January). -/
def daysBeforeMonth (leap : Bool) (m : Nat) : Int :=
  match m with
  | 0 => 0
  | 1 => 31
  | 2 => if leap then 60 else 59
  | 3 => if leap then 91 else 90
  | 4 => if leap then 121 else 120
  | 5 => if leap then 152 else 151
  | 6 => if leap then 182 else 181
  | 7 => if leap then 213 else 212
  | 8 => if leap then 244 else 243
  | 9 => if leap then 274 else 273
  | 10 => if leap then 305 else 304
  | _ => if leap then 335 else 334

/-- The day number of a year, a month index and a day of the month (`MakeDay` of
ECMAScript): a month index outside 0..11 carries into the year, and the day of the month
is counted on from the first day of the month, so that day 0 is the last day of the month
before. -/
def makeDay (year month date : Int) : Int :=
  dayFromYear (year + month / 12) +
    daysBeforeMonth (isLeapYear (year + month / 12)) (month % 12).toNat + date - 1

/-- A `Date` object: `Invalid Date`, or the local time it denotes in milliseconds (the time
value shifted by the offset of local time from UTC). -/
inductive JSDate where
  | invalid
  | time (ms : Int)
deriving DecidableEq

/-- The reading of the clock by `new Date()`, in local time: `year` is `getFullYear()` and
`month` is `getMonth()` (0 is January). -/
structure Clock where
  year : Int
  month : Nat
  day : Nat
  msOfDay : Nat
deriving DecidableEq

/-- The year that the constructor `new Date(year, month, day)` takes: a year from 0 to 99
stands for the year 1900 later. -/
def constructorYear (year : Int) : Int :=
  if 0 ≤ year ∧ year ≤ 99 then 1900 + year else year

/-- The constructor `new Date(year, month, day)`: local midnight of the day. -/
def newDate (year month date : Int) : JSDate :=
  JSDate.time (makeDay (constructorYear year) month date * msPerDay)

/-- The constructor `new Date(s)` for a date string `yyyy-MM-dd`, which denotes midnight
UTC of the day; `tz` is the offset of local time from UTC in milliseconds. -/
def dateOfString (tz : Int) (s : Option CalDate) : JSDate :=
  match s with
  | some d => JSDate.time (makeDay d.year ((d.month : Int) - 1) d.day * msPerDay + tz)
  | none => JSDate.invalid

/-- The function `startOfMonth` of `date-fns` on a date of the given year and month: the
first day of the month at 00:00:00.000. -/
def startOfMonth (year month : Int) : JSDate :=
  JSDate.time (makeDay year month 1 * msPerDay)

/-- The function `endOfMonth` of `date-fns` on a date of the given year and month: day 0 of
the next month at 23:59:59.999. -/
def endOfMonth (year month : Int) : JSDate :=
  JSDate.time (makeDay year (month + 1) 0 * msPerDay + (msPerDay - 1))

/-- The function `isWithinInterval` of `date-fns` for an interval whose start is not after
its end: is the time of the date between the two, both included?  An `Invalid Date` is in
no interval. -/
def isWithinInterval (date start stop : JSDate) : Bool :=
  match date, start, stop with
  | JSDate.time t, JSDate.time a, JSDate.time b => decide (a ≤ t) && decide (t ≤ b)
  | _, _, _ => false

/-- The local day number on which a time falls. -/
def dayOfTime (t : Int) : Int := t / msPerDay

/-! ## Expenses -/

/-- A record of the collection `expenses`: the properties of the object given to
`addExpense`, with `id` and `date` set by `addExpense`. -/
structure Expense where
  id : String
  date : JSDate
  description : Option String := none
  type : Option String := none
  category : Option String := none
  amount : Option JSNum := none
  title : Option String := none
  location : Option String := none
  odometerReading : Option JSNum := none
  startOdometer : Option JSNum := none
  endOdometer : Option JSNum := none
  startLocation : Option String := none
  endLocation : Option String := none
  businessPurpose : Option String := none
  attendees : Option String := none
  totalKm : Option JSNum := none
  rate : Option JSNum := none
deriving DecidableEq

/-- The object `{ ...expense, id, date }`: the properties of `expense` with `id` and `date`
replaced. -/
def Expense.ofDraft (id : String) (date : JSDate) (expense : Draft) : Expense :=
  { id := id
    date := date
    description := expense.description
    type := expense.type
    category := expense.category
    amount := expense.amount
    title := expense.title
    location := expense.location
    odometerReading := expense.odometerReading
    startOdometer := expense.startOdometer
    endOdometer := expense.endOdometer
    startLocation := expense.startLocation
    endLocation := expense.endLocation
    businessPurpose := expense.businessPurpose
    attendees := expense.attendees
    totalKm := expense.totalKm
    rate := expense.rate }

/-- The expression `expenses.reduce((sum, expense) => sum + expense.amount, 0)`. -/
def sumAmounts (expenses : List Expense) : JSNum :=
  expenses.foldl (fun sum expense => JSNum.add sum (toNumber expense.amount)) (JSNum.num 0)

/-- The property name that a category is used as: a missing category is the name
`undefined`. -/
def categoryKey (category : Option String) : String := category.getD "undefined"

/-- The property names that an object literal inherits from `Object.prototype`. -/
def inheritedNames : List String :=
  ["constructor", "__defineGetter__", "__defineSetter__", "hasOwnProperty",
   "__lookupGetter__", "__lookupSetter__", "isPrototypeOf", "propertyIsEnumerable",
   "toString", "valueOf", "__proto__", "toLocaleString"]

/-- The assignment `acc[name] = value` on an object held as the list of its own properties
in the order in which they were created. -/
def setProperty (name : String) (value : JSNum) :
    List (String × JSNum) → List (String × JSNum)
  | [] => [(name, value)]
  | (k, v) :: rest =>
    if k = name then (k, value) :: rest else (k, v) :: setProperty name value rest

/-- The statement `acc[name] = (acc[name] || 0) + amount` for a name that the object does
not inherit: a property that is not there reads as `undefined`. -/
def addToProperty (name : String) (amount : JSNum) :
    List (String × JSNum) → List (String × JSNum)
  | [] => [(name, JSNum.add (JSNum.num 0) amount)]
  | (k, v) :: rest =>
    if k = name then (k, JSNum.add (JSNum.orZero v) amount) :: rest
    else (k, v) :: addToProperty name amount rest

/-- The statement `acc[category] = (acc[category] || 0) + amount` on an object literal held
as the list of its own properties in the order in which they were created.  For a name
inherited from `Object.prototype` the value read is not a number and `+` joins strings:
`__proto__` reads the prototype object, and assigning a string to it creates no property;
every other inherited name reads a function the first time and the string stored
afterwards, so the property holds a string, which is held here as `NaN`, the number that
arithmetic makes of it. -/
def addToCategory (category : String) (amount : JSNum) (acc : List (String × JSNum)) :
    List (String × JSNum) :=
  if category = "__proto__" then acc
  else if category ∈ inheritedNames then setProperty category JSNum.nan acc
  else addToProperty category amount acc

/-- The object built by
`expenses.reduce((acc, expense) => { acc[expense.category] = ...; return acc }, {})`, as
the list of its own properties in the order in which they were created. -/
def categoryTotalsOf (expenses : List Expense) : List (String × JSNum) :=
  expenses.foldl
    (fun acc expense => addToCategory (categoryKey expense.category) (toNumber expense.amount) acc)
    []

/-- The sign test of a comparator result `b - a`: must `b` come before `a`?  A result that
is `NaN` counts as 0. -/
def comesBefore (b a : JSNum) : Bool := JSNum.gt (JSNum.sub b a) (JSNum.num 0)

/-- One step of the stable sort by descending amount: `x`, which stood before the elements
of the sorted list, is put behind those that must come before it. -/
def insertByAmount {α : Type} (amount : α → JSNum) (x : α) : List α → List α
  | [] => [x]
  | y :: ys =>
    if comesBefore (amount y) (amount x) then y :: insertByAmount amount x ys
    else x :: y :: ys

/-- The method `sort` with the comparator `(a, b) => b.amount - a.amount`: the stable sort
by descending amount.  (When the comparator is not consistent, as it may be with amounts
that are `NaN`, JavaScript leaves the order to the implementation.) -/
def sortByAmountDesc {α : Type} (amount : α → JSNum) (l : List α) : List α :=
  l.foldr (insertByAmount amount) []

/-- Is the property name an array index: the canonical decimal numeral of an integer from
0 to `2 ^ 32 - 2`? -/
def isArrayIndex (name : String) : Bool :=
  name.toList ≠ [] && name.toList.all Char.isDigit &&
    (name.toList.head? ≠ some '0' || name.toList.length = 1) &&
    digitsToNat name.toList < 4294967295

/-- One step of putting the array-index properties in ascending order of their index. -/
def insertByIndex (x : String × JSNum) : List (String × JSNum) → List (String × JSNum)
  | [] => [x]
  | y :: ys =>
    if digitsToNat x.1.toList ≤ digitsToNat y.1.toList then x :: y :: ys
    else y :: insertByIndex x ys

/-- The function `Object.entries` on an object held as the list of its own properties in
the order in which they were created: the properties whose name is an array index come
first, in ascending order of the index, and the others follow in the order of their
creation. -/
def objectEntries (object : List (String × JSNum)) : List (String × JSNum) :=
  (object.filter (fun e => isArrayIndex e.1)).foldr insertByIndex [] ++
    object.filter (fun e => !isArrayIndex e.1)

/-- A row of a category breakdown. -/
structure CategoryRow where
  category : String
  amount : JSNum
  percentage : JSNum
deriving DecidableEq

/-! ## `src/components/ExpenseForm.jsx` -/

namespace ExpenseForm

/-- The state `formData` of the expense form: the values of the form controls. -/
structure FormData where
  title : String
  amount : String
  category : String
  date : Option CalDate
  description : String
  businessPurpose : String
  attendees : String
  location : String
deriving DecidableEq

/-- The object `{ ...formData, amount: parseFloat(formData.amount) }` that `handleSubmit`
gives to `onAddExpense`. -/
def submitted (formData : FormData) : Draft :=
  { title := some formData.title
    amount := some (parseFloat formData.amount.toList)
    category := some formData.category
    date := formData.date
    description := some formData.description
    businessPurpose := some formData.businessPurpose
    attendees := some formData.attendees
    location := some formData.location }

/-- The function `handleSubmit`: the argument of its call of `onAddExpense`, `none` when it
returns without calling it (the title or the amount is the empty string). -/
def handleSubmit (formData : FormData) : Option Draft :=
  if formData.title = "" ∨ formData.amount = "" then none
  else some (submitted formData)

end ExpenseForm

/-! ## `src/hooks/useExpenses.js` -/

namespace UseExpenses

/-- What a call of `addExpense` or `deleteExpense` leaves behind: the new value of the
state `expenses`, the collection given to `saveExpenses`, and the toast shown. -/
structure Result where
  expenses : List Expense
  saved : List Expense
  toast : Toast
deriving DecidableEq

/-- The object `newExpense` of `addExpense`: `id` and `date` are written after the spread
and replace those of `expense`. -/
def newExpense (tz : Int) (now : Nat) (expense : Draft) : Expense :=
  Expense.ofDraft (toString now) (dateOfString tz expense.date) expense

/-- The function `addExpense` on the state `expenses`. -/
def addExpense (tz : Int) (now : Nat) (expense : Draft) (expenses : List Expense) : Result :=
  { expenses := newExpense tz now expense :: expenses
    saved := newExpense tz now expense :: expenses
    toast := Toast.success "Expense added successfully!" }

/-- The function `deleteExpense` on the state `expenses`. -/
def deleteExpense (id : String) (expenses : List Expense) : Result :=
  { expenses := expenses.filter (fun expense => expense.id ≠ id)
    saved := expenses.filter (fun expense => expense.id ≠ id)
    toast := Toast.success "Expense deleted successfully!" }

end UseExpenses

namespace UseBusinessExpenses

/-- What a call of `addExpense` leaves behind: the value the returned promise settles with,
the new value of the state `expenses`, and the toast shown. -/
structure AddExpenseResult where
  returned : Except String Expense
  expenses : List Expense
  toast : Toast

/-- The object `newExpense` of `addExpense`: `id` is written before the spread, so that an
`id` of `expenseData` replaces it; `date` is written after it. -/
def newExpense (tz : Int) (now : Nat) (expenseData : Draft) : Expense :=
  Expense.ofDraft (expenseData.id.getD (toString now)) (dateOfString tz expenseData.date)
    expenseData

/-- The function `addExpense` applied to the state `prev`.  No statement of its `try` block
can throw, so its `catch` block is never entered. -/
def addExpense (tz : Int) (now : Nat) (expenseData : Draft) (prev : List Expense) :
    AddExpenseResult :=
  { returned := Except.ok (newExpense tz now expenseData)
    expenses := newExpense tz now expenseData :: prev
    toast := Toast.success "Expense added successfully!" }

/-- The function `deleteExpense` applied to the state `prev`: the new state and the toast
shown. -/
def deleteExpense (expenseId : String) (prev : List Expense) : List Expense × Toast :=
  (prev.filter (fun expense => expense.id ≠ expenseId),
    Toast.success "Expense deleted successfully!")

/-- The function `deleteMileageEntry` applied to the state `prev`: the new state and the
toast shown. -/
def deleteMileageEntry (entryId : String) (prev : List MileageEntry) :
    List MileageEntry × Toast :=
  (prev.filter (fun entry => entry.id ≠ entryId),
    Toast.success "Mileage entry deleted successfully!")

end UseBusinessExpenses

/-! ## `src/components/Reports.jsx` -/

namespace Reports

/-- The function `getPeriodData`: the start and the end of the selected period.  For
`last-month` the date `new Date(now.getFullYear(), now.getMonth() - 1, 1)` is a date of
the month before, into whose year a month index of -1 carries. -/
def getPeriodData (now : Clock) (selectedPeriod : String) : JSDate × JSDate :=
  if selectedPeriod = "last-month" then
    (startOfMonth (constructorYear now.year + ((now.month : Int) - 1) / 12)
        (((now.month : Int) - 1) % 12),
      endOfMonth (constructorYear now.year + ((now.month : Int) - 1) / 12)
        (((now.month : Int) - 1) % 12))
  else if selectedPeriod = "quarter" then
    (newDate now.year ((now.month / 3 * 3 : Nat) : Int) 1,
      newDate now.year ((now.month / 3 * 3 : Nat) + 3 : Int) 0)
  else if selectedPeriod = "year" then
    (newDate now.year 0 1, newDate now.year 11 31)
  else (startOfMonth now.year now.month, endOfMonth now.year now.month)

/-- The array `filteredExpenses`. -/
def filteredExpenses (now : Clock) (selectedPeriod selectedCategory : String)
    (expenses : List Expense) : List Expense :=
  expenses.filter (fun expense =>
    isWithinInterval expense.date (getPeriodData now selectedPeriod).1
        (getPeriodData now selectedPeriod).2 &&
      (decide (selectedCategory = "all") || decide (expense.category = some selectedCategory)))

/-- The value `totalAmount`. -/
def totalAmount (filtered : List Expense) : JSNum := sumAmounts filtered

/-- The object `categoryBreakdown`. -/
def categoryBreakdown (filtered : List Expense) : List (String × JSNum) :=
  categoryTotalsOf filtered

/-- The rows of the card "Category Breakdown": the entries of `categoryBreakdown` sorted by
descending amount, each with `percentage = (amount / totalAmount) * 100`. -/
def breakdownRows (filtered : List Expense) : List CategoryRow :=
  (sortByAmountDesc (fun e => e.2) (objectEntries (categoryBreakdown filtered))).map (fun e =>
    { category := e.1
      amount := e.2
      percentage := JSNum.mul (JSNum.div e.2 (totalAmount filtered)) (JSNum.num 100) })

end Reports

/-! ## `src/components/Analytics.jsx` -/

namespace Analytics

/-- The array `currentMonthExpenses`; `now` is the reading `currentMonth` of the clock. -/
def currentMonthExpenses (now : Clock) (expenses : List Expense) : List Expense :=
  expenses.filter (fun expense =>
    isWithinInterval expense.date (startOfMonth now.year now.month)
      (endOfMonth now.year now.month))

/-- The array `lastMonthExpenses`: `subMonths(currentMonth, 1)` is a date of the month
before. -/
def lastMonthExpenses (now : Clock) (expenses : List Expense) : List Expense :=
  expenses.filter (fun expense =>
    isWithinInterval expense.date
      (startOfMonth (now.year + ((now.month : Int) - 1) / 12) (((now.month : Int) - 1) % 12))
      (endOfMonth (now.year + ((now.month : Int) - 1) / 12) (((now.month : Int) - 1) % 12)))

/-- The value `currentTotal`. -/
def currentTotal (now : Clock) (expenses : List Expense) : JSNum :=
  sumAmounts (currentMonthExpenses now expenses)

/-- The value `lastTotal`. -/
def lastTotal (now : Clock) (expenses : List Expense) : JSNum :=
  sumAmounts (lastMonthExpenses now expenses)

/-- The expression `lastTotal > 0 ? ((currentTotal - lastTotal) / lastTotal) * 100 : 0`. -/
def monthlyChangeOf (currentTotal lastTotal : JSNum) : JSNum :=
  if JSNum.gt lastTotal (JSNum.num 0) then
    JSNum.mul (JSNum.div (JSNum.sub currentTotal lastTotal) lastTotal) (JSNum.num 100)
  else JSNum.num 0

/-- The value `monthlyChange`. -/
def monthlyChange (now : Clock) (expenses : List Expense) : JSNum :=
  monthlyChangeOf (currentTotal now expenses) (lastTotal now expenses)

/-- The object `categoryTotals`. -/
def categoryTotals (now : Clock) (expenses : List Expense) : List (String × JSNum) :=
  categoryTotalsOf (currentMonthExpenses now expenses)

/-- The array `categoryData`. -/
def categoryData (now : Clock) (expenses : List Expense) : List CategoryRow :=
  sortByAmountDesc (fun row => row.amount)
    ((objectEntries (categoryTotals now expenses)).map (fun e =>
      { category := e.1
        amount := e.2
        percentage := JSNum.mul (JSNum.div e.2 (currentTotal now expenses)) (JSNum.num 100) }))

end Analytics

/-! ## The keyword table of the generic parser -/

/-- The categories of the generic parser with their keywords, in the order in which the
chain of tests tries them. -/
def keywordTable : List (String × List String) :=
  [("Fuel", ["fuel", "gas", "gasoline"]),
   ("Meals", ["food", "restaurant", "meal", "lunch", "dinner"]),
   ("Accommodation", ["hotel", "accommodation", "lodging"]),
   ("Transportation", ["taxi", "uber", "transport"])]

/-- The first category of a table one of whose keywords occurs in the text as a substring,
`Miscellaneous` when there is none. -/
def firstKeywordCategory (table : List (String × List String)) (lowerText : List Char) :
    String :=
  match table with
  | [] => "Miscellaneous"
  | (category, keywords) :: rest =>
    if ∃ k ∈ keywords, k.toList <:+: lowerText then category
    else firstKeywordCategory rest lowerText

/-! ## `src/components/Analytics.jsx`: the top category and the weekly breakdown -/

namespace Analytics

/-- The text of the card "Top Category":
`categoryData.length > 0 ? categoryData[0].category : 'None'`. -/
def topCategory (now : Clock) (expenses : List Expense) : String :=
  match categoryData now expenses with
  | [] => "None"
  | row :: _ => row.category

/-- A row of the array `weeklyData`. -/
structure WeekRow where
  week : String
  amount : JSNum
  count : Nat
deriving DecidableEq

/-- The array `weekExpenses` of the `i`-th turn of the loop: the expenses of the current
month between `weekStart = new Date(year, month, i * 7 + 1)` and
`weekEnd = new Date(year, month, (i + 1) * 7)`, two local midnights. -/
def weekExpenses (now : Clock) (expenses : List Expense) (i : Nat) : List Expense :=
  (currentMonthExpenses now expenses).filter (fun expense =>
    isWithinInterval expense.date (newDate now.year now.month ((i * 7 + 1 : Nat) : Int))
      (newDate now.year now.month (((i + 1) * 7 : Nat) : Int)))

/-- The array `weeklyData` after the loop `for (let i = 0; i < 4; i++)`. -/
def weeklyData (now : Clock) (expenses : List Expense) : List WeekRow :=
  (List.range 4).map (fun i =>
    { week := "Week " ++ toString (i + 1)
      amount := sumAmounts (weekExpenses now expenses i)
      count := (weekExpenses now expenses i).length })

end Analytics

/-- Modelled from the spec: the distinct names of a list in the order in which they are
first met. -/
def firstMet (names : List String) : List String :=
  names.foldl (fun acc k => if k ∈ acc then acc else acc ++ [k]) []

/-- The test `Number.isFinite`: is the value neither `NaN` nor an infinity? -/
def JSNum.isFinite : JSNum → Bool
  | JSNum.num _ => true
  | _ => false

/-! ## The fields of a date -/

/-- The year in which a day number falls (`YearFromTime` of ECMAScript): the year `y` with
`dayFromYear y ≤ d < dayFromYear (y + 1)`, found next to the estimate that the mean length
of a year gives. -/
def yearFromDay (d : Int) : Int :=
  if dayFromYear (1970 + 400 * d / 146097 + 1) ≤ d then 1970 + 400 * d / 146097 + 1
  else if dayFromYear (1970 + 400 * d / 146097) ≤ d then 1970 + 400 * d / 146097
  else 1970 + 400 * d / 146097 - 1

/-- The number of the day within its year, from 0 (`DayWithinYear`). -/
def dayWithinYear (d : Int) : Int := d - dayFromYear (yearFromDay d)

/-- The month in which a day number falls, 0 for January (`MonthFromTime`). -/
def monthFromDay (d : Int) : Nat :=
  if dayWithinYear d < daysBeforeMonth (isLeapYear (yearFromDay d)) 1 then 0
  else if dayWithinYear d < daysBeforeMonth (isLeapYear (yearFromDay d)) 2 then 1
  else if dayWithinYear d < daysBeforeMonth (isLeapYear (yearFromDay d)) 3 then 2
  else if dayWithinYear d < daysBeforeMonth (isLeapYear (yearFromDay d)) 4 then 3
  else if dayWithinYear d < daysBeforeMonth (isLeapYear (yearFromDay d)) 5 then 4
  else if dayWithinYear d < daysBeforeMonth (isLeapYear (yearFromDay d)) 6 then 5
  else if dayWithinYear d < daysBeforeMonth (isLeapYear (yearFromDay d)) 7 then 6
  else if dayWithinYear d < daysBeforeMonth (isLeapYear (yearFromDay d)) 8 then 7
  else if dayWithinYear d < daysBeforeMonth (isLeapYear (yearFromDay d)) 9 then 8
  else if dayWithinYear d < daysBeforeMonth (isLeapYear (yearFromDay d)) 10 then 9
  else if dayWithinYear d < daysBeforeMonth (isLeapYear (yearFromDay d)) 11 then 10
  else 11

/-- The day of the month on which a day number falls, from 1 (`DateFromTime`). -/
def dateFromDay (d : Int) : Int :=
  dayWithinYear d - daysBeforeMonth (isLeapYear (yearFromDay d)) (monthFromDay d) + 1

/-- The method `padStart`. -/
def padStart (targetLength : Nat) (c : Char) (s : List Char) : List Char :=
  List.replicate (targetLength - s.length) c ++ s

/-- The function `format(date, 'yyyy-MM-dd')` of `date-fns`, which reads the fields of the
date in local time; `none` stands for the `RangeError` it throws for an `Invalid Date`.
The token `yyyy` renders a year that is not positive as the year of the era before
(`1 - year`), and pads to four digits. -/
def formatDate : JSDate → Option (List Char)
  | JSDate.invalid => none
  | JSDate.time t =>
    some (
      padStart 4 '0' (toString
        (if 0 < yearFromDay (dayOfTime t) then yearFromDay (dayOfTime t)
          else 1 - yearFromDay (dayOfTime t)).toNat).toList ++
      '-' :: padStart 2 '0' (toString (monthFromDay (dayOfTime t) + 1)).toList ++
      '-' :: padStart 2 '0' (toString (dateFromDay (dayOfTime t)).toNat).toList)

/-- The method `toFixed(2)`: the sign, then the integer `n` for which `n / 100` is nearest
to the magnitude (the larger one of two), written with a period before its last two
digits.  The magnitude is the exact value of the number: the Number that `parseFloat`
reads from `1.005` lies below 1.005 and is written `1.00`.  (From the magnitude `10^21` on
the method writes the exponent form instead, which is outside the model.) -/
def toFixed2 : JSNum → List Char
  | JSNum.nan => "NaN".toList
  | JSNum.inf false => "Infinity".toList
  | JSNum.inf true => "-Infinity".toList
  | JSNum.num q =>
    (if q < 0 then ['-'] else []) ++
      (toString (⌊|q| * 100 + 1 / 2⌋.toNat / 100)).toList ++
      '.' :: padStart 2 '0' (toString (⌊|q| * 100 + 1 / 2⌋.toNat % 100)).toList

/-! ## `src/components/Reports.jsx`: the delimited table -/

namespace Reports

/-- The array `headers` of `generateCSV`. -/
def headers : List String :=
  ["Date", "Title", "Category", "Amount", "Business Purpose", "Location", "Description"]

/-- The columns of the row of one expense in `generateCSV`, before `join(',')`.  A template
literal renders a missing title as `undefined`, `join` renders a missing category as the
empty string and `x || ''` a missing or empty text as the empty string.  `none` stands for
an exception: `format` throws for an `Invalid Date` and `expense.amount.toFixed` for a
missing amount. -/
def csvColumns (expense : Expense) : Option (List (List Char)) :=
  match formatDate expense.date, expense.amount with
  | some date, some amount =>
    some [date,
      '"' :: (expense.title.getD "undefined").toList ++ ['"'],
      (expense.category.getD "").toList,
      toFixed2 amount,
      '"' :: (expense.businessPurpose.getD "").toList ++ ['"'],
      '"' :: (expense.location.getD "").toList ++ ['"'],
      '"' :: (expense.description.getD "").toList ++ ['"']]
  | _, _ => none

/-- The row of one expense: its columns joined by commas. -/
def csvRow (expense : Expense) : Option (List Char) :=
  (csvColumns expense).map (fun columns => [','].intercalate columns)

/-- The value `csvContent` of `generateCSV` for the array `filteredExpenses`: the header
line and the rows, joined by line feeds; `none` when a row throws. -/
def csvContent (filteredExpenses : List Expense) : Option (List Char) :=
  (filteredExpenses.mapM csvRow).map (fun rows =>
    ['\n'].intercalate (([','].intercalate (headers.map String.toList)) :: rows))

end Reports

/-! ## Reading a delimited table -/

/-- Modelled from the spec: the lines of a text, cut at its line feeds. -/
def linesOf (text : List Char) : List (List Char) := text.splitOn '\n'

/-- Modelled from the spec: the fields of a line of a delimited table, read from left to
right.  A quote character opens or closes a quoted stretch and is not part of the field; a
comma outside a quoted stretch ends the field.  `cur` holds the characters of the field
read so far, last first. -/
def readFields : List Char → List Char → Bool → List (List Char)
  | [], cur, _ => [cur.reverse]
  | c :: cs, cur, false =>
    if c = ',' then cur.reverse :: readFields cs [] false
    else if c = '"' then readFields cs cur true
    else readFields cs (c :: cur) false
  | c :: cs, cur, true =>
    if c = '"' then readFields cs cur false
    else readFields cs (c :: cur) true

/-! ## The ISO format of a time value -/

/-- The greatest time value of a `Date`, in milliseconds from 1 January 1970 UTC. -/
def maxTime : Int := 8640000000000000

/-- The decimal rendering of `k` in exactly `n` digits (the last `n` digits of `k`). -/
def fixedDigits : Nat → Nat → List Char
  | 0, _ => []
  | n + 1, k => fixedDigits n (k / 10) ++ [Nat.digitChar (k % 10)]

/-- The year of the ISO format: four digits for the years 0 to 9999, a sign and six digits
for the others. -/
def isoYear (y : Int) : List Char :=
  if 0 ≤ y ∧ y ≤ 9999 then fixedDigits 4 y.toNat
  else (if y < 0 then '-' else '+') :: fixedDigits 6 y.natAbs

/-- The method `toISOString` on a time value in milliseconds from 1 January 1970 UTC:
`YYYY-MM-DDTHH:mm:ss.sssZ`. -/
def toISOString (t : Int) : List Char :=
  isoYear (yearFromDay (t / msPerDay)) ++ '-' ::
    (fixedDigits 2 (monthFromDay (t / msPerDay) + 1) ++ '-' ::
      (fixedDigits 2 (dateFromDay (t / msPerDay)).toNat ++ 'T' ::
        (fixedDigits 2 ((t % msPerDay).toNat / 3600000) ++ ':' ::
          (fixedDigits 2 ((t % msPerDay).toNat / 60000 % 60) ++ ':' ::
            (fixedDigits 2 ((t % msPerDay).toNat / 1000 % 60) ++ '.' ::
              (fixedDigits 3 ((t % msPerDay).toNat % 1000) ++ ['Z']))))))

/-- Read exactly `n` digits at the start of the input: their value and the rest. -/
def readDigits (n : Nat) (s : List Char) : Option (Nat × List Char) :=
  if n ≤ s.length ∧ (s.take n).all Char.isDigit = true then
    some (digitsToNat (s.take n), s.drop n)
  else none

/-- Read the character `c` at the start of the input: the rest. -/
def readChar (c : Char) : List Char → Option (List Char)
  | [] => none
  | d :: rest => if d = c then some rest else none

/-- Read the year of the ISO format: four digits, or a sign and six digits, where the year
0 has the sign `+`. -/
def readYear (s : List Char) : Option (Int × List Char) :=
  match s with
  | '+' :: rest => (readDigits 6 rest).map (fun x => ((x.1 : Int), x.2))
  | '-' :: rest =>
    (readDigits 6 rest).bind (fun x => if x.1 = 0 then none else some (-(x.1 : Int), x.2))
  | _ => (readDigits 4 s).map (fun x => ((x.1 : Int), x.2))

/-- The number of days of a month (0 is January). -/
def daysInMonth (leap : Bool) (month : Nat) : Nat :=
  if month = 1 then (if leap then 29 else 28)
  else if month = 3 ∨ month = 5 ∨ month = 8 ∨ month = 10 then 30
  else 31

/-- Read `n` digits and then the character `c`: the value of the digits and the rest. -/
def readField (n : Nat) (c : Char) (s : List Char) : Option (Nat × List Char) :=
  match readDigits n s with
  | some x => (readChar c x.2).map (fun rest => (x.1, rest))
  | none => none

/-- Read the date part `YYYY-MM-DDT` of the ISO format: the year, the month (from 1), the
day of the month and the rest. -/
def readDatePart (s : List Char) : Option ((Int × Nat × Nat) × List Char) :=
  match readYear s with
  | none => none
  | some y =>
    match readChar '-' y.2 with
    | none => none
    | some s1 =>
      match readField 2 '-' s1 with
      | none => none
      | some mo =>
        match readField 2 'T' mo.2 with
        | none => none
        | some d => some ((y.1, mo.1, d.1), d.2)

/-- Read the time part `HH:mm:ss.sssZ` of the ISO format: the hours, the minutes, the
seconds, the milliseconds and the rest. -/
def readTimePart (s : List Char) : Option ((Nat × Nat × Nat × Nat) × List Char) :=
  match readField 2 ':' s with
  | none => none
  | some h =>
    match readField 2 ':' h.2 with
    | none => none
    | some mi =>
      match readField 2 '.' mi.2 with
      | none => none
      | some sec =>
        match readField 3 'Z' sec.2 with
        | none => none
        | some ms => some ((h.1, mi.1, sec.1, ms.1), ms.2)

/-- Are the fields of a date and a time within their ranges?  The hour 24 is allowed for
the end of the day. -/
def fieldsInRange (year : Int) (month day hours minutes seconds ms : Nat) : Bool :=
  decide (1 ≤ month) && decide (month ≤ 12) && decide (1 ≤ day) &&
  decide (day ≤ daysInMonth (isLeapYear year) (month - 1)) &&
  (decide (hours ≤ 23) ||
    (decide (hours = 24) && decide (minutes = 0) && decide (seconds = 0) && decide (ms = 0))) &&
  decide (minutes ≤ 59) && decide (seconds ≤ 59)

/-- The time value of the fields of a date and a time (`MakeDate` of `MakeDay` and
`MakeTime`). -/
def timeOfFields (year : Int) (month day hours minutes seconds ms : Nat) : Int :=
  makeDay year ((month : Int) - 1) day * msPerDay +
    ((hours * 3600000 + minutes * 60000 + seconds * 1000 + ms : Nat) : Int)

/-- The function `Date.parse` on a string of the ISO format with all its fields and the
time zone `Z`, as `toISOString` writes it: the time value, `none` (`NaN`) when the string
is not of this form, a field is out of its range or the time is beyond `maxTime`.  (The
other formats that `Date.parse` accepts are outside the model.) -/
def parseISOString (s : List Char) : Option Int :=
  match readDatePart s with
  | none => none
  | some d =>
    match readTimePart d.2 with
    | none => none
    | some t =>
      if t.2 = [] ∧
          fieldsInRange d.1.1 d.1.2.1 d.1.2.2 t.1.1 t.1.2.1 t.1.2.2.1 t.1.2.2.2 = true ∧
          -maxTime ≤ timeOfFields d.1.1 d.1.2.1 d.1.2.2 t.1.1 t.1.2.1 t.1.2.2.1 t.1.2.2.2 ∧
          timeOfFields d.1.1 d.1.2.1 d.1.2.2 t.1.1 t.1.2.1 t.1.2.2.1 t.1.2.2.2 ≤ maxTime then
        some (timeOfFields d.1.1 d.1.2.1 d.1.2.2 t.1.1 t.1.2.1 t.1.2.2.1 t.1.2.2.2)
      else none

/-! ## `src/hooks/useExpenses.js`: saving and loading -/

namespace UseExpenses

/-- A numeric property as `JSON.parse` reads it: a number or `null`. -/
inductive JsonNum where
  | null
  | num (q : ℚ)
deriving DecidableEq

/-- What `JSON.stringify` writes for a number: `NaN` and the infinities become `null`. -/
def jsonOfNum : JSNum → JsonNum
  | JSNum.num q => JsonNum.num q
  | _ => JsonNum.null

/-- An expense outside the state: with `D` the type `Option String` an element of the array
that `JSON.parse` reads from the saved text (the date is a string or `null`), with `D` the
type `JSDate` an element of the array that the load step puts in the state.  A property
that the saved object does not have is `none`. -/
structure StoredExpense (D : Type) where
  id : String
  date : D
  description : Option String
  type : Option String
  category : Option String
  amount : Option JsonNum
  title : Option String
  location : Option String
  odometerReading : Option JsonNum
  startOdometer : Option JsonNum
  endOdometer : Option JsonNum
  startLocation : Option String
  endLocation : Option String
  businessPurpose : Option String
  attendees : Option String
  totalKm : Option JsonNum
  rate : Option JsonNum
deriving DecidableEq

/-- The method `toJSON` of a `Date`: the ISO string of its time value, `null` (`none`) for
an `Invalid Date`; `tz` is the offset of local time from UTC in milliseconds. -/
def dateToJSON (tz : Int) : JSDate → Option String
  | JSDate.invalid => none
  | JSDate.time t => some (String.mk (toISOString (t - tz)))

/-- The function `saveExpenses`: the text `JSON.stringify(newExpenses)` put in the local
storage, held as the array that `JSON.parse` reads from it.  A property whose value is
`undefined` is left out, a number that is not finite is written as `null` and a date is
written by its method `toJSON`. -/
def saveExpenses (tz : Int) (newExpenses : List Expense) :
    List (StoredExpense (Option String)) :=
  newExpenses.map (fun expense =>
    { id := expense.id
      date := dateToJSON tz expense.date
      description := expense.description
      type := expense.type
      category := expense.category
      amount := expense.amount.map jsonOfNum
      title := expense.title
      location := expense.location
      odometerReading := expense.odometerReading.map jsonOfNum
      startOdometer := expense.startOdometer.map jsonOfNum
      endOdometer := expense.endOdometer.map jsonOfNum
      startLocation := expense.startLocation
      endLocation := expense.endLocation
      businessPurpose := expense.businessPurpose
      attendees := expense.attendees
      totalKm := expense.totalKm.map jsonOfNum
      rate := expense.rate.map jsonOfNum })

/-- The constructor `new Date(value)` on the date of a parsed expense: `null` converts to
the time value 0, a string is parsed. -/
def dateOfJSON (tz : Int) : Option String → JSDate
  | none => JSDate.time (0 + tz)
  | some s =>
    match parseISOString s.toList with
    | some t => JSDate.time (t + tz)
    | none => JSDate.invalid

/-- The load step of the effect:
`parsed.map(expense => ({ ...expense, date: new Date(expense.date) }))`. -/
def loadExpenses (tz : Int) (parsed : List (StoredExpense (Option String))) :
    List (StoredExpense JSDate) :=
  parsed.map (fun expense => { expense with date := dateOfJSON tz expense.date })

end UseExpenses

/-- Is the date a valid one: not `Invalid Date`, with a time value within `maxTime`? -/
def JSDate.isValid (tz : Int) : JSDate → Bool
  | JSDate.invalid => false
  | JSDate.time t => decide (-maxTime ≤ t - tz) && decide (t - tz ≤ maxTime)

/-- Modelled from the spec: a numeric property of a record and the property read back are
equal when both are missing or both are the same finite number. -/
def sameNumber : Option JSNum → Option UseExpenses.JsonNum → Bool
  | none, none => true
  | some (JSNum.num a), some (UseExpenses.JsonNum.num b) => decide (a = b)
  | _, _ => false

/-- Modelled from the spec: structural equality of a record of the collection and a record
read back: the same date and the same value, or none, for each property. -/
def sameRecord (e : Expense) (r : UseExpenses.StoredExpense JSDate) : Bool :=
  decide (e.id = r.id) && decide (e.date = r.date) &&
  decide (e.description = r.description) && decide (e.type = r.type) &&
  decide (e.category = r.category) && sameNumber e.amount r.amount &&
  decide (e.title = r.title) && decide (e.location = r.location) &&
  sameNumber e.odometerReading r.odometerReading &&
  sameNumber e.startOdometer r.startOdometer && sameNumber e.endOdometer r.endOdometer &&
  decide (e.startLocation = r.startLocation) && decide (e.endLocation = r.endLocation) &&
  decide (e.businessPurpose = r.businessPurpose) && decide (e.attendees = r.attendees) &&
  sameNumber e.totalKm r.totalKm && sameNumber e.rate r.rate

/-- Is a numeric property missing or a finite number? -/
def finiteOrMissing : Option JSNum → Bool
  | none => true
  | some a => a.isFinite

/-- Are the numeric properties of an expense finite numbers, where they are there? -/
def Expense.numbersFinite (e : Expense) : Bool :=
  finiteOrMissing e.amount && finiteOrMissing e.odometerReading &&
  finiteOrMissing e.startOdometer && finiteOrMissing e.endOdometer &&
  finiteOrMissing e.totalKm && finiteOrMissing e.rate

/-- Is a numeric property of a draft missing, or a number `v` with `0 <= v` (a finite
value that is not negative, or `Infinity`)? -/
def nonNegativeOrMissing : Option JSNum → Bool
  | none => true
  | some v => JSNum.le (JSNum.num 0) v

/-! ## Mileage derivation -/

/-- C1.  At the draft with `startOdometer = 100` and `endOdometer = 100`, and at the draft
that `parseVoiceInput` builds from a mileage transcript with a single numeral,
`addMileageEntry` does not fail: the returned promise is fulfilled with an entry whose
`totalKm` is not positive and the entry is put at the head of the collection. -/
theorem addMileageEntry_accepts_non_increasing_odometer :
    (UseBusinessExpenses.addMileageEntry 1705312800000
        { date := some ⟨2024, 1, 15⟩, startOdometer := some (JSNum.num 100),
          endOdometer := some (JSNum.num 100) } []).returned.toOption.map
        (fun e => (e.id, e.totalKm, e.amount))
      = some ("1705312800000", JSNum.num 0, JSNum.num 0) ∧
    (UseBusinessExpenses.addMileageEntry 1705312800000
        { date := some ⟨2024, 1, 15⟩, startOdometer := some (JSNum.num 100),
          endOdometer := some (JSNum.num 100) } []).mileageEntries.length = 1 ∧
    (VoiceInput.parseVoiceInput ⟨2024, 1, 15⟩ "Odometer 45230 to ABC Corp" "mileage").endOdometer
      = some (JSNum.num 0) ∧
    (UseBusinessExpenses.addMileageEntry 1705312800000
        (VoiceInput.parseVoiceInput ⟨2024, 1, 15⟩ "Odometer 45230 to ABC Corp" "mileage")
        []).mileageEntries.map (fun e => (e.totalKm, e.amount))
      = [(JSNum.num (-45230), JSNum.num (-30756.4))] := by
  decide!

/-- C2.  When both odometer fields of the form parse to numbers `a` (start) and `b` (end),
`handleSubmit` of `MileageLog` adds an entry exactly when `b > a`: for `b ≤ a` the state,
and with it the list of entries, is left as it was and the error toast
'End odometer must be greater than start odometer' is shown; for `b > a` the list becomes
the new entry followed by the old list. -/
theorem handleSubmit_adds_iff_end_gt_start (now : Nat) (today : CalDate)
    (st : MileageLog.State) (a b : ℚ)
    (hs : parseFloat st.formData.startOdometer.toList = JSNum.num a)
    (he : parseFloat st.formData.endOdometer.toList = JSNum.num b) :
    ((MileageLog.handleSubmit now today st).1.mileageEntries =
        MileageLog.newEntry now st.formData :: st.mileageEntries ↔ a < b) ∧
    ((MileageLog.handleSubmit now today st).1.mileageEntries = st.mileageEntries ↔ b ≤ a) ∧
    (b ≤ a → MileageLog.handleSubmit now today st =
      (st, Toast.error "End odometer must be greater than start odometer")) ∧
    (a < b → (MileageLog.handleSubmit now today st).2 =
      Toast.success "Mileage entry added successfully!") := by
  have hle : JSNum.le (parseFloat st.formData.endOdometer.toList)
      (parseFloat st.formData.startOdometer.toList) = decide (b ≤ a) := by
    rw [hs, he]; rfl
  unfold MileageLog.handleSubmit
  simp only [hle]
  by_cases h : b ≤ a
  · have hn : ¬ a < b := not_lt.mpr h
    simp [h, hn]
  · have hlt : a < b := not_le.mp h
    simp [h, hlt]

/-- Witness for C2: the form with readings `45180` and `45230`. -/
theorem handleSubmit_adds_iff_end_gt_start_witness :
    ((MileageLog.handleSubmit 1705312800000 ⟨2024, 1, 15⟩
        ⟨[], true, ⟨some ⟨2024, 1, 15⟩, "Home Office", "ABC Corp", "45180", "45230",
          "Client meeting", ""⟩⟩).1.mileageEntries =
        MileageLog.newEntry 1705312800000 ⟨some ⟨2024, 1, 15⟩, "Home Office", "ABC Corp",
          "45180", "45230", "Client meeting", ""⟩ :: [] ↔ (45180 : ℚ) < 45230) ∧
    ((MileageLog.handleSubmit 1705312800000 ⟨2024, 1, 15⟩
        ⟨[], true, ⟨some ⟨2024, 1, 15⟩, "Home Office", "ABC Corp", "45180", "45230",
          "Client meeting", ""⟩⟩).1.mileageEntries = [] ↔ (45230 : ℚ) ≤ 45180) ∧
    ((45230 : ℚ) ≤ 45180 → MileageLog.handleSubmit 1705312800000 ⟨2024, 1, 15⟩
        ⟨[], true, ⟨some ⟨2024, 1, 15⟩, "Home Office", "ABC Corp", "45180", "45230",
          "Client meeting", ""⟩⟩ =
      (⟨[], true, ⟨some ⟨2024, 1, 15⟩, "Home Office", "ABC Corp", "45180", "45230",
          "Client meeting", ""⟩⟩,
        Toast.error "End odometer must be greater than start odometer")) ∧
    ((45180 : ℚ) < 45230 → (MileageLog.handleSubmit 1705312800000 ⟨2024, 1, 15⟩
        ⟨[], true, ⟨some ⟨2024, 1, 15⟩, "Home Office", "ABC Corp", "45180", "45230",
          "Client meeting", ""⟩⟩).2 =
      Toast.success "Mileage entry added successfully!") :=
  handleSubmit_adds_iff_end_gt_start 1705312800000 ⟨2024, 1, 15⟩
    ⟨[], true, ⟨some ⟨2024, 1, 15⟩, "Home Office", "ABC Corp", "45180", "45230",
      "Client meeting", ""⟩⟩ 45180 45230 (by decide!) (by decide!)

/-- The readings are compared as Numbers: `9007199254740992` and `9007199254740993` are
read as the same Number, and the submission is rejected. -/
theorem handleSubmit_compares_numbers :
    parseFloat "9007199254740993".toList = JSNum.num 9007199254740992 ∧
    MileageLog.handleSubmit 1705312800000 ⟨2024, 1, 15⟩
        ⟨[], true, ⟨some ⟨2024, 1, 15⟩, "Home Office", "ABC Corp", "9007199254740992",
          "9007199254740993", "Client meeting", ""⟩⟩ =
      (⟨[], true, ⟨some ⟨2024, 1, 15⟩, "Home Office", "ABC Corp", "9007199254740992",
          "9007199254740993", "Client meeting", ""⟩⟩,
        Toast.error "End odometer must be greater than start odometer") := by
  decide!

/-- A value that is greater than another is not less than or equal to it. -/
theorem le_eq_false_of_gt (a b : JSNum) (h : JSNum.gt a b = true) : JSNum.le a b = false := by
  rcases a with _ | a | _ | _ <;> rcases b with _ | b | _ | _ <;>
    simp_all [JSNum.gt, JSNum.le]

/-- The rate looked up in the table of the one configured pair is `0.68`, whatever the
year and the default. -/
theorem rateFor_craRateTable (dflt : ℚ) (year : Nat) :
    rateFor craRateTable dflt year = 0.68 := by
  by_cases h : 2024 ≤ year <;>
    simp [rateFor, craRateTable, MileageLog.CRA_RATE_2024, List.filter, h]

/-- C3.  The entry built by `addMileageEntry` has `totalKm = endOdometer - startOdometer`,
`rate = 0.68`, which is the rate of the rate table for every year (the table holds the
2024 rate only), and `amount = totalKm * rate`; the three do not depend on the `totalKm`,
`rate` and `amount` that the draft carries.  For the readings 45180 and 45230 and a date in
2024 they are 50, 0.68 and 34.  When `handleSubmit` of `MileageLog` builds an entry from
the same readings, its `distance` and `amount` are the same. -/
theorem addMileageEntry_derived_fields (now : Nat) (mileageData : Draft)
    (prev : List UseBusinessExpenses.MileageEntry) (t r a : Option JSNum) (dflt : ℚ)
    (year : Nat) (today : CalDate) (st : MileageLog.State)
    (hs : parseFloat st.formData.startOdometer.toList = toNumber mileageData.startOdometer)
    (he : parseFloat st.formData.endOdometer.toList = toNumber mileageData.endOdometer)
    (hgt : JSNum.gt (toNumber mileageData.endOdometer) (toNumber mileageData.startOdometer)
      = true) :
    (UseBusinessExpenses.addMileageEntry now mileageData prev).mileageEntries.head? =
        some (UseBusinessExpenses.newEntry now mileageData) ∧
    (UseBusinessExpenses.newEntry now mileageData).totalKm =
        JSNum.sub (toNumber mileageData.endOdometer) (toNumber mileageData.startOdometer) ∧
    (UseBusinessExpenses.newEntry now mileageData).rate = JSNum.num 0.68 ∧
    (UseBusinessExpenses.newEntry now mileageData).rate =
        JSNum.num (rateFor craRateTable dflt year) ∧
    (UseBusinessExpenses.newEntry now mileageData).amount =
        JSNum.mul (UseBusinessExpenses.newEntry now mileageData).totalKm
          (UseBusinessExpenses.newEntry now mileageData).rate ∧
    ((UseBusinessExpenses.newEntry now
          { mileageData with totalKm := t, rate := r, amount := a }).totalKm =
        (UseBusinessExpenses.newEntry now mileageData).totalKm ∧
      (UseBusinessExpenses.newEntry now
          { mileageData with totalKm := t, rate := r, amount := a }).rate =
        (UseBusinessExpenses.newEntry now mileageData).rate ∧
      (UseBusinessExpenses.newEntry now
          { mileageData with totalKm := t, rate := r, amount := a }).amount =
        (UseBusinessExpenses.newEntry now mileageData).amount) ∧
    ((UseBusinessExpenses.newEntry now
          { date := some ⟨2024, 1, 15⟩, startOdometer := some (JSNum.num 45180),
            endOdometer := some (JSNum.num 45230) }).totalKm = JSNum.num 50 ∧
      (UseBusinessExpenses.newEntry now
          { date := some ⟨2024, 1, 15⟩, startOdometer := some (JSNum.num 45180),
            endOdometer := some (JSNum.num 45230) }).rate = JSNum.num 0.68 ∧
      (UseBusinessExpenses.newEntry now
          { date := some ⟨2024, 1, 15⟩, startOdometer := some (JSNum.num 45180),
            endOdometer := some (JSNum.num 45230) }).amount = JSNum.num 34) ∧
    (MileageLog.handleSubmit now today st).1.mileageEntries.head?.map
        (fun e => (e.distance, e.amount)) =
      some ((UseBusinessExpenses.newEntry now mileageData).totalKm,
        (UseBusinessExpenses.newEntry now mileageData).amount) := by
  have hle : JSNum.le (parseFloat st.formData.endOdometer.toList)
      (parseFloat st.formData.startOdometer.toList) = false := by
    rw [hs, he]
    exact le_eq_false_of_gt _ _ hgt
  refine ⟨rfl, rfl, by norm_num [UseBusinessExpenses.newEntry, UseBusinessExpenses.rate], ?_,
    rfl, ⟨rfl, rfl, rfl⟩, ⟨?_, ?_, ?_⟩, ?_⟩
  · rw [rateFor_craRateTable]
    norm_num [UseBusinessExpenses.newEntry, UseBusinessExpenses.rate]
  · norm_num [UseBusinessExpenses.newEntry, toNumber, JSNum.sub]
  · norm_num [UseBusinessExpenses.newEntry, UseBusinessExpenses.rate]
  · norm_num [UseBusinessExpenses.newEntry, UseBusinessExpenses.rate, toNumber, JSNum.sub,
      JSNum.mul]
  · unfold MileageLog.handleSubmit
    simp only [hle]
    simp only [Bool.false_eq_true, if_false, List.head?_cons, Option.map_some',
      MileageLog.newEntry, UseBusinessExpenses.newEntry, hs, he, MileageLog.CRA_RATE_2024,
      UseBusinessExpenses.rate]

/-- Witness for C3: the draft and the form with readings 45180 and 45230. -/
theorem addMileageEntry_derived_fields_witness :
    (MileageLog.handleSubmit 1705312800000 ⟨2024, 1, 15⟩
        ⟨[], true, ⟨some ⟨2024, 1, 15⟩, "Home Office", "ABC Corp", "45180", "45230",
          "Client meeting", ""⟩⟩).1.mileageEntries.head?.map
        (fun e => (e.distance, e.amount)) =
      some ((UseBusinessExpenses.newEntry 1705312800000
          { date := some ⟨2024, 1, 15⟩, startOdometer := some (JSNum.num 45180),
            endOdometer := some (JSNum.num 45230) }).totalKm,
        (UseBusinessExpenses.newEntry 1705312800000
          { date := some ⟨2024, 1, 15⟩, startOdometer := some (JSNum.num 45180),
            endOdometer := some (JSNum.num 45230) }).amount) :=
  (addMileageEntry_derived_fields 1705312800000
    { date := some ⟨2024, 1, 15⟩, startOdometer := some (JSNum.num 45180),
      endOdometer := some (JSNum.num 45230) } [] none none none 0 2024 ⟨2024, 1, 15⟩
    ⟨[], true, ⟨some ⟨2024, 1, 15⟩, "Home Office", "ABC Corp", "45180", "45230",
      "Client meeting", ""⟩⟩ (by decide!) (by decide!) (by decide!)).2.2.2.2.2.2.2

/-- C4, counterexample.  For the readings 0 and 0.125 the amount stored by `handleSubmit`
and by `addMileageEntry` is the product 0.125 * 0.68 = 0.085, which has three decimal
places and is not the value 0.09 that rounding to 2 places gives. -/
theorem mileage_amount_not_rounded :
    (MileageLog.handleSubmit 1705312800000 ⟨2024, 1, 15⟩
        ⟨[], true, ⟨some ⟨2024, 1, 15⟩, "Home Office", "ABC Corp", "0", "0.125",
          "Client meeting", ""⟩⟩).1.mileageEntries.map (fun e => (e.distance, e.amount)) =
      [(JSNum.num 0.125, JSNum.num 0.085)] ∧
    (UseBusinessExpenses.addMileageEntry 1705312800000
        { date := some ⟨2024, 1, 15⟩, startOdometer := some (JSNum.num 0),
          endOdometer := some (JSNum.num 0.125) } []).mileageEntries.map
        (fun e => (e.totalKm, e.amount)) =
      [(JSNum.num 0.125, JSNum.num 0.085)] ∧
    round2 (0.125 * 0.68) = 0.09 ∧
    JSNum.num 0.085 ≠ JSNum.num (round2 (0.125 * 0.68)) := by
  decide!

/-- C4, amended.  For readings `a < b` the amount stored by `handleSubmit` and by
`addMileageEntry` is the product `(b - a) * 0.68` as the operators `-` and `*` give it:
no step rounds it to 2 decimal places. -/
theorem mileage_amount_is_product (now : Nat) (today : CalDate) (st : MileageLog.State)
    (mileageData : Draft) (prev : List UseBusinessExpenses.MileageEntry) (a b : ℚ)
    (hs : parseFloat st.formData.startOdometer.toList = JSNum.num a)
    (he : parseFloat st.formData.endOdometer.toList = JSNum.num b)
    (hds : mileageData.startOdometer = some (JSNum.num a))
    (hde : mileageData.endOdometer = some (JSNum.num b))
    (hlt : a < b) :
    (MileageLog.handleSubmit now today st).1.mileageEntries.head?.map (fun e => e.amount) =
      some (JSNum.mul (JSNum.sub (JSNum.num b) (JSNum.num a)) (JSNum.num 0.68)) ∧
    (UseBusinessExpenses.addMileageEntry now mileageData prev).mileageEntries.head?.map
        (fun e => e.amount) =
      some (JSNum.mul (JSNum.sub (JSNum.num b) (JSNum.num a)) (JSNum.num 0.68)) := by
  have hle : JSNum.le (parseFloat st.formData.endOdometer.toList)
      (parseFloat st.formData.startOdometer.toList) = false := by
    rw [hs, he]
    simp [JSNum.le, hlt]
  refine ⟨?_, ?_⟩
  · unfold MileageLog.handleSubmit
    simp only [hle]
    simp only [Bool.false_eq_true, if_false, List.head?_cons, Option.map_some',
      MileageLog.newEntry, hs, he, MileageLog.CRA_RATE_2024]
  · simp only [UseBusinessExpenses.addMileageEntry, List.head?_cons, Option.map_some',
      UseBusinessExpenses.newEntry, hds, hde, toNumber, Option.getD_some,
      UseBusinessExpenses.rate]

/-- Witness for C4, amended: the readings 45180 and 45230. -/
theorem mileage_amount_is_product_witness :
    (MileageLog.handleSubmit 1705312800000 ⟨2024, 1, 15⟩
        ⟨[], true, ⟨some ⟨2024, 1, 15⟩, "Home Office", "ABC Corp", "45180", "45230",
          "Client meeting", ""⟩⟩).1.mileageEntries.head?.map (fun e => e.amount) =
      some (JSNum.mul (JSNum.sub (JSNum.num 45230) (JSNum.num 45180)) (JSNum.num 0.68)) ∧
    (UseBusinessExpenses.addMileageEntry 1705312800000
        { date := some ⟨2024, 1, 15⟩, startOdometer := some (JSNum.num 45180),
          endOdometer := some (JSNum.num 45230) } []).mileageEntries.head?.map
        (fun e => e.amount) =
      some (JSNum.mul (JSNum.sub (JSNum.num 45230) (JSNum.num 45180)) (JSNum.num 0.68)) :=
  mileage_amount_is_product 1705312800000 ⟨2024, 1, 15⟩
    ⟨[], true, ⟨some ⟨2024, 1, 15⟩, "Home Office", "ABC Corp", "45180", "45230",
      "Client meeting", ""⟩⟩
    { date := some ⟨2024, 1, 15⟩, startOdometer := some (JSNum.num 45180),
      endOdometer := some (JSNum.num 45230) } [] 45180 45230
    (by decide!) (by decide!) rfl rfl (by norm_num)

/-! ## The transcript parser on the examples of the voice dialog -/

/-- C5, counterexample.  On the mileage example of the voice dialog the draft does not
have `endOdometer = 45230`, `endLocation = "ABC Corp Toronto meeting"` and
`attendees = "John Smith"`: the only numeral is the start reading, and the phrases after
`to` and `with` run to the end of the transcript. -/
theorem parseVoiceInput_mileage_example_differs :
    (VoiceInput.parseVoiceInput ⟨2024, 1, 15⟩
      "Odometer 45230 to ABC Corp Toronto meeting with John Smith for contract discussion"
      "mileage").endOdometer ≠ some (JSNum.num 45230) ∧
    (VoiceInput.parseVoiceInput ⟨2024, 1, 15⟩
      "Odometer 45230 to ABC Corp Toronto meeting with John Smith for contract discussion"
      "mileage").endLocation ≠ some "ABC Corp Toronto meeting" ∧
    (VoiceInput.parseVoiceInput ⟨2024, 1, 15⟩
      "Odometer 45230 to ABC Corp Toronto meeting with John Smith for contract discussion"
      "mileage").attendees ≠ some "John Smith" := by
  decide!

/-- C5, amended.  On the mileage example of the voice dialog the draft has
`startOdometer = 45230`, `endOdometer = 0`,
`endLocation = "ABC Corp Toronto meeting with John Smith for contract discussion"`,
`attendees = "John Smith for contract discussion"` and
`businessPurpose = "contract discussion"`. -/
theorem parseVoiceInput_mileage_example :
    VoiceInput.parseVoiceInput ⟨2024, 1, 15⟩
      "Odometer 45230 to ABC Corp Toronto meeting with John Smith for contract discussion"
      "mileage" =
    { date := some ⟨2024, 1, 15⟩
      description := some
        "Odometer 45230 to ABC Corp Toronto meeting with John Smith for contract discussion"
      startOdometer := some (JSNum.num 45230)
      endOdometer := some (JSNum.num 0)
      startLocation := some "Home Office"
      endLocation := some
        "ABC Corp Toronto meeting with John Smith for contract discussion"
      businessPurpose := some "contract discussion"
      attendees := some "John Smith for contract discussion" } := by
  decide!

/-- C6.  On the fuel example of the voice dialog the draft has `amount = 65`, `title` and
`location` both `"Shell gas station odometer 45280"`, and `odometerReading = 45280`. -/
theorem parseVoiceInput_fuel_example :
    VoiceInput.parseVoiceInput ⟨2024, 1, 15⟩
      "65 dollars at Shell gas station odometer 45280" "fuel" =
    { date := some ⟨2024, 1, 15⟩
      description := some "65 dollars at Shell gas station odometer 45280"
      type := some "fuel"
      category := some "Fuel"
      amount := some (JSNum.num 65)
      title := some "Shell gas station odometer 45280"
      location := some "Shell gas station odometer 45280"
      odometerReading := some (JSNum.num 45280) } := by
  decide!

/-- C10.  For every transcript and every intent, recognised or not, the draft returned by
`parseVoiceInput` of `VoiceInput` has `description` equal to the transcript, and so has
the draft returned by the generic `parseVoiceInput` of `useVoiceInput`. -/
theorem parseVoiceInput_description_verbatim (today : CalDate) (text type : String) :
    (VoiceInput.parseVoiceInput today text type).description = some text ∧
    (UseVoiceInput.parseVoiceInput text).description = text := by
  refine ⟨?_, rfl⟩
  unfold VoiceInput.parseVoiceInput
  simp only
  split_ifs <;> rfl

/-! ## The matcher clause by clause, and transcripts without numerals -/

theorem manyRun_one_nil (p : Char → Bool) : manyRun p 1 [] = [] := rfl

theorem manyRun_one_cons_neg (p : Char → Bool) (c : Char) (cs : List Char) (h : p c = false) :
    manyRun p 1 (c :: cs) = [] := by
  simp [manyRun, h]

theorem lowerChar_not_digit (c : Char) (h : c.isDigit = false) :
    ∀ d ∈ lowerChar c, d.isDigit = false := by
  intro d hd
  unfold lowerChar at hd
  split_ifs at hd with h1 h2
  · simp at hd; subst hd; decide
  · simp at hd; rcases hd with rfl | rfl <;> decide
  · simp at hd; subst hd
    unfold Char.toLower
    simp only
    split_ifs with h3
    · obtain ⟨h4, h5⟩ := h3
      generalize c.toNat = n at h4 h5
      interval_cases n <;> decide
    · exact h

theorem digit_many_run_nil (s : List Char) (h : ∀ c ∈ s, c.isDigit = false) (r : RE) :
    (RE.seq (.many Char.isDigit 1) r).run s = [] := by
  cases s with
  | nil => simp [RE.run, manyRun]
  | cons c cs =>
    have hc : c.isDigit = false := h c (List.mem_cons_self _ _)
    simp [RE.run, manyRun, hc]

theorem numberRE_search_none (s : List Char) (h : ∀ c ∈ s, c.isDigit = false) :
    VoiceInput.numberRE.search s = none := by
  induction s with
  | nil =>
    simp [RE.search, VoiceInput.numberRE, digit_many_run_nil [] h]
  | cons c cs ih =>
    have ih' := ih (fun d hd => h d (List.mem_cons_of_mem _ hd))
    simp [RE.search, VoiceInput.numberRE, digit_many_run_nil (c :: cs) h]
    simpa [VoiceInput.numberRE] using ih'

theorem numbers_nil_of_no_digit (text : String) (h : ∀ c ∈ text.toList, c.isDigit = false) :
    VoiceInput.numbers text = [] := by
  unfold VoiceInput.numbers RE.matchAll RE.matchAllAux
  rw [numberRE_search_none _ h]

theorem run_seq (r1 r2 : RE) (s : List Char) :
    (RE.seq r1 r2).run s = (r1.run s).flatMap (fun x =>
      (r2.run x.rest).map (fun y => ⟨x.matched ++ y.matched, x.caps ++ y.caps, y.rest⟩)) := by
  rw [RE.run]

theorem run_opt (r : RE) (s : List Char) : (RE.opt r).run s = r.run s ++ [⟨[], [], s⟩] := by
  rw [RE.run]

theorem run_group (r : RE) (s : List Char) :
    (RE.group r).run s = (r.run s).map (fun x => ⟨x.matched, x.matched :: x.caps, x.rest⟩) := by
  rw [RE.run]

theorem run_alt (r1 r2 : RE) (s : List Char) : (RE.alt r1 r2).run s = r1.run s ++ r2.run s := by
  rw [RE.run]

theorem run_many (p : Char → Bool) (n : Nat) (s : List Char) :
    (RE.many p n).run s = (manyRun p n s).map (fun x => ⟨x.1, [], x.2⟩) := by
  rw [RE.run]

theorem run_cls_nil (p : Char → Bool) : (RE.cls p).run [] = [] := by
  rw [RE.run]

theorem run_cls_cons (p : Char → Bool) (c : Char) (cs : List Char) :
    (RE.cls p).run (c :: cs) = if p c then [⟨[c], [], cs⟩] else [] := by
  rw [RE.run]

theorem amountRE_run_nil (s : List Char) (h : ∀ c ∈ s, c.isDigit = false) :
    UseVoiceInput.amountRE.run s = [] := by
  unfold UseVoiceInput.amountRE
  rw [run_seq, run_opt]
  cases s with
  | nil =>
    rw [RE.char, run_cls_nil]
    simp [digit_many_run_nil [] h]
  | cons c cs =>
    have h' : ∀ d ∈ cs, d.isDigit = false := fun d hd => h d (List.mem_cons_of_mem _ hd)
    rw [RE.char, run_cls_cons]
    split_ifs <;> simp [digit_many_run_nil (c :: cs) h, digit_many_run_nil cs h']

theorem amountRE_search_none (s : List Char) (h : ∀ c ∈ s, c.isDigit = false) :
    (RE.group UseVoiceInput.amountRE).search s = none := by
  induction s with
  | nil => simp [RE.search, run_group, amountRE_run_nil [] h]
  | cons c cs ih =>
    have ih' := ih (fun d hd => h d (List.mem_cons_of_mem _ hd))
    simp [RE.search, run_group, amountRE_run_nil (c :: cs) h, ih']

theorem toLowerCase_no_digit (s : List Char) (h : ∀ c ∈ s, c.isDigit = false) :
    ∀ d ∈ toLowerCase s, d.isDigit = false := by
  intro d hd
  unfold toLowerCase at hd
  rw [List.mem_flatMap] at hd
  obtain ⟨c, hc, hdc⟩ := hd
  exact lowerChar_not_digit c (h c hc) d hdc

/-- C9.  For a transcript without a decimal digit (the empty one included) every numeric
field of the draft is 0: `startOdometer` and `endOdometer` for mileage, `amount` and
`odometerReading` for fuel, `amount` for meal, accommodation and miscellaneous and for the
generic parser.  For a transcript with exactly one numeral the secondary values
`endOdometer` and `odometerReading` are 0. -/
theorem missing_numerals_yield_zero (today : CalDate) (text : String) :
    ((∀ c ∈ text.toList, c.isDigit = false) →
      (VoiceInput.parseVoiceInput today text "mileage").startOdometer = some (JSNum.num 0) ∧
      (VoiceInput.parseVoiceInput today text "mileage").endOdometer = some (JSNum.num 0) ∧
      (VoiceInput.parseVoiceInput today text "fuel").amount = some (JSNum.num 0) ∧
      (VoiceInput.parseVoiceInput today text "fuel").odometerReading = some (JSNum.num 0) ∧
      (VoiceInput.parseVoiceInput today text "meal").amount = some (JSNum.num 0) ∧
      (VoiceInput.parseVoiceInput today text "accommodation").amount = some (JSNum.num 0) ∧
      (VoiceInput.parseVoiceInput today text "miscellaneous").amount = some (JSNum.num 0) ∧
      (UseVoiceInput.parseVoiceInput text).amount = JSNum.num 0) ∧
    ((VoiceInput.numbers text).length = 1 →
      (VoiceInput.parseVoiceInput today text "mileage").endOdometer = some (JSNum.num 0) ∧
      (VoiceInput.parseVoiceInput today text "fuel").odometerReading = some (JSNum.num 0)) := by
  constructor
  · intro h
    have hn := numbers_nil_of_no_digit text h
    have hg := amountRE_search_none _ (toLowerCase_no_digit _ h)
    refine ⟨?_, ?_, ?_, ?_, ?_, ?_, ?_, ?_⟩
    all_goals first
      | (simp only [VoiceInput.parseVoiceInput, hn]; rfl)
      | (simp only [UseVoiceInput.parseVoiceInput, hg])
  · intro h
    have h1 : (VoiceInput.numbers text)[1]? = none := by
      rw [List.getElem?_eq_none_iff]; omega
    constructor <;> (simp only [VoiceInput.parseVoiceInput, h1]; rfl)

/-- Witness for C9: a transcript without a digit and a transcript with one numeral. -/
theorem missing_numerals_yield_zero_witness :
    ((VoiceInput.parseVoiceInput ⟨2024, 1, 15⟩ "to Ottawa" "mileage").startOdometer
        = some (JSNum.num 0) ∧
      (VoiceInput.parseVoiceInput ⟨2024, 1, 15⟩ "to Ottawa" "mileage").endOdometer
        = some (JSNum.num 0) ∧
      (VoiceInput.parseVoiceInput ⟨2024, 1, 15⟩ "to Ottawa" "fuel").amount
        = some (JSNum.num 0) ∧
      (VoiceInput.parseVoiceInput ⟨2024, 1, 15⟩ "to Ottawa" "fuel").odometerReading
        = some (JSNum.num 0) ∧
      (VoiceInput.parseVoiceInput ⟨2024, 1, 15⟩ "to Ottawa" "meal").amount
        = some (JSNum.num 0) ∧
      (VoiceInput.parseVoiceInput ⟨2024, 1, 15⟩ "to Ottawa" "accommodation").amount
        = some (JSNum.num 0) ∧
      (VoiceInput.parseVoiceInput ⟨2024, 1, 15⟩ "to Ottawa" "miscellaneous").amount
        = some (JSNum.num 0) ∧
      (UseVoiceInput.parseVoiceInput "to Ottawa").amount = JSNum.num 0) ∧
    ((VoiceInput.parseVoiceInput ⟨2024, 1, 15⟩ "Odometer 45230" "mileage").endOdometer
        = some (JSNum.num 0) ∧
      (VoiceInput.parseVoiceInput ⟨2024, 1, 15⟩ "Odometer 45230" "fuel").odometerReading
        = some (JSNum.num 0)) :=
  ⟨(missing_numerals_yield_zero ⟨2024, 1, 15⟩ "to Ottawa").1 (by decide),
   (missing_numerals_yield_zero ⟨2024, 1, 15⟩ "Odometer 45230").2 (by decide)⟩

/-! ## The phrase after a preposition -/

theorem manyRun_zero_head (p : Char → Bool) (s : List Char) :
    (manyRun p 0 s).head? = some (s.takeWhile p, s.dropWhile p) := by
  induction s with
  | nil => rfl
  | cons c cs ih =>
    by_cases h : p c
    · simp [manyRun, h, ih]
    · simp [manyRun, h]

theorem manyRun_one_cons_pos (p : Char → Bool) (c : Char) (cs : List Char) (h : p c = true) :
    manyRun p 1 (c :: cs) = (manyRun p 0 cs).map (fun x => (c :: x.1, x.2)) := by
  simp [manyRun, h]

theorem manyRun_zero_cons_pos (p : Char → Bool) (c : Char) (cs : List Char) (h : p c = true) :
    manyRun p 0 (c :: cs) = (manyRun p 0 cs).map (fun x => (c :: x.1, x.2)) ++ [([], c :: cs)] := by
  simp [manyRun, h]

theorem manyRun_zero_cons_neg (p : Char → Bool) (c : Char) (cs : List Char) (h : p c = false) :
    manyRun p 0 (c :: cs) = [([], c :: cs)] := by
  simp [manyRun, h]

theorem notCommaPeriod_of_space (c : Char) (h : isJsSpace c = true) : notCommaPeriod c = true := by
  unfold notCommaPeriod
  by_cases h1 : c = ','
  · subst h1; exact absurd h (by decide)
  · by_cases h2 : c = '.'
    · subst h2; exact absurd h (by decide)
    · simp [h1, h2]

theorem jsTrim_cons_space (c : Char) (s : List Char) (h : isJsSpace c = true) :
    jsTrim (c :: s) = jsTrim s := by
  simp [jsTrim, h]

theorem capsAfterSpaces_zero (s : List Char) :
    (capsAfterSpaces 0 s).head?.map jsTrim =
      match s with
      | d :: _ => if notCommaPeriod d then some (jsTrim (s.takeWhile notCommaPeriod)) else none
      | [] => none := by
  induction s with
  | nil => rfl
  | cons c cs ih =>
    by_cases hw : isJsSpace c = true
    · have hc := notCommaPeriod_of_space c hw
      have hsplit : capsAfterSpaces 0 (c :: cs) =
          capsAfterSpaces 0 cs ++ (manyRun notCommaPeriod 1 (c :: cs)).map (fun y => y.1) := by
        simp [capsAfterSpaces, manyRun_zero_cons_pos _ _ _ hw, List.flatMap_map]
      rw [hsplit, List.head?_append]
      simp only [hc, if_true, List.takeWhile_cons_of_pos hc, jsTrim_cons_space _ _ hw]
      cases cs with
      | nil => simp [capsAfterSpaces, manyRun, hc, jsTrim_cons_space _ _ hw]
      | cons d ds =>
        by_cases hd : notCommaPeriod d = true
        · simp only [hd, if_true] at ih
          cases hh : (capsAfterSpaces 0 (d :: ds)).head? with
          | none => rw [hh] at ih; simp at ih
          | some v => rw [hh] at ih; simpa using ih
        · simp only [hd] at ih
          have hnone : (capsAfterSpaces 0 (d :: ds)).head? = none := by
            cases hh : (capsAfterSpaces 0 (d :: ds)).head? with
            | none => rfl
            | some v => rw [hh] at ih; simp at ih
          rw [hnone]
          have hd' : notCommaPeriod d = false := by simpa using hd
          simp [manyRun_one_cons_pos _ _ _ hc, manyRun_zero_cons_neg _ _ _ hd',
            List.takeWhile_cons_of_neg hd, jsTrim_cons_space _ _ hw]
    · have hw' : isJsSpace c = false := by simpa using hw
      by_cases hc : notCommaPeriod c = true
      · have := manyRun_zero_head notCommaPeriod cs
        cases hm : manyRun notCommaPeriod 0 cs with
        | nil => rw [hm] at this; simp at this
        | cons x xs =>
          rw [hm] at this
          simp only [List.head?_cons, Option.some.injEq] at this
          simp [capsAfterSpaces, manyRun_zero_cons_neg _ _ _ hw', manyRun_one_cons_pos _ _ _ hc,
            hm, this, hc]
      · have hc' : notCommaPeriod c = false := by simpa using hc
        simp [capsAfterSpaces, manyRun_zero_cons_neg _ _ _ hw', manyRun_one_cons_neg _ _ _ hc', hc']

theorem capsAfterSpaces_one (s : List Char) :
    (capsAfterSpaces 1 s).head?.map jsTrim =
      match s with
      | w :: d :: _ =>
        if isJsSpace w && notCommaPeriod d then some (jsTrim (s.takeWhile notCommaPeriod))
        else none
      | _ => none := by
  cases s with
  | nil => rfl
  | cons w rest =>
    by_cases hw : isJsSpace w = true
    · have hc := notCommaPeriod_of_space w hw
      have h0 : capsAfterSpaces 1 (w :: rest) = capsAfterSpaces 0 rest := by
        simp [capsAfterSpaces, manyRun_one_cons_pos _ _ _ hw, List.flatMap_map]
      rw [h0, capsAfterSpaces_zero]
      cases rest with
      | nil => rfl
      | cons d ds =>
        simp [hw, List.takeWhile_cons_of_pos hc, jsTrim_cons_space _ _ hw]
    · have hw' : isJsSpace w = false := by simpa using hw
      have h0 : capsAfterSpaces 1 (w :: rest) = [] := by
        simp [capsAfterSpaces, manyRun_one_cons_neg _ _ _ hw']
      rw [h0]
      cases rest <;> simp [hw']

theorem run_wordCI (c : Char) (p s : List Char) :
    (RE.wordCI (c :: p)).run s =
      if startsWithCI (c :: p) s then [⟨s.take (c :: p).length, [], s.drop (c :: p).length⟩]
      else [] := by
  induction p generalizing c s with
  | nil =>
    cases s with
    | nil => simp [RE.wordCI, run_cls_nil, startsWithCI]
    | cons d ds => simp [RE.wordCI, run_cls_cons, startsWithCI]
  | cons c2 p ih =>
    rw [RE.wordCI, run_seq]
    · cases s with
      | nil => simp [run_cls_nil, startsWithCI]
      | cons d ds =>
        rw [run_cls_cons]
        by_cases h : d.toUpper = c.toUpper
        · simp only [h, decide_True, if_true, List.flatMap_cons, List.flatMap_nil,
            List.append_nil, ih]
          by_cases h2 : startsWithCI (c2 :: p) ds = true
          · simp [startsWithCI, h, h2]
          · simp [startsWithCI, h, h2]
        · simp [startsWithCI, h]
    · simp

theorem phrase_tail_caps (s : List Char) :
    ((RE.seq (.many isJsSpace 1) (.group (.many notCommaPeriod 1))).run s).map
      (fun m => m.cap 1) = capsAfterSpaces 1 s := by
  rw [run_seq, run_many]
  simp only [run_group, run_many, List.map_flatMap, List.flatMap_map, List.map_map,
    capsAfterSpaces]
  rfl

theorem location_run_caps (c : Char) (p s : List Char) :
    ((RE.seq (RE.wordCI (c :: p))
      (.seq (.many isJsSpace 1) (.group (.many notCommaPeriod 1)))).run s).map
      (fun m => m.cap 1) =
    if startsWithCI (c :: p) s then capsAfterSpaces 1 (s.drop (c :: p).length) else [] := by
  rw [run_seq, run_wordCI]
  by_cases h : startsWithCI (c :: p) s = true
  · simp only [h, if_true, List.flatMap_cons, List.flatMap_nil, List.append_nil, List.map_map]
    rw [← phrase_tail_caps]
    rfl
  · simp [h]

theorem location_run_head (c : Char) (p s : List Char) :
    ((RE.seq (RE.wordCI (c :: p))
      (.seq (.many isJsSpace 1) (.group (.many notCommaPeriod 1)))).run s).head?.map
      (fun m => jsTrim (m.cap 1)) =
    if phraseStartsHere (c :: p) s then
      some (jsTrim ((s.drop (c :: p).length).takeWhile notCommaPeriod))
    else none := by
  have h1 : ∀ l : List Match, l.head?.map (fun m => jsTrim (m.cap 1)) =
      (l.map (fun m => m.cap 1)).head?.map jsTrim := by
    intro l; cases l <;> rfl
  rw [h1, location_run_caps]
  unfold phraseStartsHere
  by_cases h : startsWithCI (c :: p) s = true
  · simp only [h, if_true, Bool.true_and]
    rw [capsAfterSpaces_one]
    rcases hd : s.drop (c :: p).length with _ | ⟨w, _ | ⟨d, ds⟩⟩ <;> simp
  · simp [h]

theorem location_search (c : Char) (p s : List Char) :
    ((RE.seq (RE.wordCI (c :: p))
      (.seq (.many isJsSpace 1) (.group (.many notCommaPeriod 1)))).search s).map
      (fun x => jsTrim (x.2.cap 1)) = phraseAfter (c :: p) s := by
  induction s with
  | nil =>
    have := location_run_head c p []
    simp only [RE.search, Option.map_map, phraseAfter]
    cases hh : ((RE.seq (RE.wordCI (c :: p))
      (.seq (.many isJsSpace 1) (.group (.many notCommaPeriod 1)))).run []).head? with
    | none => rfl
    | some m => rw [hh] at this; simp [phraseStartsHere, startsWithCI] at this
  | cons d ds ih =>
    have := location_run_head c p (d :: ds)
    rw [RE.search, phraseAfter]
    cases hh : ((RE.seq (RE.wordCI (c :: p))
      (.seq (.many isJsSpace 1) (.group (.many notCommaPeriod 1)))).run (d :: ds)).head? with
    | none =>
      rw [hh] at this
      have hph : phraseStartsHere (c :: p) (d :: ds) = false := by
        by_contra hne
        simp only [Bool.not_eq_false] at hne
        simp [hne] at this
      simp only [hph, Bool.false_eq_true, if_false, Option.map_map]
      rw [← ih]
      rfl
    | some m =>
      rw [hh] at this
      have hph : phraseStartsHere (c :: p) (d :: ds) = true := by
        by_contra hne
        simp [hne] at this
      simp only [hph, if_true] at this ⊢
      simpa using this

theorem extractLocation_of_cons (text p : String) (c : Char) (ps : List Char)
    (h : p.toList = c :: ps) :
    VoiceInput.extractLocation text p = (phraseAfter p.toList text.toList).map String.mk := by
  unfold VoiceInput.extractLocation VoiceInput.locationRE
  rw [h, ← location_search]
  cases (RE.seq (RE.wordCI (c :: ps))
      (.seq (.many isJsSpace 1) (.group (.many notCommaPeriod 1)))).search text.toList <;> rfl

/-- C7, counterexample.  In "from Toronto to Ottawa" the letters `to` that end `Toronto` are
followed by a space, so `extractLocation(text, 'to')` returns "to Ottawa" and not the words
"Ottawa" that follow the word `to`; and in "Toronto airport", where the word `to` does not
occur, it returns "airport" and not `null`. -/
theorem extractLocation_matches_inside_word :
    VoiceInput.extractLocation "from Toronto to Ottawa" "to" = some "to Ottawa" ∧
    VoiceInput.extractLocation "from Toronto to Ottawa" "to" ≠ some "Ottawa" ∧
    VoiceInput.extractLocation "Toronto airport" "to" = some "airport" ∧
    VoiceInput.extractLocation "Toronto airport" "to" ≠ none := by
  decide

/-- C7, amended.  For a preposition `p` among `from`, `to`, `at` and `in`,
`extractLocation(text, p)` is the phrase found by the direct scan `phraseAfter`: at the
first position where the letters of `p` occur, in either case and whether or not they
form a word of their own, followed by a white space character and then a character other
than a comma and a period, the text after those letters up to the next comma or period,
trimmed; and `null` when there is no such position. -/
theorem extractLocation_eq_phraseAfter (text p : String)
    (hp : p ∈ ["from", "to", "at", "in"]) :
    VoiceInput.extractLocation text p = (phraseAfter p.toList text.toList).map String.mk := by
  simp only [List.mem_cons, List.mem_singleton, List.not_mem_nil, or_false] at hp
  rcases hp with rfl | rfl | rfl | rfl
  · exact extractLocation_of_cons text "from" 'f' ['r', 'o', 'm'] rfl
  · exact extractLocation_of_cons text "to" 't' ['o'] rfl
  · exact extractLocation_of_cons text "at" 'a' ['t'] rfl
  · exact extractLocation_of_cons text "in" 'i' ['n'] rfl

/-- Witness for C7, amended: the preposition `to` in "from Toronto to Ottawa, then home". -/
theorem extractLocation_eq_phraseAfter_witness :
    "to" ∈ ["from", "to", "at", "in"] ∧
    VoiceInput.extractLocation "from Toronto to Ottawa, then home" "to" =
      (phraseAfter "to".toList "from Toronto to Ottawa, then home".toList).map String.mk :=
  ⟨by decide,
    extractLocation_eq_phraseAfter "from Toronto to Ottawa, then home" "to" (by decide)⟩

/-! ## The numerals of a transcript -/

theorem head_flatMap_of_head {α β : Type} (l : List α) (f : α → List β) (x : α) (y : β)
    (hx : l.head? = some x) (hy : (f x).head? = some y) : (l.flatMap f).head? = some y := by
  cases l with
  | nil => simp at hx
  | cons a as =>
    simp only [List.head?_cons, Option.some.injEq] at hx
    subst hx
    simp [List.flatMap_cons, List.head?_append, hy]

theorem head_seq (r1 r2 : RE) (s : List Char) (x y : Match)
    (hx : (r1.run s).head? = some x) (hy : (r2.run x.rest).head? = some y) :
    ((RE.seq r1 r2).run s).head? =
      some ⟨x.matched ++ y.matched, x.caps ++ y.caps, y.rest⟩ := by
  rw [run_seq]
  apply head_flatMap_of_head _ _ x _ hx
  rw [List.head?_map, hy]
  rfl

theorem head_many_zero (p : Char → Bool) (s : List Char) :
    ((RE.many p 0).run s).head? = some ⟨s.takeWhile p, [], s.dropWhile p⟩ := by
  rw [run_many, List.head?_map, manyRun_zero_head]
  rfl

theorem head_many_one (p : Char → Bool) (c : Char) (cs : List Char) (h : p c = true) :
    ((RE.many p 1).run (c :: cs)).head? =
      some ⟨c :: cs.takeWhile p, [], cs.dropWhile p⟩ := by
  rw [run_many, List.head?_map, manyRun_one_cons_pos _ _ _ h, List.head?_map,
    manyRun_zero_head]
  rfl

theorem head_opt_of_head (r : RE) (s : List Char) (x : Match)
    (h : (r.run s).head? = some x) : ((RE.opt r).run s).head? = some x := by
  rw [run_opt, List.head?_append, h]
  rfl

theorem head_opt_of_nil (r : RE) (s : List Char) (h : r.run s = []) :
    ((RE.opt r).run s).head? = some ⟨[], [], s⟩ := by
  rw [run_opt, h]
  rfl

theorem digit_many_run_nil_of_head (s : List Char)
    (h : ∀ c, s.head? = some c → c.isDigit = false) (r : RE) :
    (RE.seq (.many Char.isDigit 1) r).run s = [] := by
  cases s with
  | nil => simp [RE.run, manyRun]
  | cons c cs =>
    have hc : c.isDigit = false := h c rfl
    simp [RE.run, manyRun, hc]

theorem takeWhile_dropWhile_self (p : Char → Bool) (s : List Char) :
    (s.dropWhile p).takeWhile p = [] := by
  induction s with
  | nil => rfl
  | cons c cs ih =>
    by_cases h : p c
    · simpa [List.dropWhile_cons_of_pos h] using ih
    · simp [List.dropWhile_cons_of_neg h, List.takeWhile_cons_of_neg h]

theorem dropWhile_dropWhile_self (p : Char → Bool) (s : List Char) :
    (s.dropWhile p).dropWhile p = s.dropWhile p := by
  induction s with
  | nil => rfl
  | cons c cs ih =>
    by_cases h : p c
    · simpa [List.dropWhile_cons_of_pos h] using ih
    · simp [List.dropWhile_cons_of_neg h]

theorem numberRE_run_head (d : Char) (ds : List Char) (hd : d.isDigit = true) :
    (VoiceInput.numberRE.run (d :: ds)).head? =
      some ⟨(lexNumeral (d :: ds)).1, [], (lexNumeral (d :: ds)).2⟩ := by
  unfold VoiceInput.numberRE
  have hx := head_many_one Char.isDigit d ds hd
  have htk : (d :: ds).takeWhile Char.isDigit = d :: ds.takeWhile Char.isDigit :=
    List.takeWhile_cons_of_pos hd
  have hdr : (d :: ds).dropWhile Char.isDigit = ds.dropWhile Char.isDigit :=
    List.dropWhile_cons_of_pos hd
  unfold lexNumeral
  rw [htk, hdr]
  by_cases hdot : (ds.dropWhile Char.isDigit).head? = some '.'
  · obtain ⟨r, hr⟩ : ∃ r, ds.dropWhile Char.isDigit = '.' :: r := by
      cases hh : ds.dropWhile Char.isDigit with
      | nil => rw [hh] at hdot; simp at hdot
      | cons a as => rw [hh] at hdot; simp at hdot; exact ⟨as, by rw [hdot]⟩
    have h1 : ((RE.opt (RE.char '.')).run (ds.dropWhile Char.isDigit)).head? =
        some ⟨['.'], [], r⟩ := by
      apply head_opt_of_head
      rw [hr, RE.char, run_cls_cons]
      simp
    have hy := head_seq _ (.many Char.isDigit 0) _ _ _ h1 (head_many_zero Char.isDigit r)
    rw [head_seq _ _ _ _ _ hx hy]
    simp [hr]
  · have h1 : ((RE.opt (RE.char '.')).run (ds.dropWhile Char.isDigit)).head? =
        some ⟨[], [], ds.dropWhile Char.isDigit⟩ := by
      apply head_opt_of_nil
      cases hh : ds.dropWhile Char.isDigit with
      | nil => rw [RE.char, run_cls_nil]
      | cons a as =>
        rw [hh] at hdot
        have : a ≠ '.' := by simpa using hdot
        rw [RE.char, run_cls_cons]
        simp [this]
    have hy := head_seq _ (.many Char.isDigit 0) _ _ _ h1
      (head_many_zero Char.isDigit (ds.dropWhile Char.isDigit))
    rw [head_seq _ _ _ _ _ hx hy]
    simp [hdot, takeWhile_dropWhile_self, dropWhile_dropWhile_self]

theorem lexNumeral_fst_ne_nil (c : Char) (cs : List Char) (hc : c.isDigit = true) :
    ∃ t, (lexNumeral (c :: cs)).1 = c :: t := by
  unfold lexNumeral
  rw [List.takeWhile_cons_of_pos hc]
  split_ifs
  · exact ⟨_, rfl⟩
  · exact ⟨_, rfl⟩

theorem numberRE_search (s : List Char) :
    (VoiceInput.numberRE.search s).map (fun x => (x.2.matched, x.2.rest)) = firstNumeral s := by
  induction s with
  | nil =>
    have : VoiceInput.numberRE.run [] = [] := by
      unfold VoiceInput.numberRE
      exact digit_many_run_nil_of_head [] (by simp) _
    simp [RE.search, this, firstNumeral]
  | cons c cs ih =>
    by_cases hc : c.isDigit = true
    · simp [RE.search, numberRE_run_head c cs hc, firstNumeral, hc]
    · have hc' : c.isDigit = false := by simpa using hc
      have : VoiceInput.numberRE.run (c :: cs) = [] := by
        unfold VoiceInput.numberRE
        exact digit_many_run_nil_of_head (c :: cs) (by simpa using hc') _
      rw [RE.search, this]
      simp only [List.head?_nil, Option.map_map, firstNumeral, hc', Bool.false_eq_true, if_false]
      rw [← ih]
      rfl

theorem firstNumeral_fst_ne_nil (s : List Char) (x : List Char × List Char)
    (h : firstNumeral s = some x) : ∃ c t, x.1 = c :: t := by
  induction s with
  | nil => simp [firstNumeral] at h
  | cons c cs ih =>
    by_cases hc : c.isDigit = true
    · simp only [firstNumeral, hc, if_true, Option.some.injEq] at h
      obtain ⟨t, ht⟩ := lexNumeral_fst_ne_nil c cs hc
      exact ⟨c, t, by rw [← h, ht]⟩
    · have hc' : c.isDigit = false := by simpa using hc
      simp only [firstNumeral, hc', Bool.false_eq_true, if_false] at h
      exact ih h

theorem matchAllAux_zero (n : Nat) (s : List Char) :
    (VoiceInput.numberRE.matchAllAux (n + 1) s)[0]? = (firstNumeral s).map (fun x => x.1) := by
  rw [← numberRE_search, RE.matchAllAux]
  cases VoiceInput.numberRE.search s with
  | none => rfl
  | some x => obtain ⟨pre, m⟩ := x; simp

theorem matchAllAux_one (n : Nat) (s : List Char) :
    (VoiceInput.numberRE.matchAllAux (n + 2) s)[1]? = (secondNumeral s).map (fun x => x.1) := by
  unfold secondNumeral
  have hs := numberRE_search s
  rw [RE.matchAllAux]
  cases hh : VoiceInput.numberRE.search s with
  | none =>
    rw [hh] at hs
    simp [← hs]
  | some x =>
    obtain ⟨pre, m⟩ := x
    rw [hh] at hs
    simp only [Option.map_some'] at hs
    obtain ⟨c, t, hct⟩ := firstNumeral_fst_ne_nil s _ hs.symm
    simp only at hct
    rw [← hs]
    simp only [Option.some_bind, List.getElem?_cons_succ]
    rw [hct]
    simp only
    exact matchAllAux_zero n _

theorem numbers_zero (text : String) :
    (VoiceInput.numbers text)[0]? = (firstNumeral text.toList).map (fun x => x.1) := by
  unfold VoiceInput.numbers RE.matchAll
  exact matchAllAux_zero _ _

theorem numbers_one (text : String) :
    (VoiceInput.numbers text)[1]? = (secondNumeral text.toList).map (fun x => x.1) := by
  unfold VoiceInput.numbers RE.matchAll
  cases hl : text.toList with
  | nil => rfl
  | cons c cs => exact matchAllAux_one _ _

theorem isDigit_iff (c : Char) : c.isDigit = true ↔ 48 ≤ c.toNat ∧ c.toNat ≤ 57 := by
  unfold Char.isDigit Char.toNat
  simp only [Bool.and_eq_true, decide_eq_true_eq, ge_iff_le]
  rw [UInt32.le_def, UInt32.le_def]
  rfl

theorem digit_cases (c : Char) (h : c.isDigit = true) :
    c ∈ ['0', '1', '2', '3', '4', '5', '6', '7', '8', '9'] := by
  rw [isDigit_iff] at h
  obtain ⟨h1, h2⟩ := h
  have hc : c = Char.ofNat c.toNat := (Char.ofNat_toNat c).symm
  rw [hc]
  generalize c.toNat = n at h1 h2
  interval_cases n <;> decide

theorem digit_props (c : Char) (h : c.isDigit = true) :
    isJsSpace c = false ∧ c ≠ '-' ∧ c ≠ '+' ∧ c ≠ '.' ∧ c ≠ 'x' ∧ c ≠ 'X' ∧ c ≠ '$' ∧
      digitVal c ≤ 9 := by
  have := digit_cases c h
  simp only [List.mem_cons, List.mem_singleton, List.not_mem_nil, or_false] at this
  rcases this with rfl | rfl | rfl | rfl | rfl | rfl | rfl | rfl | rfl | rfl <;> decide

theorem takeWhile_append_of_all (p : Char → Bool) (a b : List Char) (h : ∀ x ∈ a, p x = true) :
    (a ++ b).takeWhile p = a ++ b.takeWhile p := by
  induction a with
  | nil => rfl
  | cons x xs ih =>
    have hx : p x = true := h x (List.mem_cons_self _ _)
    simp [List.takeWhile_cons_of_pos hx, ih (fun y hy => h y (List.mem_cons_of_mem _ hy))]

theorem dropWhile_append_of_all (p : Char → Bool) (a b : List Char) (h : ∀ x ∈ a, p x = true) :
    (a ++ b).dropWhile p = b.dropWhile p := by
  induction a with
  | nil => rfl
  | cons x xs ih =>
    have hx : p x = true := h x (List.mem_cons_self _ _)
    simp [List.dropWhile_cons_of_pos hx, ih (fun y hy => h y (List.mem_cons_of_mem _ hy))]

theorem takeWhile_all (p : Char → Bool) (s : List Char) : ∀ x ∈ s.takeWhile p, p x = true :=
  fun _ hx => List.mem_takeWhile_imp hx

theorem foldl_digits (n : Nat) (b : List Char) :
    b.foldl (fun n c => 10 * n + digitVal c) n = n * 10 ^ b.length + digitsToNat b := by
  unfold digitsToNat
  induction b generalizing n with
  | nil => simp
  | cons c cs ih =>
    simp only [List.foldl_cons, List.length_cons]
    rw [ih (10 * n + digitVal c), ih (10 * 0 + digitVal c)]
    ring

theorem digitsToNat_append (a b : List Char) :
    digitsToNat (a ++ b) = digitsToNat a * 10 ^ b.length + digitsToNat b := by
  unfold digitsToNat
  rw [List.foldl_append]
  exact foldl_digits _ _

theorem digitsToNat_lt (b : List Char) (h : ∀ c ∈ b, c.isDigit = true) :
    digitsToNat b < 10 ^ b.length := by
  induction b using List.reverseRecOn with
  | nil => simp [digitsToNat]
  | append_singleton xs c ih =>
    have hc := (digit_props c (h c (by simp))).2.2.2.2.2.2.2
    have hxs := ih (fun d hd => h d (by simp [hd]))
    rw [digitsToNat_append]
    simp only [List.length_append, List.length_singleton, pow_one, pow_succ]
    have : digitsToNat [c] = digitVal c := by simp [digitsToNat]
    rw [this]
    omega

/-- The shape of a numeral token: digits, or digits, a period and digits. -/
theorem lexNumeral_shape (c : Char) (cs : List Char) (hc : c.isDigit = true) :
    ∃ ip fp : List Char, (∀ x ∈ ip, x.isDigit = true) ∧ (∀ x ∈ fp, x.isDigit = true) ∧
      ((lexNumeral (c :: cs)).1 = c :: ip ∨ (lexNumeral (c :: cs)).1 = c :: ip ++ '.' :: fp) := by
  unfold lexNumeral
  rw [List.takeWhile_cons_of_pos hc]
  split_ifs
  · exact ⟨_, _, takeWhile_all _ _, takeWhile_all _ _, Or.inr rfl⟩
  · exact ⟨_, [], takeWhile_all _ _, by simp, Or.inl rfl⟩

theorem parseFloat_of_digit_head (c : Char) (t : List Char) (hc : c.isDigit = true) :
    parseFloat (c :: t) = parseUnsignedFloat (c :: t) := by
  obtain ⟨h1, h2, h3, -⟩ := digit_props c hc
  unfold parseFloat
  rw [List.dropWhile_cons_of_neg (by simp [h1])]
  split
  · rename_i heq; simp at heq; exact absurd heq.1 h2
  · rename_i heq; simp at heq; exact absurd heq.1 h3
  · rfl

theorem parseInt_of_digit_head (c : Char) (t : List Char) (hc : c.isDigit = true) :
    parseInt (c :: t) = parseUnsignedInt (c :: t) := by
  obtain ⟨h1, h2, h3, -⟩ := digit_props c hc
  unfold parseInt
  rw [List.dropWhile_cons_of_neg (by simp [h1])]
  split
  · rename_i heq; simp at heq; exact absurd heq.1 h2
  · rename_i heq; simp at heq; exact absurd heq.1 h3
  · rfl

theorem scale10_zero (q : ℚ) : scale10 q 0 = q := by
  simp [scale10]

/-- Zero is a Number. -/
theorem ofRat_zero : JSNum.ofRat 0 = JSNum.num 0 := by
  simp [JSNum.ofRat]

theorem leadingBit_le (fuel n : Nat) : leadingBit fuel n ≤ fuel := by
  induction fuel generalizing n with
  | zero => simp [leadingBit]
  | succ fuel ih =>
    rw [leadingBit]
    split_ifs
    · omega
    · have := ih (n / 2)
      omega

theorem leadingBit_spec (fuel n : Nat) (h0 : 0 < n) (h : n < 2 ^ fuel) :
    2 ^ leadingBit fuel n ≤ n ∧ n < 2 ^ (leadingBit fuel n + 1) := by
  induction fuel generalizing n with
  | zero => simp at h; omega
  | succ fuel ih =>
    rw [leadingBit]
    split_ifs with h2
    · have : n = 1 := by omega
      subst this
      simp
    · have h3 : 0 < n / 2 := by omega
      have h4 : n / 2 < 2 ^ fuel := by
        rw [pow_succ] at h
        omega
      obtain ⟨i1, i2⟩ := ih (n / 2) h3 h4
      rw [pow_succ] at i2 ⊢
      rw [pow_succ]
      constructor <;> omega

/-- A whole number below `2 ^ 53` is a Number. -/
theorem ofRat_natCast (n : Nat) (h : n < 2 ^ 53) : JSNum.ofRat (n : ℚ) = JSNum.num (n : ℚ) := by
  by_cases h0 : n = 0
  · subst h0
    simp [JSNum.ofRat]
  have hpos : 0 < n := Nat.pos_of_ne_zero h0
  obtain ⟨e1, e2⟩ := leadingBit_spec n n hpos (Nat.lt_two_pow n)
  have he : leadingBit n n ≤ 52 := by
    have : 2 ^ leadingBit n n < 2 ^ 53 := lt_of_le_of_lt e1 h
    have := (Nat.pow_lt_pow_iff_right (by norm_num : 1 < 2)).mp this
    omega
  have hone : leadingBit 1 1 = 0 := rfl
  have hexp : binaryExponent n 1 = (leadingBit n n : Int) := by
    simp only [binaryExponent, hone]
    simp [e1]
  have hq : ((n : ℚ)) ≠ 0 := by exact_mod_cast h0
  have hneg : ¬ ((n : ℚ) < 0) := by
    have : (0 : ℚ) ≤ n := Nat.cast_nonneg n
    exact not_lt.mpr this
  have hp : max ((leadingBit n n : Int) - 52) (-1074) = (leadingBit n n : Int) - 52 := by
    omega
  have hp1 : (-((leadingBit n n : Int) - 52)).toNat = 52 - leadingBit n n := by omega
  have hp2 : ((leadingBit n n : Int) - 52).toNat = 0 := by omega
  have hm : roundHalfEven (n * 2 ^ (52 - leadingBit n n)) 1 = n * 2 ^ (52 - leadingBit n n) := by
    simp [roundHalfEven, Nat.mod_one]
  have hlb := leadingBit_le 54 (n * 2 ^ (52 - leadingBit n n))
  unfold JSNum.ofRat
  rw [if_neg hq]
  simp only [Rat.num_natCast, Int.natAbs_ofNat, Rat.den_natCast, hexp, hp, hp1, hp2, pow_zero,
    mul_one, hm, add_zero]
  rw [if_neg (by omega), if_neg hneg]
  congr 1
  push_cast
  field_simp

/-- The integer part of a value from 0 to below `2 ^ 53` is a Number. -/
theorem ofRat_floor (q : ℚ) (h0 : 0 ≤ q) (h : q < 9007199254740992) :
    JSNum.ofRat ((⌊q⌋ : ℤ) : ℚ) = JSNum.num ((⌊q⌋ : ℤ) : ℚ) := by
  have hf : 0 ≤ ⌊q⌋ := Int.floor_nonneg.mpr h0
  have hlt : ⌊q⌋ < 9007199254740992 := by
    have h1 : ((⌊q⌋ : ℤ) : ℚ) < ((9007199254740992 : ℤ) : ℚ) :=
      lt_of_le_of_lt (Int.floor_le q) (by exact_mod_cast h)
    exact_mod_cast h1
  have hc : ((⌊q⌋ : ℤ) : ℚ) = ((⌊q⌋.toNat : ℕ) : ℚ) := by
    have h2 : ((⌊q⌋.toNat : ℕ) : ℤ) = ⌊q⌋ := Int.toNat_of_nonneg hf
    exact_mod_cast congrArg (fun z : ℤ => (z : ℚ)) h2.symm
  rw [hc]
  apply ofRat_natCast
  omega

/-- The Number for a value that is not negative is `Infinity` or a finite value that is
not negative. -/
theorem ofRat_nonneg (q : ℚ) (h : 0 ≤ q) :
    JSNum.ofRat q = JSNum.inf false ∨ ∃ r : ℚ, 0 ≤ r ∧ JSNum.ofRat q = JSNum.num r := by
  have hlt : ¬ q < 0 := not_lt.mpr h
  unfold JSNum.ofRat
  by_cases h0 : q = 0
  · exact Or.inr ⟨0, le_refl _, by rw [if_pos h0]⟩
  · rw [if_neg h0]
    dsimp only
    split_ifs with hov
    · left
      simp [hlt]
    · right
      refine ⟨_, ?_, rfl⟩
      positivity

theorem parseUnsignedFloat_digits (c : Char) (ip : List Char) (hc : c.isDigit = true)
    (hip : ∀ x ∈ ip, x.isDigit = true) :
    parseUnsignedFloat (c :: ip) = JSNum.ofRat (digitsToNat (c :: ip) : ℚ) := by
  have hall : ∀ x ∈ c :: ip, x.isDigit = true := by
    intro x hx
    rcases List.mem_cons.mp hx with rfl | hx
    · exact hc
    · exact hip x hx
  have htk : (c :: ip).takeWhile Char.isDigit = c :: ip := by
    have := takeWhile_append_of_all Char.isDigit (c :: ip) [] hall
    simpa using this
  have hdr : (c :: ip).dropWhile Char.isDigit = [] := by
    have := dropWhile_append_of_all Char.isDigit (c :: ip) [] hall
    simpa using this
  unfold parseUnsignedFloat
  simp only [htk, hdr]
  simp [parseExponent, scale10_zero]

theorem parseUnsignedFloat_decimal (c : Char) (ip fp : List Char) (hc : c.isDigit = true)
    (hip : ∀ x ∈ ip, x.isDigit = true) (hfp : ∀ x ∈ fp, x.isDigit = true) :
    parseUnsignedFloat (c :: ip ++ '.' :: fp) =
      JSNum.ofRat ((digitsToNat (c :: ip) : ℚ) + (digitsToNat fp : ℚ) / 10 ^ fp.length) := by
  have hall : ∀ x ∈ c :: ip, x.isDigit = true := by
    intro x hx
    rcases List.mem_cons.mp hx with rfl | hx
    · exact hc
    · exact hip x hx
  have htk : (c :: ip ++ '.' :: fp).takeWhile Char.isDigit = c :: ip := by
    have := takeWhile_append_of_all Char.isDigit (c :: ip) ('.' :: fp) hall
    simpa using this
  have hdr : (c :: ip ++ '.' :: fp).dropWhile Char.isDigit = '.' :: fp := by
    have := dropWhile_append_of_all Char.isDigit (c :: ip) ('.' :: fp) hall
    simpa using this
  have htk2 : fp.takeWhile Char.isDigit = fp := by
    have := takeWhile_append_of_all Char.isDigit fp [] hfp
    simpa using this
  have hdr2 : fp.dropWhile Char.isDigit = [] := by
    have := dropWhile_append_of_all Char.isDigit fp [] hfp
    simpa using this
  unfold parseUnsignedFloat
  simp only [htk, hdr, htk2, hdr2]
  simp only [parseExponent, scale10_zero, List.cons_ne_nil, false_and, if_false]
  rw [digitsToNat_append]
  congr 1
  push_cast
  field_simp

theorem parseUnsignedInt_decimal (c : Char) (rest : List Char) (hc : c.isDigit = true)
    (hx : ∀ x, rest.head? = some x → x ≠ 'x' ∧ x ≠ 'X') :
    parseUnsignedInt (c :: rest) =
      JSNum.ofRat (digitsToNat ((c :: rest).takeWhile Char.isDigit) : ℚ) := by
  unfold parseUnsignedInt
  split
  · rename_i x r heq
    simp only [List.cons.injEq] at heq
    obtain ⟨-, hr⟩ := heq
    have := hx x (by rw [hr]; rfl)
    simp [this.1, this.2]
  · simp [List.takeWhile_cons_of_pos hc]

theorem numeralValue_digits (c : Char) (ip : List Char) (hc : c.isDigit = true)
    (hip : ∀ x ∈ ip, x.isDigit = true) :
    numeralValue (c :: ip) = (digitsToNat (c :: ip) : ℚ) ∧
      (c :: ip).takeWhile Char.isDigit = c :: ip := by
  have hall : ∀ x ∈ c :: ip, x.isDigit = true := by
    intro x hx
    rcases List.mem_cons.mp hx with rfl | hx
    · exact hc
    · exact hip x hx
  have htk : (c :: ip).takeWhile Char.isDigit = c :: ip := by
    have := takeWhile_append_of_all Char.isDigit (c :: ip) [] hall
    simpa using this
  have hdr : (c :: ip).dropWhile Char.isDigit = [] := by
    have := dropWhile_append_of_all Char.isDigit (c :: ip) [] hall
    simpa using this
  refine ⟨?_, htk⟩
  unfold numeralValue fractionDigits
  simp only [htk, hdr]
  simp [digitsToNat]

theorem numeralValue_decimal (c : Char) (ip fp : List Char) (hc : c.isDigit = true)
    (hip : ∀ x ∈ ip, x.isDigit = true) :
    numeralValue (c :: ip ++ '.' :: fp) =
        (digitsToNat (c :: ip) : ℚ) + (digitsToNat fp : ℚ) / 10 ^ fp.length ∧
      (c :: ip ++ '.' :: fp).takeWhile Char.isDigit = c :: ip ∧
      fractionDigits (c :: ip ++ '.' :: fp) = fp := by
  have hall : ∀ x ∈ c :: ip, x.isDigit = true := by
    intro x hx
    rcases List.mem_cons.mp hx with rfl | hx
    · exact hc
    · exact hip x hx
  have htk : (c :: ip ++ '.' :: fp).takeWhile Char.isDigit = c :: ip := by
    have := takeWhile_append_of_all Char.isDigit (c :: ip) ('.' :: fp) hall
    simpa using this
  have hdr : (c :: ip ++ '.' :: fp).dropWhile Char.isDigit = '.' :: fp := by
    have := dropWhile_append_of_all Char.isDigit (c :: ip) ('.' :: fp) hall
    simpa using this
  have hfr : fractionDigits (c :: ip ++ '.' :: fp) = fp := by
    unfold fractionDigits
    rw [hdr]
    rfl
  refine ⟨?_, htk, hfr⟩
  unfold numeralValue
  rw [hfr, htk]

theorem floor_add_fraction (n m k : Nat) (h : m < 10 ^ k) :
    ⌊(n : ℚ) + (m : ℚ) / 10 ^ k⌋ = (n : ℤ) := by
  rw [Int.floor_eq_iff]
  have hk : (0 : ℚ) < 10 ^ k := by positivity
  have hm : (m : ℚ) < 10 ^ k := by exact_mod_cast h
  constructor
  · have : (0 : ℚ) ≤ (m : ℚ) / 10 ^ k := by positivity
    push_cast
    linarith
  · have : (m : ℚ) / 10 ^ k < 1 := by rw [div_lt_one hk]; exact hm
    push_cast
    linarith

/-- On a numeral token `parseFloat` yields the Number for its value and `parseInt` the
Number for the integer part of its value. -/
theorem parse_numeral (c : Char) (cs : List Char) (hc : c.isDigit = true) :
    parseFloat (lexNumeral (c :: cs)).1 = JSNum.ofRat (numeralValue (lexNumeral (c :: cs)).1) ∧
    parseInt (lexNumeral (c :: cs)).1 =
      JSNum.ofRat ((⌊numeralValue (lexNumeral (c :: cs)).1⌋ : ℤ) : ℚ) := by
  obtain ⟨ip, fp, hip, hfp, h | h⟩ := lexNumeral_shape c cs hc
  · rw [h]
    obtain ⟨hv, htk⟩ := numeralValue_digits c ip hc hip
    constructor
    · rw [parseFloat_of_digit_head _ _ hc, parseUnsignedFloat_digits c ip hc hip, hv]
    · rw [parseInt_of_digit_head _ _ hc, parseUnsignedInt_decimal c ip hc, htk, hv]
      · simp
      · intro x hx
        have hxd : x.isDigit = true := hip x (List.mem_of_mem_head? hx)
        exact ⟨(digit_props x hxd).2.2.2.2.1, (digit_props x hxd).2.2.2.2.2.1⟩
  · rw [h]
    obtain ⟨hv, htk, -⟩ := numeralValue_decimal c ip fp hc hip
    constructor
    · rw [List.cons_append, parseFloat_of_digit_head _ _ hc, ← List.cons_append,
        parseUnsignedFloat_decimal c ip fp hc hip hfp, hv]
    · rw [List.cons_append, parseInt_of_digit_head _ _ hc, parseUnsignedInt_decimal _ _ hc,
        ← List.cons_append, htk, hv, floor_add_fraction _ _ _ (digitsToNat_lt fp hfp)]
      · simp
      · intro x hx
        cases ip with
        | nil =>
          simp at hx
          subst hx
          decide
        | cons y ys =>
          simp at hx
          have hxd : y.isDigit = true := hip y (List.mem_cons_self _ _)
          rw [hx] at hxd
          exact ⟨(digit_props x hxd).2.2.2.2.1, (digit_props x hxd).2.2.2.2.2.1⟩

theorem firstNumeral_some (s : List Char) (x : List Char × List Char)
    (h : firstNumeral s = some x) :
    ∃ c cs, c.isDigit = true ∧ x = lexNumeral (c :: cs) := by
  induction s with
  | nil => simp [firstNumeral] at h
  | cons c cs ih =>
    by_cases hc : c.isDigit = true
    · simp only [firstNumeral, hc, if_true, Option.some.injEq] at h
      exact ⟨c, cs, hc, h.symm⟩
    · have hc' : c.isDigit = false := by simpa using hc
      simp only [firstNumeral, hc', Bool.false_eq_true, if_false] at h
      exact ih h

theorem parsedOrZero_firstNumeral (s : List Char) :
    parsedOrZero parseFloat ((firstNumeral s).map (fun x => x.1)) =
        JSNum.ofRat (valueOrZero (firstNumeral s)) ∧
    parsedOrZero parseInt ((firstNumeral s).map (fun x => x.1)) =
        JSNum.ofRat ((⌊valueOrZero (firstNumeral s)⌋ : ℤ) : ℚ) := by
  cases h : firstNumeral s with
  | none => simp [parsedOrZero, valueOrZero, ofRat_zero]
  | some x =>
    obtain ⟨c, cs, hc, hx⟩ := firstNumeral_some s x h
    obtain ⟨t, ht⟩ := lexNumeral_fst_ne_nil c cs hc
    have hp := parse_numeral c cs hc
    subst hx
    simp only [Option.map_some', valueOrZero]
    rw [ht] at hp ⊢
    exact hp

theorem parsedOrZero_secondNumeral (s : List Char) :
    parsedOrZero parseInt ((secondNumeral s).map (fun x => x.1)) =
        JSNum.ofRat ((⌊valueOrZero (secondNumeral s)⌋ : ℤ) : ℚ) := by
  unfold secondNumeral
  cases h : firstNumeral s with
  | none => simp [parsedOrZero, valueOrZero, ofRat_zero]
  | some x => exact (parsedOrZero_firstNumeral x.2).2

theorem head_group (r : RE) (s : List Char) (x : Match) (h : (r.run s).head? = some x) :
    ((RE.group r).run s).head? = some ⟨x.matched, x.matched :: x.caps, x.rest⟩ := by
  rw [run_group, List.head?_map, h]
  rfl

theorem fraction_run_pos (d1 d2 : Char) (r : List Char) (h1 : d1.isDigit = true)
    (h2 : d2.isDigit = true) :
    (RE.seq (RE.char '.') (.seq RE.digit RE.digit)).run ('.' :: d1 :: d2 :: r) =
      [⟨['.', d1, d2], [], r⟩] := by
  simp [run_seq, RE.char, RE.digit, run_cls_cons, h1, h2]

theorem fraction_run_nil (r : List Char)
    (h : ∀ d1 d2 r', r = '.' :: d1 :: d2 :: r' → ¬ (d1.isDigit = true ∧ d2.isDigit = true)) :
    (RE.seq (RE.char '.') (.seq RE.digit RE.digit)).run r = [] := by
  rcases r with _ | ⟨a, _ | ⟨d1, _ | ⟨d2, r'⟩⟩⟩
  · simp [run_seq, RE.char, run_cls_nil]
  · by_cases ha : a = '.' <;> simp [run_seq, RE.char, RE.digit, run_cls_cons, run_cls_nil, ha]
  · by_cases ha : a = '.' <;> by_cases h1 : d1.isDigit = true <;>
      simp [run_seq, RE.char, RE.digit, run_cls_cons, run_cls_nil, ha, h1]
  · by_cases ha : a = '.'
    · subst ha
      have := h d1 d2 r' rfl
      by_cases h1 : d1.isDigit = true
      · have h2 : d2.isDigit = false := by
          by_contra hne
          exact this ⟨h1, by simpa using hne⟩
        simp [run_seq, RE.char, RE.digit, run_cls_cons, h1, h2]
      · simp [run_seq, RE.char, RE.digit, run_cls_cons, h1]
    · simp [run_seq, RE.char, RE.digit, run_cls_cons, ha]

/-- At a digit the pattern `\d+(?:\.\d{2})?` first matches the two-decimal part of the
numeral token that starts there. -/
theorem amount_tail_head (d : Char) (ds : List Char) (hd : d.isDigit = true) :
    ∃ rest, ((RE.seq (.many Char.isDigit 1)
        (.opt (.seq (RE.char '.') (.seq RE.digit RE.digit)))).run (d :: ds)).head? =
      some ⟨twoDecimalPart (lexNumeral (d :: ds)).1, [], rest⟩ := by
  have hx := head_many_one Char.isDigit d ds hd
  have hip : ∀ x ∈ ds.takeWhile Char.isDigit, x.isDigit = true := takeWhile_all _ _
  by_cases hf : ∃ d1 d2 r', ds.dropWhile Char.isDigit = '.' :: d1 :: d2 :: r' ∧
      d1.isDigit = true ∧ d2.isDigit = true
  · obtain ⟨d1, d2, r', hr, h1, h2⟩ := hf
    have hy : ((RE.opt (.seq (RE.char '.') (.seq RE.digit RE.digit))).run
        (ds.dropWhile Char.isDigit)).head? = some ⟨['.', d1, d2], [], r'⟩ := by
      apply head_opt_of_head
      rw [hr, fraction_run_pos d1 d2 r' h1 h2]
      rfl
    refine ⟨r', ?_⟩
    rw [head_seq _ _ _ _ _ hx hy]
    have htok : (lexNumeral (d :: ds)).1 =
        d :: ds.takeWhile Char.isDigit ++ '.' :: (d1 :: d2 :: r'.takeWhile Char.isDigit) := by
      unfold lexNumeral
      rw [List.dropWhile_cons_of_pos hd, List.takeWhile_cons_of_pos hd, hr]
      simp [List.takeWhile_cons_of_pos h1, List.takeWhile_cons_of_pos h2]
    obtain ⟨-, htk, hfr⟩ := numeralValue_decimal d (ds.takeWhile Char.isDigit)
      (d1 :: d2 :: r'.takeWhile Char.isDigit) hd hip
    rw [htok]
    unfold twoDecimalPart
    rw [hfr, htk]
    simp
  · have hy : ((RE.opt (.seq (RE.char '.') (.seq RE.digit RE.digit))).run
        (ds.dropWhile Char.isDigit)).head? = some ⟨[], [], ds.dropWhile Char.isDigit⟩ := by
      apply head_opt_of_nil
      apply fraction_run_nil
      intro d1 d2 r' hr hdd
      exact hf ⟨d1, d2, r', hr, hdd.1, hdd.2⟩
    refine ⟨ds.dropWhile Char.isDigit, ?_⟩
    rw [head_seq _ _ _ _ _ hx hy]
    have htwo : twoDecimalPart (lexNumeral (d :: ds)).1 = d :: ds.takeWhile Char.isDigit := by
      unfold lexNumeral
      rw [List.dropWhile_cons_of_pos hd, List.takeWhile_cons_of_pos hd]
      split_ifs with hdot
      · obtain ⟨r2, hr2⟩ : ∃ r2, ds.dropWhile Char.isDigit = '.' :: r2 := by
          cases hh : ds.dropWhile Char.isDigit with
          | nil => rw [hh] at hdot; simp at hdot
          | cons a as => rw [hh] at hdot; simp at hdot; exact ⟨as, by rw [hdot]⟩
        obtain ⟨-, htk, hfr⟩ := numeralValue_decimal d (ds.takeWhile Char.isDigit)
          (r2.takeWhile Char.isDigit) hd hip
        simp only [hr2, List.tail_cons]
        unfold twoDecimalPart
        rw [hfr, htk]
        have hlen : ¬ 2 ≤ (r2.takeWhile Char.isDigit).length := by
          intro hlen
          rcases r2 with _ | ⟨d1, _ | ⟨d2, r'⟩⟩
          · simp at hlen
          · by_cases h1 : d1.isDigit = true <;> simp [h1] at hlen
          · by_cases h1 : d1.isDigit = true
            · by_cases h2 : d2.isDigit = true
              · exact hf ⟨d1, d2, r', hr2, h1, h2⟩
              · simp [h1, h2] at hlen
            · simp [h1] at hlen
        simp [hlen]
      · obtain ⟨-, htk⟩ := numeralValue_digits d (ds.takeWhile Char.isDigit) hd hip
        unfold twoDecimalPart fractionDigits
        rw [htk]
        have : (d :: ds.takeWhile Char.isDigit).dropWhile Char.isDigit = [] := by
          have hall : ∀ x ∈ d :: ds.takeWhile Char.isDigit, x.isDigit = true := by
            intro x hx
            rcases List.mem_cons.mp hx with rfl | hx
            · exact hd
            · exact hip x hx
          have := dropWhile_append_of_all Char.isDigit (d :: ds.takeWhile Char.isDigit) [] hall
          simpa using this
        rw [this]
        simp
    rw [htwo]
    simp

theorem replaceFirstChar_of_not_mem (c : Char) (rep l : List Char) (h : c ∉ l) :
    replaceFirstChar c rep l = l := by
  induction l with
  | nil => rfl
  | cons d ds ih =>
    have hd : d ≠ c := fun e => h (by simp [e])
    have hds : c ∉ ds := fun e => h (List.mem_cons_of_mem _ e)
    simp [replaceFirstChar, hd, ih hds]

theorem twoDecimalPart_shape (c : Char) (cs : List Char) (hc : c.isDigit = true) :
    ∃ ip fp : List Char, (∀ x ∈ ip, x.isDigit = true) ∧ (∀ x ∈ fp, x.isDigit = true) ∧
      (twoDecimalPart (lexNumeral (c :: cs)).1 = c :: ip ∨
        twoDecimalPart (lexNumeral (c :: cs)).1 = c :: ip ++ '.' :: fp) := by
  obtain ⟨ip, fp, hip, hfp, h | h⟩ := lexNumeral_shape c cs hc
  · refine ⟨ip, [], hip, by simp, Or.inl ?_⟩
    rw [h]
    obtain ⟨-, htk⟩ := numeralValue_digits c ip hc hip
    have hall : ∀ x ∈ c :: ip, x.isDigit = true := by
      intro x hx
      rcases List.mem_cons.mp hx with rfl | hx
      · exact hc
      · exact hip x hx
    have hdr : (c :: ip).dropWhile Char.isDigit = [] := by
      have := dropWhile_append_of_all Char.isDigit (c :: ip) [] hall
      simpa using this
    unfold twoDecimalPart fractionDigits
    rw [htk, hdr]
    simp
  · obtain ⟨-, htk, hfr⟩ := numeralValue_decimal c ip fp hc hip
    rw [h]
    unfold twoDecimalPart
    rw [hfr, htk]
    by_cases hlen : 2 ≤ fp.length
    · refine ⟨ip, fp.take 2, hip, fun x hx => hfp x (List.mem_of_mem_take hx), Or.inr ?_⟩
      simp [hlen]
    · refine ⟨ip, [], hip, by simp, Or.inl ?_⟩
      simp [hlen]

theorem parseFloat_shape (t : List Char) (c : Char) (ip fp : List Char)
    (hc : c.isDigit = true) (hip : ∀ x ∈ ip, x.isDigit = true)
    (hfp : ∀ x ∈ fp, x.isDigit = true) (h : t = c :: ip ∨ t = c :: ip ++ '.' :: fp) :
    parseFloat t = JSNum.ofRat (numeralValue t) ∧ '$' ∉ t := by
  have hnd : ∀ l : List Char, (∀ x ∈ l, x.isDigit = true) → '$' ∉ l := by
    intro l hl hmem
    exact absurd (hl _ hmem) (by decide)
  rcases h with h | h
  · rw [h]
    obtain ⟨hv, -⟩ := numeralValue_digits c ip hc hip
    refine ⟨by rw [parseFloat_of_digit_head _ _ hc, parseUnsignedFloat_digits c ip hc hip, hv], ?_⟩
    apply hnd
    intro x hx
    rcases List.mem_cons.mp hx with rfl | hx
    · exact hc
    · exact hip x hx
  · rw [h]
    obtain ⟨hv, -, -⟩ := numeralValue_decimal c ip fp hc hip
    refine ⟨by rw [List.cons_append, parseFloat_of_digit_head _ _ hc, ← List.cons_append,
      parseUnsignedFloat_decimal c ip fp hc hip hfp, hv], ?_⟩
    intro hmem
    simp only [List.cons_append, List.mem_cons, List.mem_append] at hmem
    rcases hmem with e | e | e | e
    · rw [← e] at hc; exact absurd hc (by decide)
    · exact hnd ip hip e
    · exact absurd e (by decide)
    · exact hnd fp hfp e

theorem search_cons_of_run_nil (r : RE) (c : Char) (cs : List Char) (h : r.run (c :: cs) = []) :
    r.search (c :: cs) = (r.search cs).map (fun x => (c :: x.1, x.2)) := by
  rw [RE.search, h]
  rfl

/-- The amount that the generic parser reads at the first match of its pattern is the value
of the two-decimal part of the first numeral token. -/
theorem amountRE_search (s : List Char) :
    (match (RE.group UseVoiceInput.amountRE).search s with
      | some (_, m) => parseFloat (replaceFirstChar '$' [] (m.cap 1))
      | none => JSNum.num 0) =
    JSNum.ofRat (valueOrZero ((firstNumeral s).map (fun x => (twoDecimalPart x.1, x.2)))) := by
  induction s with
  | nil =>
    have : (RE.group UseVoiceInput.amountRE).run [] = [] := by
      rw [run_group, amountRE_run_nil [] (by simp)]; rfl
    simp [RE.search, this, firstNumeral, valueOrZero, ofRat_zero]
  | cons c cs ih =>
    by_cases hc : c.isDigit = true
    · obtain ⟨rest, hrest⟩ := amount_tail_head c cs hc
      have hdollar : c ≠ '$' := (digit_props c hc).2.2.2.2.2.2.1
      have hopt : ((RE.opt (RE.char '$')).run (c :: cs)).head? = some ⟨[], [], c :: cs⟩ := by
        apply head_opt_of_nil
        rw [RE.char, run_cls_cons]
        simp [hdollar]
      have hrun := head_group _ _ _ (head_seq _ _ _ _ _ hopt hrest)
      obtain ⟨ip, fp, hip, hfp, hshape⟩ := twoDecimalPart_shape c cs hc
      obtain ⟨hpf, hnot⟩ := parseFloat_shape _ c ip fp hc hip hfp hshape
      have hsearch : (RE.group UseVoiceInput.amountRE).search (c :: cs) =
          some ([], ⟨twoDecimalPart (lexNumeral (c :: cs)).1,
            [twoDecimalPart (lexNumeral (c :: cs)).1], rest⟩) := by
        rw [RE.search]
        unfold UseVoiceInput.amountRE
        rw [hrun]
        simp
      rw [hsearch]
      simp only [Match.cap, firstNumeral, hc, if_true, Option.map_some', valueOrZero]
      simp only [Nat.sub_self, List.getD_cons_zero]
      rw [replaceFirstChar_of_not_mem _ _ _ hnot, hpf]
    · have hc' : c.isDigit = false := by simpa using hc
      have hfn : firstNumeral (c :: cs) = firstNumeral cs := by
        simp [firstNumeral, hc']
      rw [hfn, ← ih]
      have hX : (RE.seq (.many Char.isDigit 1)
          (.opt (.seq (RE.char '.') (.seq RE.digit RE.digit)))).run (c :: cs) = [] :=
        digit_many_run_nil_of_head _ (by simpa using hc') _
      by_cases hd : c = '$'
      · subst hd
        cases cs with
        | nil =>
          have : (RE.group UseVoiceInput.amountRE).run ['$'] = [] := by
            rw [run_group, UseVoiceInput.amountRE, run_seq, run_opt, RE.char, run_cls_cons]
            simp [hX, digit_many_run_nil_of_head [] (by simp)]
          rw [search_cons_of_run_nil _ _ _ this]
          cases (RE.group UseVoiceInput.amountRE).search [] with
          | none => rfl
          | some x => rfl
        | cons d ds =>
          by_cases hdd : d.isDigit = true
          · obtain ⟨rest, hrest⟩ := amount_tail_head d ds hdd
            have hopt : ((RE.opt (RE.char '$')).run ('$' :: d :: ds)).head? =
                some ⟨['$'], [], d :: ds⟩ := by
              apply head_opt_of_head
              rw [RE.char, run_cls_cons]
              simp
            have hrun := head_group _ _ _ (head_seq _ _ _ _ _ hopt hrest)
            obtain ⟨ip, fp, hip, hfp, hshape⟩ := twoDecimalPart_shape d ds hdd
            have hdollar : d ≠ '$' := (digit_props d hdd).2.2.2.2.2.2.1
            have hopt2 : ((RE.opt (RE.char '$')).run (d :: ds)).head? =
                some ⟨[], [], d :: ds⟩ := by
              apply head_opt_of_nil
              rw [RE.char, run_cls_cons]
              simp [hdollar]
            have hrun2 := head_group _ _ _ (head_seq _ _ _ _ _ hopt2 hrest)
            have hs1 : (RE.group UseVoiceInput.amountRE).search ('$' :: d :: ds) =
                some ([], ⟨'$' :: twoDecimalPart (lexNumeral (d :: ds)).1,
                  ['$' :: twoDecimalPart (lexNumeral (d :: ds)).1], rest⟩) := by
              rw [RE.search]
              unfold UseVoiceInput.amountRE
              rw [hrun]
              simp
            have hs2 : (RE.group UseVoiceInput.amountRE).search (d :: ds) =
                some ([], ⟨twoDecimalPart (lexNumeral (d :: ds)).1,
                  [twoDecimalPart (lexNumeral (d :: ds)).1], rest⟩) := by
              rw [RE.search]
              unfold UseVoiceInput.amountRE
              rw [hrun2]
              simp
            obtain ⟨-, hnot⟩ := parseFloat_shape _ d ip fp hdd hip hfp hshape
            rw [hs1, hs2]
            simp only [Match.cap, Nat.sub_self, List.getD_cons_zero]
            rw [replaceFirstChar_of_not_mem _ _ _ hnot]
            simp [replaceFirstChar]
          · have hdd' : d.isDigit = false := by simpa using hdd
            have : (RE.group UseVoiceInput.amountRE).run ('$' :: d :: ds) = [] := by
              rw [run_group, UseVoiceInput.amountRE, run_seq, run_opt, RE.char, run_cls_cons]
              simp [hX, digit_many_run_nil_of_head (d :: ds) (by simpa using hdd')]
            rw [search_cons_of_run_nil _ _ _ this]
            cases (RE.group UseVoiceInput.amountRE).search (d :: ds) with
            | none => rfl
            | some x => rfl
      · have : (RE.group UseVoiceInput.amountRE).run (c :: cs) = [] := by
          rw [run_group, UseVoiceInput.amountRE, run_seq, run_opt, RE.char, run_cls_cons]
          simp [hX, hd]
        rw [search_cons_of_run_nil _ _ _ this]
        cases (RE.group UseVoiceInput.amountRE).search cs with
        | none => rfl
        | some x => rfl

theorem lowerChar_digit (c : Char) (h : c.isDigit = true) : lowerChar c = [c] := by
  have := digit_cases c h
  simp only [List.mem_cons, List.mem_singleton, List.not_mem_nil, or_false] at this
  rcases this with rfl | rfl | rfl | rfl | rfl | rfl | rfl | rfl | rfl | rfl <;> decide

theorem lowerChar_period : lowerChar '.' = ['.'] := by decide

theorem lowerChar_head_not_digit (c : Char) (h : c.isDigit = false) :
    ∃ d ds, lowerChar c = d :: ds ∧ d.isDigit = false ∧ (c ≠ '.' → d ≠ '.') := by
  have hB := lowerChar_not_digit c h
  unfold lowerChar at hB ⊢
  split_ifs with h1 h2
  · exact ⟨'k', [], rfl, by decide, fun _ => by decide⟩
  · exact ⟨'i', [Char.ofNat 0x0307], rfl, by decide, fun _ => by decide⟩
  · refine ⟨c.toLower, [], rfl, ?_, ?_⟩
    · simp only [h1, h2, if_false] at hB
      exact hB _ (List.mem_singleton_self _)
    · intro hne
      unfold Char.toLower
      simp only
      split_ifs with h3
      · obtain ⟨h4, h5⟩ := h3
        generalize c.toNat = n at h4 h5
        interval_cases n <;> decide
      · exact hne

theorem toLowerCase_cons (c : Char) (cs : List Char) :
    toLowerCase (c :: cs) = lowerChar c ++ toLowerCase cs := by
  simp [toLowerCase]

theorem takeWhile_digit_toLowerCase (s : List Char) :
    (toLowerCase s).takeWhile Char.isDigit = s.takeWhile Char.isDigit := by
  induction s with
  | nil => rfl
  | cons c cs ih =>
    rw [toLowerCase_cons]
    by_cases hc : c.isDigit = true
    · rw [lowerChar_digit c hc]
      simp [List.takeWhile_cons_of_pos hc, ih]
    · have hc' : c.isDigit = false := by simpa using hc
      obtain ⟨d, ds, hl, hd, -⟩ := lowerChar_head_not_digit c hc'
      rw [hl]
      simp [hd, hc']

theorem dropWhile_digit_toLowerCase (s : List Char) :
    (toLowerCase s).dropWhile Char.isDigit = toLowerCase (s.dropWhile Char.isDigit) := by
  induction s with
  | nil => rfl
  | cons c cs ih =>
    rw [toLowerCase_cons]
    by_cases hc : c.isDigit = true
    · rw [lowerChar_digit c hc]
      simp [List.dropWhile_cons_of_pos hc, ih]
    · have hc' : c.isDigit = false := by simpa using hc
      obtain ⟨d, ds, hl, hd, -⟩ := lowerChar_head_not_digit c hc'
      rw [List.dropWhile_cons_of_neg hc, toLowerCase_cons, hl]
      simp [hd]

theorem head_toLowerCase_period (s : List Char) :
    (toLowerCase s).head? = some '.' ↔ s.head? = some '.' := by
  cases s with
  | nil => simp [toLowerCase]
  | cons c cs =>
    rw [toLowerCase_cons]
    by_cases hp : c = '.'
    · subst hp
      simp [lowerChar_period]
    · by_cases hc : c.isDigit = true
      · rw [lowerChar_digit c hc]
        simp
      · have hc' : c.isDigit = false := by simpa using hc
        obtain ⟨d, ds, hl, -, hd⟩ := lowerChar_head_not_digit c hc'
        rw [hl]
        simp [hp, hd hp]

theorem tail_toLowerCase_period (s : List Char) (h : s.head? = some '.') :
    (toLowerCase s).tail = toLowerCase s.tail := by
  cases s with
  | nil => simp at h
  | cons c cs =>
    simp only [List.head?_cons, Option.some.injEq] at h
    subst h
    rw [toLowerCase_cons, lowerChar_period]
    rfl

theorem lexNumeral_toLowerCase (s : List Char) :
    (lexNumeral (toLowerCase s)).1 = (lexNumeral s).1 := by
  unfold lexNumeral
  rw [dropWhile_digit_toLowerCase, takeWhile_digit_toLowerCase]
  by_cases h : (s.dropWhile Char.isDigit).head? = some '.'
  · have h' := (head_toLowerCase_period _).mpr h
    simp only [h, h', if_true]
    rw [tail_toLowerCase_period _ h, takeWhile_digit_toLowerCase]
  · have h' : ¬ (toLowerCase (s.dropWhile Char.isDigit)).head? = some '.' :=
      fun e => h ((head_toLowerCase_period _).mp e)
    simp only [h, h', if_false]

theorem firstNumeral_append_of_no_digit (a b : List Char) (h : ∀ x ∈ a, x.isDigit = false) :
    firstNumeral (a ++ b) = firstNumeral b := by
  induction a with
  | nil => rfl
  | cons x xs ih =>
    have hx : x.isDigit = false := h x (List.mem_cons_self _ _)
    simp only [List.cons_append, firstNumeral, hx, Bool.false_eq_true, if_false]
    exact ih (fun y hy => h y (List.mem_cons_of_mem _ hy))

/-- Lower-casing a transcript does not change its first numeral token. -/
theorem firstNumeral_toLowerCase (s : List Char) :
    (firstNumeral (toLowerCase s)).map (fun x => x.1) = (firstNumeral s).map (fun x => x.1) := by
  induction s with
  | nil => rfl
  | cons c cs ih =>
    by_cases hc : c.isDigit = true
    · have h1 : toLowerCase (c :: cs) = c :: toLowerCase cs := by
        rw [toLowerCase_cons, lowerChar_digit c hc]; rfl
      have h2 := lexNumeral_toLowerCase (c :: cs)
      rw [h1] at h2
      rw [h1]
      simp [firstNumeral, hc, h2]
    · have hc' : c.isDigit = false := by simpa using hc
      rw [toLowerCase_cons, firstNumeral_append_of_no_digit _ _ (lowerChar_not_digit c hc')]
      simp only [firstNumeral, hc', Bool.false_eq_true, if_false]
      exact ih

theorem valueOrZero_twoDecimal_toLowerCase (s : List Char) :
    valueOrZero ((firstNumeral (toLowerCase s)).map (fun x => (twoDecimalPart x.1, x.2))) =
      valueOrZero ((firstNumeral s).map (fun x => (twoDecimalPart x.1, x.2))) := by
  have h := firstNumeral_toLowerCase s
  cases h1 : firstNumeral (toLowerCase s) with
  | none =>
    cases h2 : firstNumeral s with
    | none => rfl
    | some y => rw [h1, h2] at h; simp at h
  | some x =>
    cases h2 : firstNumeral s with
    | none => rw [h1, h2] at h; simp at h
    | some y =>
      rw [h1, h2] at h
      simp only [Option.map_some', Option.some.injEq] at h
      simp [valueOrZero, h]

theorem numeralValue_nonneg (t : List Char) : 0 ≤ numeralValue t := by
  unfold numeralValue
  positivity

theorem valueOrZero_nonneg (t : Option (List Char × List Char)) : 0 ≤ valueOrZero t := by
  cases t with
  | none => exact le_refl _
  | some x => exact numeralValue_nonneg _

/-- C8, counterexample.  In "12.5 to 20.7" the numeral tokens are `12.5` and `20.7`, yet
the mileage draft has `startOdometer = 12` and `endOdometer = 20`, and the fuel draft has
`odometerReading = 20`; in "paid 12.5" the first numeral token is `12.5`, yet the generic
parser returns `amount = 12`. -/
theorem primary_value_not_first_numeral :
    (firstNumeral "12.5 to 20.7".toList).map (fun x => String.mk x.1) = some "12.5" ∧
    (secondNumeral "12.5 to 20.7".toList).map (fun x => String.mk x.1) = some "20.7" ∧
    valueOrZero (firstNumeral "12.5 to 20.7".toList) = 12.5 ∧
    valueOrZero (secondNumeral "12.5 to 20.7".toList) = 20.7 ∧
    (VoiceInput.parseVoiceInput ⟨2024, 1, 15⟩ "12.5 to 20.7" "mileage").startOdometer =
      some (JSNum.num 12) ∧
    (VoiceInput.parseVoiceInput ⟨2024, 1, 15⟩ "12.5 to 20.7" "mileage").endOdometer =
      some (JSNum.num 20) ∧
    (VoiceInput.parseVoiceInput ⟨2024, 1, 15⟩ "12.5 to 20.7" "fuel").odometerReading =
      some (JSNum.num 20) ∧
    valueOrZero (firstNumeral "paid 12.5".toList) = 12.5 ∧
    (UseVoiceInput.parseVoiceInput "paid 12.5").amount = JSNum.num 12 := by
  decide!

/-- C8, amended.  The first two entries of `numbers` are the first and the second decimal
numeral token of the transcript, scanning from the left.  The `amount` of the fuel, meal,
accommodation and miscellaneous drafts is the value of the first token; `startOdometer` is
the integer part of the value of the first token, `endOdometer` and `odometerReading` the
integer part of the value of the second; the `amount` of the generic parser is the value
of the two-decimal part of the first token (its integer part, with the first two fraction
digits when it has at least two).  A missing token counts as 0.  Each value is held as
the Number it rounds to (`JSNum.ofRat`); the odometer fields hold the integer part itself
when the value of the token is below `2 ^ 53`. -/
theorem numerals_read_in_order (today : CalDate) (text : String) :
    (VoiceInput.numbers text)[0]? = (firstNumeral text.toList).map (fun x => x.1) ∧
    (VoiceInput.numbers text)[1]? = (secondNumeral text.toList).map (fun x => x.1) ∧
    (VoiceInput.parseVoiceInput today text "fuel").amount =
      some (JSNum.ofRat (valueOrZero (firstNumeral text.toList))) ∧
    (VoiceInput.parseVoiceInput today text "meal").amount =
      some (JSNum.ofRat (valueOrZero (firstNumeral text.toList))) ∧
    (VoiceInput.parseVoiceInput today text "accommodation").amount =
      some (JSNum.ofRat (valueOrZero (firstNumeral text.toList))) ∧
    (VoiceInput.parseVoiceInput today text "miscellaneous").amount =
      some (JSNum.ofRat (valueOrZero (firstNumeral text.toList))) ∧
    (VoiceInput.parseVoiceInput today text "mileage").startOdometer =
      some (JSNum.ofRat ((⌊valueOrZero (firstNumeral text.toList)⌋ : ℤ) : ℚ)) ∧
    (VoiceInput.parseVoiceInput today text "mileage").endOdometer =
      some (JSNum.ofRat ((⌊valueOrZero (secondNumeral text.toList)⌋ : ℤ) : ℚ)) ∧
    (VoiceInput.parseVoiceInput today text "fuel").odometerReading =
      some (JSNum.ofRat ((⌊valueOrZero (secondNumeral text.toList)⌋ : ℤ) : ℚ)) ∧
    (UseVoiceInput.parseVoiceInput text).amount =
      JSNum.ofRat (valueOrZero
        ((firstNumeral text.toList).map (fun x => (twoDecimalPart x.1, x.2)))) ∧
    (valueOrZero (firstNumeral text.toList) < 9007199254740992 →
      (VoiceInput.parseVoiceInput today text "mileage").startOdometer =
        some (JSNum.num ((⌊valueOrZero (firstNumeral text.toList)⌋ : ℤ) : ℚ))) ∧
    (valueOrZero (secondNumeral text.toList) < 9007199254740992 →
      (VoiceInput.parseVoiceInput today text "mileage").endOdometer =
        some (JSNum.num ((⌊valueOrZero (secondNumeral text.toList)⌋ : ℤ) : ℚ))) ∧
    (valueOrZero (secondNumeral text.toList) < 9007199254740992 →
      (VoiceInput.parseVoiceInput today text "fuel").odometerReading =
        some (JSNum.num ((⌊valueOrZero (secondNumeral text.toList)⌋ : ℤ) : ℚ))) := by
  have h0 := numbers_zero text
  have h1 := numbers_one text
  have hf := parsedOrZero_firstNumeral text.toList
  have hs := parsedOrZero_secondNumeral text.toList
  have hg := amountRE_search (toLowerCase text.toList)
  rw [valueOrZero_twoDecimal_toLowerCase] at hg
  refine ⟨h0, h1, ?_, ?_, ?_, ?_, ?_, ?_, ?_, hg, ?_, ?_, ?_⟩
  all_goals
    first
    | (simp only [VoiceInput.parseVoiceInput, h0, h1, hf.1, hf.2, hs]
       rfl)
    | (intro hlt
       rw [← ofRat_floor _ (valueOrZero_nonneg _) hlt]
       simp only [VoiceInput.parseVoiceInput, h0, h1, hf.1, hf.2, hs]
       rfl)

/-- Witness for C8, amended: in "45180 to 45230" the values of the two tokens are below
`2 ^ 53`, and the mileage draft has their integer parts. -/
theorem numerals_read_in_order_witness :
    valueOrZero (firstNumeral "45180 to 45230".toList) < 9007199254740992 ∧
    valueOrZero (secondNumeral "45180 to 45230".toList) < 9007199254740992 ∧
    (VoiceInput.parseVoiceInput ⟨2024, 1, 15⟩ "45180 to 45230" "mileage").startOdometer =
      some (JSNum.num ((⌊valueOrZero (firstNumeral "45180 to 45230".toList)⌋ : ℤ) : ℚ)) ∧
    (VoiceInput.parseVoiceInput ⟨2024, 1, 15⟩ "45180 to 45230" "mileage").endOdometer =
      some (JSNum.num ((⌊valueOrZero (secondNumeral "45180 to 45230".toList)⌋ : ℤ) : ℚ)) ∧
    (VoiceInput.parseVoiceInput ⟨2024, 1, 15⟩ "45180 to 45230" "mileage").startOdometer =
      some (JSNum.num 45180) ∧
    (VoiceInput.parseVoiceInput ⟨2024, 1, 15⟩ "45180 to 45230" "mileage").endOdometer =
      some (JSNum.num 45230) :=
  ⟨by decide!, by decide!,
    (numerals_read_in_order ⟨2024, 1, 15⟩ "45180 to 45230").2.2.2.2.2.2.2.2.2.2.1
      (by decide!),
    (numerals_read_in_order ⟨2024, 1, 15⟩ "45180 to 45230").2.2.2.2.2.2.2.2.2.2.2.1
      (by decide!),
    by decide!, by decide!⟩

/-! ## The bound on the number of matches is never reached -/

theorem manyRun_sound (p : Char → Bool) (n : Nat) (s : List Char) (x : List Char × List Char)
    (h : x ∈ manyRun p n s) : s = x.1 ++ x.2 := by
  induction s generalizing n x with
  | nil =>
    simp only [manyRun] at h
    split_ifs at h
    · simp at h; subst h; rfl
    · simp at h
  | cons c cs ih =>
    simp only [manyRun] at h
    split_ifs at h with hp hn hn
    · simp only [List.mem_append, List.mem_map, List.mem_singleton] at h
      rcases h with ⟨y, hy, rfl⟩ | rfl
      · simp [← ih _ _ hy]
      · rfl
    · simp only [List.append_nil, List.mem_map] at h
      obtain ⟨y, hy, rfl⟩ := h
      simp [← ih _ _ hy]
    · simp at h; subst h; rfl
    · simp at h

/-- Every way of matching splits the input into the text matched and the rest. -/
theorem run_sound (r : RE) (s : List Char) (m : Match) (h : m ∈ r.run s) :
    s = m.matched ++ m.rest := by
  induction r generalizing s m with
  | cls p =>
    cases s with
    | nil => simp [run_cls_nil] at h
    | cons c cs =>
      rw [run_cls_cons] at h
      split_ifs at h
      · simp at h; subst h; rfl
      · simp at h
  | many p n =>
    rw [run_many, List.mem_map] at h
    obtain ⟨x, hx, rfl⟩ := h
    exact manyRun_sound p n s x hx
  | opt r ih =>
    rw [run_opt, List.mem_append] at h
    rcases h with h | h
    · exact ih s m h
    · simp at h; subst h; rfl
  | seq r1 r2 ih1 ih2 =>
    rw [run_seq, List.mem_flatMap] at h
    obtain ⟨x, hx, hm⟩ := h
    rw [List.mem_map] at hm
    obtain ⟨y, hy, rfl⟩ := hm
    have h1 := ih1 s x hx
    have h2 := ih2 x.rest y hy
    simp only [List.append_assoc]
    rw [← h2, ← h1]
  | alt r1 r2 ih1 ih2 =>
    rw [run_alt, List.mem_append] at h
    rcases h with h | h
    · exact ih1 s m h
    · exact ih2 s m h
  | group r ih =>
    rw [run_group, List.mem_map] at h
    obtain ⟨x, hx, rfl⟩ := h
    exact ih s x hx

/-- The match found by a search, with the text before it, makes up the input. -/
theorem search_sound (r : RE) (s pre : List Char) (m : Match)
    (h : r.search s = some (pre, m)) : s = pre ++ (m.matched ++ m.rest) := by
  induction s generalizing pre with
  | nil =>
    simp only [RE.search, Option.map_eq_some'] at h
    obtain ⟨x, hx, heq⟩ := h
    simp only [Prod.mk.injEq] at heq
    obtain ⟨rfl, rfl⟩ := heq
    exact run_sound r [] x (List.mem_of_mem_head? hx)
  | cons c cs ih =>
    rw [RE.search] at h
    cases hh : (r.run (c :: cs)).head? with
    | some x =>
      rw [hh] at h
      simp only [Option.some.injEq, Prod.mk.injEq] at h
      obtain ⟨rfl, rfl⟩ := h
      exact run_sound r _ x (List.mem_of_mem_head? hh)
    | none =>
      rw [hh] at h
      simp only [Option.map_eq_some'] at h
      obtain ⟨⟨pre', m'⟩, hx, heq⟩ := h
      simp only [Prod.mk.injEq] at heq
      obtain ⟨rfl, rfl⟩ := heq
      simp [← ih pre' hx]

/-- The list of matches does not depend on the bound once the bound exceeds the length of
the input: `matchAll` is never cut short. -/
theorem matchAllAux_bound (r : RE) (n k : Nat) (s : List Char) (hn : s.length < n)
    (hk : s.length < k) : r.matchAllAux n s = r.matchAllAux k s := by
  induction n generalizing k s with
  | zero => omega
  | succ n ih =>
    cases k with
    | zero => omega
    | succ k =>
      rw [RE.matchAllAux, RE.matchAllAux]
      cases hs : r.search s with
      | none => rfl
      | some x =>
        obtain ⟨pre, m⟩ := x
        have hsound := congrArg List.length (search_sound r s pre m hs)
        simp only [List.length_append] at hsound
        simp only
        congr 1
        rcases hm : m.matched with _ | ⟨a, as⟩ <;> rcases hr : m.rest with _ | ⟨b, bs⟩
        · rfl
        · rw [hm, hr] at hsound
          simp only [List.length_cons, List.length_nil] at hsound
          exact ih k bs (by omega) (by omega)
        · rw [hm, hr] at hsound
          simp only [List.length_cons, List.length_nil] at hsound
          exact ih k [] (by simp; omega) (by simp; omega)
        · rw [hm, hr] at hsound
          simp only [List.length_cons] at hsound
          exact ih k (b :: bs) (by simp; omega) (by simp; omega)

/-- The result of a replacement does not depend on the bound once the bound exceeds the
length of the input: `replaceAll` is never cut short. -/
theorem replaceAllAux_bound (r : RE) (rep : List Char) (n k : Nat) (s : List Char)
    (hn : s.length < n) (hk : s.length < k) :
    r.replaceAllAux rep n s = r.replaceAllAux rep k s := by
  induction n generalizing k s with
  | zero => omega
  | succ n ih =>
    cases k with
    | zero => omega
    | succ k =>
      rw [RE.replaceAllAux, RE.replaceAllAux]
      cases hs : r.search s with
      | none => rfl
      | some x =>
        obtain ⟨pre, m⟩ := x
        have hsound := congrArg List.length (search_sound r s pre m hs)
        simp only [List.length_append] at hsound
        simp only
        congr 1
        rcases hm : m.matched with _ | ⟨a, as⟩ <;> rcases hr : m.rest with _ | ⟨b, bs⟩
        · rfl
        · rw [hm, hr] at hsound
          simp only [List.length_cons, List.length_nil] at hsound
          simp only
          congr 1
          exact ih k bs (by omega) (by omega)
        · rw [hm, hr] at hsound
          simp only [List.length_cons, List.length_nil] at hsound
          exact ih k [] (by simp; omega) (by simp; omega)
        · rw [hm, hr] at hsound
          simp only [List.length_cons] at hsound
          exact ih k (b :: bs) (by simp; omega) (by simp; omega)

/-! ## Defaults of the transcript parser -/

/-- C11, counterexample.  For the mileage transcript "45180 45230", which has none of the
phrases, the draft has `startLocation`, `endLocation`, `attendees` and `businessPurpose`
set to the fixed labels and not undefined; for the fuel transcript "65 dollars" and the
meal transcript "85 dollars", which have no at-phrase, `title` and `location` are set
too. -/
theorem parseVoiceInput_substitutes_defaults :
    VoiceInput.extractLocation "45180 45230" "from" = none ∧
    VoiceInput.extractLocation "45180 45230" "to" = none ∧
    VoiceInput.extractAttendees "45180 45230" = none ∧
    VoiceInput.extractPurpose "45180 45230" = none ∧
    (VoiceInput.parseVoiceInput ⟨2024, 1, 15⟩ "45180 45230" "mileage").startLocation ≠ none ∧
    (VoiceInput.parseVoiceInput ⟨2024, 1, 15⟩ "45180 45230" "mileage").endLocation ≠ none ∧
    (VoiceInput.parseVoiceInput ⟨2024, 1, 15⟩ "45180 45230" "mileage").attendees ≠ none ∧
    (VoiceInput.parseVoiceInput ⟨2024, 1, 15⟩ "45180 45230" "mileage").businessPurpose ≠ none ∧
    VoiceInput.extractLocation "65 dollars" "at" = none ∧
    (VoiceInput.parseVoiceInput ⟨2024, 1, 15⟩ "65 dollars" "fuel").title = some "Gas Station" ∧
    (VoiceInput.parseVoiceInput ⟨2024, 1, 15⟩ "65 dollars" "fuel").location =
      some "Gas Station" ∧
    VoiceInput.extractRestaurant "85 dollars" = none ∧
    (VoiceInput.parseVoiceInput ⟨2024, 1, 15⟩ "85 dollars" "meal").title =
      some "Business Meal" ∧
    (VoiceInput.parseVoiceInput ⟨2024, 1, 15⟩ "85 dollars" "meal").location =
      some "Restaurant" := by
  decide

/-- C11, amended.  When the phrase of a field is not found (its extractor returns `null`),
the parser sets the field to its fixed label: for mileage `startLocation` is
"Home Office", `endLocation` "Client Location", `attendees` "Client" and `businessPurpose`
"Business meeting"; for fuel `title` and `location` are "Gas Station"; for meal `title`
is "Business Meal" and `location` "Restaurant". -/
theorem parseVoiceInput_defaults (today : CalDate) (text : String)
    (hfrom : VoiceInput.extractLocation text "from" = none)
    (hto : VoiceInput.extractLocation text "to" = none)
    (hwith : VoiceInput.extractAttendees text = none)
    (hfor : VoiceInput.extractPurpose text = none)
    (hat : VoiceInput.extractLocation text "at" = none)
    (hrest : VoiceInput.extractRestaurant text = none) :
    (VoiceInput.parseVoiceInput today text "mileage").startLocation = some "Home Office" ∧
    (VoiceInput.parseVoiceInput today text "mileage").endLocation = some "Client Location" ∧
    (VoiceInput.parseVoiceInput today text "mileage").attendees = some "Client" ∧
    (VoiceInput.parseVoiceInput today text "mileage").businessPurpose =
      some "Business meeting" ∧
    (VoiceInput.parseVoiceInput today text "fuel").title = some "Gas Station" ∧
    (VoiceInput.parseVoiceInput today text "fuel").location = some "Gas Station" ∧
    (VoiceInput.parseVoiceInput today text "meal").title = some "Business Meal" ∧
    (VoiceInput.parseVoiceInput today text "meal").location = some "Restaurant" := by
  refine ⟨?_, ?_, ?_, ?_, ?_, ?_, ?_, ?_⟩ <;>
    (simp only [VoiceInput.parseVoiceInput, hfrom, hto, hwith, hfor, hat, hrest]; rfl)

/-- Witness for C11, amended: the transcript "45180 45230". -/
theorem parseVoiceInput_defaults_witness :
    (VoiceInput.parseVoiceInput ⟨2024, 1, 15⟩ "45180 45230" "mileage").startLocation =
      some "Home Office" ∧
    (VoiceInput.parseVoiceInput ⟨2024, 1, 15⟩ "45180 45230" "mileage").endLocation =
      some "Client Location" ∧
    (VoiceInput.parseVoiceInput ⟨2024, 1, 15⟩ "45180 45230" "mileage").attendees =
      some "Client" ∧
    (VoiceInput.parseVoiceInput ⟨2024, 1, 15⟩ "45180 45230" "mileage").businessPurpose =
      some "Business meeting" ∧
    (VoiceInput.parseVoiceInput ⟨2024, 1, 15⟩ "45180 45230" "fuel").title =
      some "Gas Station" ∧
    (VoiceInput.parseVoiceInput ⟨2024, 1, 15⟩ "45180 45230" "fuel").location =
      some "Gas Station" ∧
    (VoiceInput.parseVoiceInput ⟨2024, 1, 15⟩ "45180 45230" "meal").title =
      some "Business Meal" ∧
    (VoiceInput.parseVoiceInput ⟨2024, 1, 15⟩ "45180 45230" "meal").location =
      some "Restaurant" :=
  parseVoiceInput_defaults ⟨2024, 1, 15⟩ "45180 45230" (by decide) (by decide) (by decide)
    (by decide) (by decide) (by decide)

/-! ## Category inference of the generic parser -/

theorem startsWith_iff (p s : List Char) : startsWith p s = true ↔ p <+: s := by
  induction p generalizing s with
  | nil => simp [startsWith]
  | cons a as ih =>
    cases s with
    | nil => simp [startsWith]
    | cons c cs => simp [startsWith, ih, List.cons_prefix_cons]

/-- The method `includes` decides whether the pattern occurs as a substring. -/
theorem includes_iff (p s : List Char) : includes p s = true ↔ p <:+: s := by
  induction s with
  | nil =>
    simp only [includes, startsWith_iff]
    constructor
    · intro h; exact h.isInfix
    · intro h
      have := List.eq_nil_of_infix_nil h
      subst this
      exact List.prefix_refl _
  | cons c cs ih =>
    simp only [includes, Bool.or_eq_true, startsWith_iff, ih]
    rw [List.infix_cons_iff]

theorem includes_eq_decide (p s : List Char) : includes p s = decide (p <:+: s) := by
  by_cases h : p <:+: s
  · simp [h, (includes_iff p s).mpr h]
  · have : includes p s = false := by
      by_contra hne
      exact h ((includes_iff p s).mp (by simpa using hne))
    simp [h, this]

theorem any_keyword_iff (ks : List String) (l : List Char) :
    (ks.any (fun k => includes k.toList l)) = true ↔ ∃ k ∈ ks, k.toList <:+: l := by
  simp only [List.any_eq_true, includes_iff]

theorem inferCategory_eq (lowerText : List Char) :
    UseVoiceInput.inferCategory lowerText = firstKeywordCategory keywordTable lowerText := by
  have h1 := any_keyword_iff ["fuel", "gas", "gasoline"] lowerText
  have h2 := any_keyword_iff ["food", "restaurant", "meal", "lunch", "dinner"] lowerText
  have h3 := any_keyword_iff ["hotel", "accommodation", "lodging"] lowerText
  have h4 := any_keyword_iff ["taxi", "uber", "transport"] lowerText
  simp only [List.any_cons, List.any_nil, Bool.or_false] at h1 h2 h3 h4
  unfold UseVoiceInput.inferCategory
  unfold keywordTable
  simp only [firstKeywordCategory, ← h1, ← h2, ← h3, ← h4, Bool.or_assoc]

/-- C12.  The category of the generic parser is the first category of the keyword table, in
the order Fuel, Meals, Accommodation, Transportation, one of whose keywords occurs in the
lower-cased transcript as a substring, and Miscellaneous when no keyword occurs; so a
transcript with a Fuel keyword is classified Fuel whatever other keywords it has. -/
theorem generic_category_first_keyword (text : String) :
    (UseVoiceInput.parseVoiceInput text).category =
      firstKeywordCategory keywordTable (toLowerCase text.toList) ∧
    (∀ k ∈ ["fuel", "gas", "gasoline"], k.toList <:+: toLowerCase text.toList →
      (UseVoiceInput.parseVoiceInput text).category = "Fuel") ∧
    ((∀ e ∈ keywordTable, ∀ k ∈ e.2, ¬ k.toList <:+: toLowerCase text.toList) →
      (UseVoiceInput.parseVoiceInput text).category = "Miscellaneous") := by
  have h : (UseVoiceInput.parseVoiceInput text).category =
      firstKeywordCategory keywordTable (toLowerCase text.toList) :=
    inferCategory_eq _
  refine ⟨h, ?_, ?_⟩
  · intro k hk hin
    rw [h]
    have : ∃ k ∈ ["fuel", "gas", "gasoline"], k.toList <:+: toLowerCase text.toList :=
      ⟨k, hk, hin⟩
    simp only [keywordTable, firstKeywordCategory, this, if_true]
  · intro hnone
    rw [h]
    have h1 : ¬ ∃ k ∈ ["fuel", "gas", "gasoline"], k.toList <:+: toLowerCase text.toList := by
      rintro ⟨k, hk, hin⟩
      exact hnone ("Fuel", ["fuel", "gas", "gasoline"]) (by simp [keywordTable]) k hk hin
    have h2 : ¬ ∃ k ∈ ["food", "restaurant", "meal", "lunch", "dinner"],
        k.toList <:+: toLowerCase text.toList := by
      rintro ⟨k, hk, hin⟩
      exact hnone ("Meals", ["food", "restaurant", "meal", "lunch", "dinner"])
        (by simp [keywordTable]) k hk hin
    have h3 : ¬ ∃ k ∈ ["hotel", "accommodation", "lodging"],
        k.toList <:+: toLowerCase text.toList := by
      rintro ⟨k, hk, hin⟩
      exact hnone ("Accommodation", ["hotel", "accommodation", "lodging"])
        (by simp [keywordTable]) k hk hin
    have h4 : ¬ ∃ k ∈ ["taxi", "uber", "transport"],
        k.toList <:+: toLowerCase text.toList := by
      rintro ⟨k, hk, hin⟩
      exact hnone ("Transportation", ["taxi", "uber", "transport"])
        (by simp [keywordTable]) k hk hin
    simp only [keywordTable, firstKeywordCategory, h1, h2, h3, h4, if_false]

/-- Witness for C12: "Gas and LUNCH at the hotel" has keywords of three categories and is
classified Fuel; "Parking downtown" has no keyword. -/
theorem generic_category_first_keyword_witness :
    (UseVoiceInput.parseVoiceInput "Gas and LUNCH at the hotel").category = "Fuel" ∧
    (UseVoiceInput.parseVoiceInput "Parking downtown").category = "Miscellaneous" :=
  ⟨(generic_category_first_keyword "Gas and LUNCH at the hotel").2.1 "gas" (by decide)
      ((includes_iff _ _).mp (by decide)),
    (generic_category_first_keyword "Parking downtown").2.2 (by
      intro e he k hk hin
      have hinc := (includes_iff _ _).mpr hin
      simp only [keywordTable, List.mem_cons, List.mem_singleton, List.not_mem_nil,
        or_false] at he
      rcases he with rfl | rfl | rfl | rfl <;>
        simp only [List.mem_cons, List.mem_singleton, List.not_mem_nil, or_false] at hk <;>
        (rcases hk with rfl | rfl | rfl | rfl | rfl <;> revert hinc <;> decide))⟩

/-! ## The expense form and the expense collections -/

/-- C13, counterexample.  The form with title "Refund" and amount "-5" is passed on by
`handleSubmit` with `amount = -5`, and `addExpense` of either hook puts the record with the
negative amount at the head of the collection. -/
theorem negative_amount_is_added :
    (ExpenseForm.handleSubmit
        ⟨"Refund", "-5", "Fuel", some ⟨2024, 1, 15⟩, "", "", "", ""⟩).map (fun d => d.amount) =
      some (some (JSNum.num (-5))) ∧
    ((UseExpenses.addExpense 0 1705312800000
        (ExpenseForm.submitted ⟨"Refund", "-5", "Fuel", some ⟨2024, 1, 15⟩, "", "", "", ""⟩)
        []).expenses.map (fun e => (e.title, e.amount))) =
      [(some "Refund", some (JSNum.num (-5)))] ∧
    ((UseBusinessExpenses.addExpense 0 1705312800000
        (ExpenseForm.submitted ⟨"Refund", "-5", "Fuel", some ⟨2024, 1, 15⟩, "", "", "", ""⟩)
        []).expenses.map (fun e => (e.title, e.amount))) =
      [(some "Refund", some (JSNum.num (-5)))] := by
  decide!

/-- C13, amended.  A form whose title and amount are not empty strings is passed on by
`handleSubmit` with the amount that `parseFloat` reads, whatever its sign, and `addExpense`
of either hook puts the record it is given at the head of the collection with that amount:
a negative amount is added, and so is the amount 0. -/
theorem expense_amount_is_not_checked (formData : ExpenseForm.FormData) (tz : Int) (now : Nat)
    (expense : Draft) (expenses : List Expense)
    (htitle : formData.title ≠ "") (hamount : formData.amount ≠ "") :
    ExpenseForm.handleSubmit formData = some (ExpenseForm.submitted formData) ∧
    (ExpenseForm.submitted formData).amount = some (parseFloat formData.amount.toList) ∧
    (UseExpenses.addExpense tz now expense expenses).expenses =
      UseExpenses.newExpense tz now expense :: expenses ∧
    (UseExpenses.newExpense tz now expense).amount = expense.amount ∧
    (UseBusinessExpenses.addExpense tz now expense expenses).expenses =
      UseBusinessExpenses.newExpense tz now expense :: expenses ∧
    (UseBusinessExpenses.newExpense tz now expense).amount = expense.amount := by
  refine ⟨?_, rfl, rfl, rfl, rfl, rfl⟩
  simp [ExpenseForm.handleSubmit, htitle, hamount]

/-- Witness for C13, amended: the form with title "Comped lunch" and amount "0", and the
draft with amount -5. -/
theorem expense_amount_is_not_checked_witness :
    ExpenseForm.handleSubmit
        ⟨"Comped lunch", "0", "Meals", some ⟨2024, 1, 15⟩, "", "", "", ""⟩ =
      some (ExpenseForm.submitted
        ⟨"Comped lunch", "0", "Meals", some ⟨2024, 1, 15⟩, "", "", "", ""⟩) ∧
    (ExpenseForm.submitted
        ⟨"Comped lunch", "0", "Meals", some ⟨2024, 1, 15⟩, "", "", "", ""⟩).amount =
      some (JSNum.num 0) ∧
    (UseExpenses.newExpense 0 1705312800000 { amount := some (JSNum.num (-5)) }).amount =
      some (JSNum.num (-5)) :=
  ⟨(expense_amount_is_not_checked
      ⟨"Comped lunch", "0", "Meals", some ⟨2024, 1, 15⟩, "", "", "", ""⟩ 0 1705312800000
      { amount := some (JSNum.num (-5)) } [] (by decide) (by decide)).1,
    by decide!,
    (expense_amount_is_not_checked
      ⟨"Comped lunch", "0", "Meals", some ⟨2024, 1, 15⟩, "", "", "", ""⟩ 0 1705312800000
      { amount := some (JSNum.num (-5)) } [] (by decide) (by decide)).2.2.2.1⟩

/-- C14, counterexample.  The form whose title is three spaces is passed on by
`handleSubmit` with that title, which is empty after trimming, and `addExpense` adds it. -/
theorem blank_title_is_added :
    (ExpenseForm.handleSubmit
        ⟨"   ", "5", "Fuel", some ⟨2024, 1, 15⟩, "", "", "", ""⟩).map (fun d => d.title) =
      some (some "   ") ∧
    jsTrim "   ".toList = [] ∧
    ((UseExpenses.addExpense 0 1705312800000
        (ExpenseForm.submitted ⟨"   ", "5", "Fuel", some ⟨2024, 1, 15⟩, "", "", "", ""⟩)
        []).expenses.map (fun e => e.title)) = [some "   "] := by
  decide!

/-- C14, amended.  `handleSubmit` passes a form on exactly when its title and its amount are
not the empty string, and the expense passed on has the title of the form as it is, without
trimming: its title is not empty, but may consist of white space only. -/
theorem submitted_title_is_not_empty (formData : ExpenseForm.FormData) :
    ((ExpenseForm.handleSubmit formData).isSome = true ↔
      formData.title ≠ "" ∧ formData.amount ≠ "") ∧
    (formData.title = "" → ExpenseForm.handleSubmit formData = none) ∧
    ∀ d, ExpenseForm.handleSubmit formData = some d →
      d.title = some formData.title ∧ formData.title ≠ "" := by
  by_cases h : formData.title = "" ∨ formData.amount = ""
  · have hn : ExpenseForm.handleSubmit formData = none := by
      simp only [ExpenseForm.handleSubmit, h, if_true]
    rw [hn]
    refine ⟨?_, fun _ => rfl, fun d hd => by simp at hd⟩
    simp only [Option.isSome_none, Bool.false_eq_true, false_iff]
    tauto
  · have hs : ExpenseForm.handleSubmit formData = some (ExpenseForm.submitted formData) := by
      simp only [ExpenseForm.handleSubmit, h, if_false]
    have h' : formData.title ≠ "" ∧ formData.amount ≠ "" := by tauto
    rw [hs]
    refine ⟨by simp [h'.1, h'.2], fun ht => absurd ht h'.1, ?_⟩
    intro d hd
    simp only [Option.some.injEq] at hd
    subst hd
    exact ⟨rfl, h'.1⟩

/-- Witness for C14, amended: the form with the empty title and the form with the title
"Gas". -/
theorem submitted_title_is_not_empty_witness :
    ExpenseForm.handleSubmit ⟨"", "5", "Fuel", some ⟨2024, 1, 15⟩, "", "", "", ""⟩ = none ∧
    (ExpenseForm.submitted ⟨"Gas", "5", "Fuel", some ⟨2024, 1, 15⟩, "", "", "", ""⟩).title =
      some "Gas" ∧ "Gas" ≠ "" :=
  ⟨(submitted_title_is_not_empty
      ⟨"", "5", "Fuel", some ⟨2024, 1, 15⟩, "", "", "", ""⟩).2.1 rfl,
    (submitted_title_is_not_empty
      ⟨"Gas", "5", "Fuel", some ⟨2024, 1, 15⟩, "", "", "", ""⟩).2.2 _ (by decide!)⟩

/-! ## Identifiers -/

theorem digitVal_digitChar (k : Nat) (h : k < 10) : digitVal (Nat.digitChar k) = k := by
  interval_cases k <;> rfl

theorem toDigitsCore_spec (fuel n : Nat) (ds : List Char) (h : n < fuel) :
    ∃ l, Nat.toDigitsCore 10 fuel n ds = l ++ ds ∧ digitsToNat l = n := by
  induction fuel generalizing n ds with
  | zero => omega
  | succ fuel ih =>
    rw [Nat.toDigitsCore]
    by_cases h0 : n / 10 = 0
    · simp only [h0, if_true]
      refine ⟨[Nat.digitChar (n % 10)], rfl, ?_⟩
      have : n < 10 := by omega
      simp only [digitsToNat, List.foldl_cons, List.foldl_nil, Nat.mul_zero, Nat.zero_add]
      rw [digitVal_digitChar _ (Nat.mod_lt _ (by decide))]
      omega
    · simp only [h0, if_false]
      obtain ⟨l, hl, hv⟩ := ih (n / 10) (Nat.digitChar (n % 10) :: ds) (by omega)
      refine ⟨l ++ [Nat.digitChar (n % 10)], by rw [hl]; simp, ?_⟩
      rw [digitsToNat_append, hv]
      simp only [List.length_singleton, pow_one, digitsToNat, List.foldl_cons, List.foldl_nil,
        Nat.mul_zero, Nat.zero_add]
      rw [digitVal_digitChar _ (Nat.mod_lt _ (by decide))]
      omega

/-- The decimal rendering of a natural number reads back as the number. -/
theorem digitsToNat_toString (n : Nat) : digitsToNat (toString n).toList = n := by
  obtain ⟨l, hl, hv⟩ := toDigitsCore_spec (n + 1) n [] (by omega)
  have : (toString n).toList = l := by
    show (Nat.repr n).toList = l
    rw [Nat.repr, Nat.toDigits, hl]
    simp [List.asString]
  rw [this, hv]

/-- Different numbers have different decimal renderings. -/
theorem toString_nat_injective (a b : Nat) (h : toString a = toString b) : a = b := by
  rw [← digitsToNat_toString a, ← digitsToNat_toString b, h]

theorem nodup_clock_ids {α : Type} (clock : α → Nat) (adds : List α) (ids : List String)
    (hclock : (adds.map clock).Nodup) (hinit : ids.Nodup)
    (hfresh : ∀ a ∈ adds, toString (clock a) ∉ ids) :
    ((adds.map (fun a => toString (clock a))).reverse ++ ids).Nodup := by
  rw [List.nodup_append]
  refine ⟨?_, hinit, ?_⟩
  · rw [List.nodup_reverse]
    have : adds.map (fun a => toString (clock a)) = (adds.map clock).map toString := by simp
    rw [this]
    exact List.Nodup.map (fun a b h => toString_nat_injective a b h) hclock
  · intro s hs hs'
    simp only [List.mem_reverse, List.mem_map] at hs
    obtain ⟨a, ha, rfl⟩ := hs
    exact hfresh a ha hs'

/-- C15, counterexample.  Two expenses added at the same reading of the clock get the same
id, in either hook, and so do two mileage entries. -/
theorem same_clock_same_id :
    ((UseExpenses.addExpense 0 1705312800000 { title := some "Lunch" }
        (UseExpenses.addExpense 0 1705312800000 { title := some "Gas" } []).expenses).expenses.map
        (fun e => e.id)) = ["1705312800000", "1705312800000"] ∧
    ((UseBusinessExpenses.addExpense 0 1705312800000 { title := some "Lunch" }
        (UseBusinessExpenses.addExpense 0 1705312800000 { title := some "Gas" }
          []).expenses).expenses.map (fun e => e.id)) = ["1705312800000", "1705312800000"] ∧
    ((UseBusinessExpenses.addMileageEntry 1705312800000 { endLocation := some "B" }
        (UseBusinessExpenses.addMileageEntry 1705312800000 { endLocation := some "A" }
          []).mileageEntries).mileageEntries.map (fun e => e.id)) =
      ["1705312800000", "1705312800000"] ∧
    ¬ (["1705312800000", "1705312800000"] : List String).Nodup := by
  decide

/-- C15, amended.  The id of a newly added record is the decimal rendering of the reading of
the clock at the addition.  When the readings of a sequence of additions are pairwise
different and none of them renders as the id of a record of the collection at the start,
whose ids are pairwise distinct, the ids of the collection after the additions are
pairwise distinct (in `useBusinessExpenses` for inputs that carry no `id` of their
own). -/
theorem ids_distinct_of_distinct_clock (tz : Int) (adds : List (Nat × Draft))
    (expenses : List Expense) (entries : List UseBusinessExpenses.MileageEntry)
    (hclock : (adds.map (fun a => a.1)).Nodup)
    (hnoid : ∀ a ∈ adds, a.2.id = none)
    (hexpenses : (expenses.map (fun e => e.id)).Nodup)
    (hentries : (entries.map (fun e => e.id)).Nodup)
    (hfreshE : ∀ a ∈ adds, toString a.1 ∉ expenses.map (fun e => e.id))
    (hfreshM : ∀ a ∈ adds, toString a.1 ∉ entries.map (fun e => e.id)) :
    ((adds.foldl (fun l a => (UseExpenses.addExpense tz a.1 a.2 l).expenses) expenses).map
      (fun e => e.id)).Nodup ∧
    ((adds.foldl (fun l a => (UseBusinessExpenses.addExpense tz a.1 a.2 l).expenses)
      expenses).map (fun e => e.id)).Nodup ∧
    ((adds.foldl (fun l a => (UseBusinessExpenses.addMileageEntry a.1 a.2 l).mileageEntries)
      entries).map (fun e => e.id)).Nodup := by
  have key : ∀ (adds' : List (Nat × Draft)), (∀ a ∈ adds', a.2.id = none) →
      ∀ (l : List Expense) (m : List UseBusinessExpenses.MileageEntry),
      ((adds'.foldl (fun l a => (UseExpenses.addExpense tz a.1 a.2 l).expenses) l).map
          (fun e => e.id)) =
        (adds'.map (fun a => toString a.1)).reverse ++ l.map (fun e => e.id) ∧
      ((adds'.foldl (fun l a => (UseBusinessExpenses.addExpense tz a.1 a.2 l).expenses) l).map
          (fun e => e.id)) =
        (adds'.map (fun a => toString a.1)).reverse ++ l.map (fun e => e.id) ∧
      ((adds'.foldl
          (fun l a => (UseBusinessExpenses.addMileageEntry a.1 a.2 l).mileageEntries) m).map
          (fun e => e.id)) =
        (adds'.map (fun a => toString a.1)).reverse ++ m.map (fun e => e.id) := by
    intro adds'
    induction adds' with
    | nil => intro _ l m; simp
    | cons a as ih =>
      intro hno l m
      have ha : a.2.id = none := hno a (List.mem_cons_self _ _)
      have ih' := ih (fun b hb => hno b (List.mem_cons_of_mem _ hb))
      simp only [List.foldl_cons, List.map_cons, List.reverse_cons, List.append_assoc,
        List.singleton_append]
      refine ⟨?_, ?_, ?_⟩
      · rw [(ih' _ m).1]
        rfl
      · rw [(ih' _ m).2.1]
        simp [UseBusinessExpenses.addExpense, UseBusinessExpenses.newExpense, Expense.ofDraft, ha]
      · rw [(ih' l _).2.2]
        simp [UseBusinessExpenses.addMileageEntry, UseBusinessExpenses.newEntry, ha]
  obtain ⟨h1, h2, h3⟩ := key adds hnoid expenses entries
  rw [h1, h2, h3]
  exact ⟨nodup_clock_ids (fun a => a.1) adds _ hclock hexpenses hfreshE,
    nodup_clock_ids (fun a => a.1) adds _ hclock hexpenses hfreshE,
    nodup_clock_ids (fun a => a.1) adds _ hclock hentries hfreshM⟩

/-- Witness for C15, amended: two additions a millisecond apart to the empty
collections. -/
theorem ids_distinct_of_distinct_clock_witness :
    (([(1705312800000, ({ title := some "Gas" } : Draft)),
        (1705312800001, ({ title := some "Lunch" } : Draft))].foldl
      (fun l a => (UseExpenses.addExpense 0 a.1 a.2 l).expenses) []).map
      (fun e => e.id)).Nodup :=
  (ids_distinct_of_distinct_clock 0
    [(1705312800000, { title := some "Gas" }), (1705312800001, { title := some "Lunch" })]
    [] [] (by decide) (by decide) (by decide) (by decide) (by decide) (by decide)).1

/-! ## Deleting and adding records -/

/-- Filtering out the records of a given id keeps the others, in their order. -/
theorem filter_id_spec {α : Type} (key : α → String) (id : String) (l : List α) :
    (l.filter (fun e => key e ≠ id)).Sublist l ∧
    (∀ e, e ∈ l.filter (fun e => key e ≠ id) ↔ e ∈ l ∧ key e ≠ id) ∧
    (l.filter (fun e => key e ≠ id)).length + l.countP (fun e => key e = id) = l.length ∧
    ((∀ e ∈ l, key e ≠ id) → l.filter (fun e => key e ≠ id) = l) := by
  refine ⟨List.filter_sublist l, ?_, ?_, ?_⟩
  · intro e
    simp [List.mem_filter]
  · induction l with
    | nil => rfl
    | cons a as ih =>
      by_cases h : key a = id
      · have h1 : (a :: as).filter (fun e => key e ≠ id) = as.filter (fun e => key e ≠ id) := by
          simp [List.filter_cons, h]
        have h2 : (a :: as).countP (fun e => key e = id) =
            as.countP (fun e => key e = id) + 1 := by
          simp [List.countP_cons, h]
        rw [h1, h2, List.length_cons]
        omega
      · have h1 : (a :: as).filter (fun e => key e ≠ id) =
            a :: as.filter (fun e => key e ≠ id) := by
          simp [List.filter_cons, h]
        have h2 : (a :: as).countP (fun e => key e = id) = as.countP (fun e => key e = id) := by
          simp [List.countP_cons, h]
        rw [h1, h2, List.length_cons, List.length_cons]
        omega
  · intro h
    rw [List.filter_eq_self]
    intro e he
    simpa using h e he

/-- C16.  `deleteExpense` of either hook and `deleteMileageEntry` yield the collection
without the records whose id is the given one: the result is a sublist of the collection
(the records kept are unchanged and in their order), a record is in it exactly when it was
in the collection with another id, its length is the length of the collection less the
number of records of the given id, and it is the collection itself when no record has the
given id. -/
theorem delete_removes_exactly_the_id (id : String) (expenses : List Expense)
    (entries : List UseBusinessExpenses.MileageEntry) :
    ((UseExpenses.deleteExpense id expenses).expenses.Sublist expenses ∧
      (∀ e, e ∈ (UseExpenses.deleteExpense id expenses).expenses ↔ e ∈ expenses ∧ e.id ≠ id) ∧
      (UseExpenses.deleteExpense id expenses).expenses.length +
        expenses.countP (fun e => e.id = id) = expenses.length ∧
      ((∀ e ∈ expenses, e.id ≠ id) →
        (UseExpenses.deleteExpense id expenses).expenses = expenses)) ∧
    ((UseBusinessExpenses.deleteExpense id expenses).1.Sublist expenses ∧
      (∀ e, e ∈ (UseBusinessExpenses.deleteExpense id expenses).1 ↔
        e ∈ expenses ∧ e.id ≠ id) ∧
      (UseBusinessExpenses.deleteExpense id expenses).1.length +
        expenses.countP (fun e => e.id = id) = expenses.length ∧
      ((∀ e ∈ expenses, e.id ≠ id) →
        (UseBusinessExpenses.deleteExpense id expenses).1 = expenses)) ∧
    ((UseBusinessExpenses.deleteMileageEntry id entries).1.Sublist entries ∧
      (∀ e, e ∈ (UseBusinessExpenses.deleteMileageEntry id entries).1 ↔
        e ∈ entries ∧ e.id ≠ id) ∧
      (UseBusinessExpenses.deleteMileageEntry id entries).1.length +
        entries.countP (fun e => e.id = id) = entries.length ∧
      ((∀ e ∈ entries, e.id ≠ id) →
        (UseBusinessExpenses.deleteMileageEntry id entries).1 = entries)) :=
  ⟨filter_id_spec (fun e : Expense => e.id) id expenses,
    filter_id_spec (fun e : Expense => e.id) id expenses,
    filter_id_spec (fun e : UseBusinessExpenses.MileageEntry => e.id) id entries⟩

/-- Witness for C16: deleting the id "9", which no record has, and the id "2" from a
collection of three expenses. -/
theorem delete_removes_exactly_the_id_witness :
    (UseExpenses.deleteExpense "9"
        [{ id := "1", date := JSDate.time 0 }, { id := "2", date := JSDate.time 0 },
          { id := "3", date := JSDate.time 0 }]).expenses =
      [{ id := "1", date := JSDate.time 0 }, { id := "2", date := JSDate.time 0 },
        { id := "3", date := JSDate.time 0 }] ∧
    ({ id := "3", date := JSDate.time 0 } : Expense) ∈
      (UseExpenses.deleteExpense "2"
        [{ id := "1", date := JSDate.time 0 }, { id := "2", date := JSDate.time 0 },
          { id := "3", date := JSDate.time 0 }]).expenses :=
  ⟨(delete_removes_exactly_the_id "9"
      [{ id := "1", date := JSDate.time 0 }, { id := "2", date := JSDate.time 0 },
        { id := "3", date := JSDate.time 0 }] []).1.2.2.2 (by decide),
    ((delete_removes_exactly_the_id "2"
      [{ id := "1", date := JSDate.time 0 }, { id := "2", date := JSDate.time 0 },
        { id := "3", date := JSDate.time 0 }] []).1.2.1 _).mpr ⟨by decide, by decide⟩⟩

/-- C17.  `addExpense` of either hook yields the new record followed by the collection as
it was: the length grows by one, the new record is first and the records held before
follow unchanged in their order; every property of the input other than `id` and `date` is
the property of the new record. -/
theorem addExpense_prepends (tz : Int) (now : Nat) (expense : Draft)
    (expenses : List Expense) :
    ((UseExpenses.addExpense tz now expense expenses).expenses =
        UseExpenses.newExpense tz now expense :: expenses ∧
      (UseExpenses.addExpense tz now expense expenses).expenses.length =
        expenses.length + 1 ∧
      (UseExpenses.addExpense tz now expense expenses).expenses.head? =
        some (UseExpenses.newExpense tz now expense) ∧
      (UseExpenses.addExpense tz now expense expenses).expenses.tail = expenses ∧
      (UseExpenses.addExpense tz now expense expenses).saved =
        (UseExpenses.addExpense tz now expense expenses).expenses) ∧
    ((UseBusinessExpenses.addExpense tz now expense expenses).expenses =
        UseBusinessExpenses.newExpense tz now expense :: expenses ∧
      (UseBusinessExpenses.addExpense tz now expense expenses).expenses.length =
        expenses.length + 1 ∧
      (UseBusinessExpenses.addExpense tz now expense expenses).expenses.head? =
        some (UseBusinessExpenses.newExpense tz now expense) ∧
      (UseBusinessExpenses.addExpense tz now expense expenses).expenses.tail = expenses) ∧
    (∀ e ∈ [UseExpenses.newExpense tz now expense,
        UseBusinessExpenses.newExpense tz now expense],
      e.description = expense.description ∧ e.type = expense.type ∧
      e.category = expense.category ∧ e.amount = expense.amount ∧
      e.title = expense.title ∧ e.location = expense.location ∧
      e.odometerReading = expense.odometerReading ∧
      e.startOdometer = expense.startOdometer ∧ e.endOdometer = expense.endOdometer ∧
      e.startLocation = expense.startLocation ∧ e.endLocation = expense.endLocation ∧
      e.businessPurpose = expense.businessPurpose ∧ e.attendees = expense.attendees ∧
      e.totalKm = expense.totalKm ∧ e.rate = expense.rate) := by
  refine ⟨⟨rfl, rfl, rfl, rfl, rfl⟩, ⟨rfl, rfl, rfl, rfl⟩, ?_⟩
  intro e he
  simp only [List.mem_cons, List.mem_singleton, List.not_mem_nil, or_false] at he
  rcases he with rfl | rfl <;>
    exact ⟨rfl, rfl, rfl, rfl, rfl, rfl, rfl, rfl, rfl, rfl, rfl, rfl, rfl, rfl, rfl⟩

/-! ## The period filter of the reports -/

/-- C18.  With the clock at 15 February 2024, an expense dated 31 March 2024 at 10:00, which
is on the last day of the quarter, is not kept by the `quarter` selector, and an expense
dated 31 December 2024 at 10:00 is not kept by the `year` selector: the ends of these two
periods are the start of their last day.  The expense dated 31 March at 00:00 is kept by
both, and the `current-month` selector keeps an expense dated 29 February at
23:59:59.999. -/
theorem quarter_and_year_end_at_midnight :
    dayOfTime (makeDay 2024 2 31 * msPerDay + 36000000) = makeDay 2024 2 31 ∧
    dayOfTime (makeDay 2024 11 31 * msPerDay + 36000000) = makeDay 2024 11 31 ∧
    Reports.getPeriodData ⟨2024, 1, 15, 36000000⟩ "quarter" =
      (JSDate.time (makeDay 2024 0 1 * msPerDay), JSDate.time (makeDay 2024 2 31 * msPerDay)) ∧
    Reports.getPeriodData ⟨2024, 1, 15, 36000000⟩ "year" =
      (JSDate.time (makeDay 2024 0 1 * msPerDay),
        JSDate.time (makeDay 2024 11 31 * msPerDay)) ∧
    (Reports.filteredExpenses ⟨2024, 1, 15, 36000000⟩ "quarter" "all"
        [{ id := "1", date := JSDate.time (makeDay 2024 2 31 * msPerDay + 36000000) },
          { id := "2", date := JSDate.time (makeDay 2024 2 31 * msPerDay) },
          { id := "3", date := JSDate.time (makeDay 2024 11 31 * msPerDay + 36000000) },
          { id := "4", date := JSDate.time (makeDay 2024 1 29 * msPerDay + 86399999) }]).map
        (fun e => e.id) = ["2", "4"] ∧
    (Reports.filteredExpenses ⟨2024, 1, 15, 36000000⟩ "year" "all"
        [{ id := "1", date := JSDate.time (makeDay 2024 2 31 * msPerDay + 36000000) },
          { id := "2", date := JSDate.time (makeDay 2024 2 31 * msPerDay) },
          { id := "3", date := JSDate.time (makeDay 2024 11 31 * msPerDay + 36000000) },
          { id := "4", date := JSDate.time (makeDay 2024 1 29 * msPerDay + 86399999) }]).map
        (fun e => e.id) = ["1", "2", "4"] ∧
    (Reports.filteredExpenses ⟨2024, 1, 15, 36000000⟩ "current-month" "all"
        [{ id := "1", date := JSDate.time (makeDay 2024 2 31 * msPerDay + 36000000) },
          { id := "2", date := JSDate.time (makeDay 2024 2 31 * msPerDay) },
          { id := "3", date := JSDate.time (makeDay 2024 11 31 * msPerDay + 36000000) },
          { id := "4", date := JSDate.time (makeDay 2024 1 29 * msPerDay + 86399999) }]).map
        (fun e => e.id) = ["4"] := by
  decide

/-! ## The category breakdown -/

/-- C20.  For the collection of one expense of the current month with category Fuel and
amount 0, whose total is 0, the row of `categoryData` of `Analytics` has the percentage
`NaN`, and so has the row of the breakdown of `Reports`; with amounts 5 and -5 the
percentages are the two infinities. -/
theorem zero_total_percentage_is_not_zero :
    Analytics.currentTotal ⟨2024, 1, 15, 0⟩
        [{ id := "1", date := JSDate.time (makeDay 2024 1 10 * msPerDay),
           category := some "Fuel", amount := some (JSNum.num 0) }] = JSNum.num 0 ∧
    Analytics.categoryData ⟨2024, 1, 15, 0⟩
        [{ id := "1", date := JSDate.time (makeDay 2024 1 10 * msPerDay),
           category := some "Fuel", amount := some (JSNum.num 0) }] =
      [{ category := "Fuel", amount := JSNum.num 0, percentage := JSNum.nan }] ∧
    Reports.breakdownRows
        (Reports.filteredExpenses ⟨2024, 1, 15, 0⟩ "current-month" "all"
          [{ id := "1", date := JSDate.time (makeDay 2024 1 10 * msPerDay),
             category := some "Fuel", amount := some (JSNum.num 0) }]) =
      [{ category := "Fuel", amount := JSNum.num 0, percentage := JSNum.nan }] ∧
    Analytics.categoryData ⟨2024, 1, 15, 0⟩
        [{ id := "1", date := JSDate.time (makeDay 2024 1 10 * msPerDay),
           category := some "Meals", amount := some (JSNum.num 5) },
         { id := "2", date := JSDate.time (makeDay 2024 1 11 * msPerDay),
           category := some "Fuel", amount := some (JSNum.num (-5)) }] =
      [{ category := "Meals", amount := JSNum.num 5, percentage := JSNum.inf false },
       { category := "Fuel", amount := JSNum.num (-5), percentage := JSNum.inf true }] := by
  decide!

/-- The current month is kept with the whole of its last day: a time is between
`startOfMonth` and `endOfMonth` exactly when its day is from the first day of the month to
the day before the first day of the next month. -/
theorem month_interval_iff (year month t : Int) :
    isWithinInterval (JSDate.time t) (startOfMonth year month) (endOfMonth year month) = true ↔
      makeDay year month 1 ≤ dayOfTime t ∧ dayOfTime t ≤ makeDay year (month + 1) 0 := by
  simp only [isWithinInterval, startOfMonth, endOfMonth, Bool.and_eq_true, decide_eq_true_eq,
    dayOfTime, msPerDay]
  generalize makeDay year month 1 = a
  generalize makeDay year (month + 1) 0 = b
  omega

theorem insertByAmount_perm {α : Type} (amount : α → JSNum) (x : α) (l : List α) :
    (insertByAmount amount x l).Perm (x :: l) := by
  induction l with
  | nil => exact List.Perm.refl _
  | cons y ys ih =>
    rw [insertByAmount]
    split_ifs
    · exact (List.Perm.cons y ih).trans (List.Perm.swap x y ys)
    · exact List.Perm.refl _

/-- The sort by descending amount rearranges the list. -/
theorem sortByAmountDesc_perm {α : Type} (amount : α → JSNum) (l : List α) :
    (sortByAmountDesc amount l).Perm l := by
  induction l with
  | nil => exact List.Perm.refl _
  | cons x xs ih =>
    show (insertByAmount amount x (sortByAmountDesc amount xs)).Perm (x :: xs)
    exact (insertByAmount_perm amount x _).trans (List.Perm.cons x ih)

theorem categoryTotalsOf_append_singleton (l : List Expense) (e : Expense) :
    categoryTotalsOf (l ++ [e]) =
      addToCategory (categoryKey e.category) (toNumber e.amount) (categoryTotalsOf l) := by
  simp [categoryTotalsOf, List.foldl_append]

/-- For a name that is not inherited the statement adds to the property of that name. -/
theorem addToCategory_own (c : String) (a : JSNum) (acc : List (String × JSNum))
    (hc : c ∉ inheritedNames) : addToCategory c a acc = addToProperty c a acc := by
  have hp : c ≠ "__proto__" := by
    intro h
    exact hc (h ▸ by decide)
  simp [addToCategory, hc, hp]

theorem addToProperty_keys (c : String) (a : JSNum) (acc : List (String × JSNum)) :
    (addToProperty c a acc).map (fun p => p.1) =
      if c ∈ acc.map (fun p => p.1) then acc.map (fun p => p.1)
      else acc.map (fun p => p.1) ++ [c] := by
  induction acc with
  | nil => simp [addToProperty]
  | cons p ps ih =>
    obtain ⟨k, v⟩ := p
    by_cases h : k = c
    · subst h
      simp [addToProperty]
    · have h' : ¬ c = k := fun e => h e.symm
      simp only [addToProperty, h, if_false, List.map_cons, ih, List.mem_cons, h', false_or]
      split_ifs <;> simp

theorem addToProperty_mem (c : String) (a : JSNum) (acc : List (String × JSNum))
    (hnd : (acc.map (fun p => p.1)).Nodup)
    (p : String × JSNum) (hp : p ∈ addToProperty c a acc) :
    (p ∈ acc ∧ p.1 ≠ c) ∨
      (p.1 = c ∧ ((∃ v, (c, v) ∈ acc ∧ p.2 = JSNum.add (JSNum.orZero v) a) ∨
        (c ∉ acc.map (fun p => p.1) ∧ p.2 = JSNum.add (JSNum.num 0) a))) := by
  induction acc with
  | nil =>
    simp only [addToProperty, List.mem_singleton] at hp
    subst hp
    exact Or.inr ⟨rfl, Or.inr ⟨by simp, rfl⟩⟩
  | cons x xs ih =>
    obtain ⟨k, v⟩ := x
    simp only [List.map_cons, List.nodup_cons] at hnd
    obtain ⟨hk, hnd'⟩ := hnd
    by_cases h : k = c
    · subst h
      simp only [addToProperty, if_true, List.mem_cons] at hp
      rcases hp with rfl | hp
      · exact Or.inr ⟨rfl, Or.inl ⟨v, List.mem_cons_self _ _, rfl⟩⟩
      · refine Or.inl ⟨List.mem_cons_of_mem _ hp, ?_⟩
        intro e
        exact hk (List.mem_map.mpr ⟨p, hp, e⟩)
    · simp only [addToProperty, h, if_false, List.mem_cons] at hp
      rcases hp with rfl | hp
      · exact Or.inl ⟨List.mem_cons_self _ _, h⟩
      · rcases ih hnd' hp with ⟨h1, h2⟩ | ⟨h1, ⟨v', hv', h2⟩ | ⟨h2, h3⟩⟩
        · exact Or.inl ⟨List.mem_cons_of_mem _ h1, h2⟩
        · exact Or.inr ⟨h1, Or.inl ⟨v', List.mem_cons_of_mem _ hv', h2⟩⟩
        · refine Or.inr ⟨h1, Or.inr ⟨?_, h3⟩⟩
          simp only [List.map_cons, List.mem_cons, not_or]
          exact ⟨fun e => h e.symm, h2⟩

theorem toRat_num (a : ℚ) : (JSNum.num a).toRat = a := rfl

theorem addToProperty_sum (c : String) (q : ℚ) (acc : List (String × JSNum))
    (hnum : ∀ p ∈ acc, ∃ v, p.2 = JSNum.num v) :
    (∀ p ∈ addToProperty c (JSNum.num q) acc, ∃ v, p.2 = JSNum.num v) ∧
    ((addToProperty c (JSNum.num q) acc).map (fun p => p.2.toRat)).sum =
      (acc.map (fun p => p.2.toRat)).sum + q := by
  induction acc with
  | nil => simp [addToProperty, JSNum.add, toRat_num]
  | cons x xs ih =>
    obtain ⟨k, v⟩ := x
    obtain ⟨v', hv'⟩ := hnum (k, v) (List.mem_cons_self _ _)
    simp only at hv'
    subst hv'
    have hxs : ∀ p ∈ xs, ∃ v, p.2 = JSNum.num v :=
      fun p hp => hnum p (List.mem_cons_of_mem _ hp)
    obtain ⟨ih1, ih2⟩ := ih hxs
    by_cases h : k = c
    · subst h
      simp only [addToProperty, if_true, List.mem_cons, List.map_cons, List.sum_cons,
        JSNum.orZero, JSNum.add, toRat_num]
      refine ⟨?_, by ring⟩
      rintro p (rfl | hp)
      · exact ⟨_, rfl⟩
      · exact hxs p hp
    · simp only [addToProperty, h, if_false, List.mem_cons, List.map_cons, List.sum_cons,
        toRat_num, ih2]
      refine ⟨?_, by ring⟩
      rintro p (rfl | hp)
      · exact ⟨_, rfl⟩
      · exact ih1 p hp

theorem sumAmounts_append_singleton (l : List Expense) (e : Expense) :
    sumAmounts (l ++ [e]) = JSNum.add (sumAmounts l) (toNumber e.amount) := by
  simp [sumAmounts, List.foldl_append]

/-- What the object of category totals holds for expenses whose amounts are finite numbers
and whose categories are not inherited names: one entry for each category that occurs,
with the sum of the amounts of the expenses of that category; all the entries together sum
to the sum of all the amounts. -/
theorem categoryTotalsOf_spec (l : List Expense)
    (h : ∀ e ∈ l, ∃ q, e.amount = some (JSNum.num q))
    (hname : ∀ e ∈ l, categoryKey e.category ∉ inheritedNames) :
    ((categoryTotalsOf l).map (fun p => p.1)).Nodup ∧
    (∀ k, k ∈ (categoryTotalsOf l).map (fun p => p.1) ↔
      ∃ e ∈ l, categoryKey e.category = k) ∧
    (∀ p ∈ categoryTotalsOf l,
      p.2 = sumAmounts (l.filter (fun e => categoryKey e.category = p.1))) ∧
    (∀ p ∈ categoryTotalsOf l, ∃ v, p.2 = JSNum.num v) ∧
    ((categoryTotalsOf l).map (fun p => p.2.toRat)).sum =
      (l.map (fun e => (toNumber e.amount).toRat)).sum := by
  induction l using List.reverseRecOn with
  | nil => simp [categoryTotalsOf]
  | append_singleton l e ih =>
    have hl : ∀ e' ∈ l, ∃ q, e'.amount = some (JSNum.num q) :=
      fun e' he' => h e' (List.mem_append_left _ he')
    have hnl : ∀ e' ∈ l, categoryKey e'.category ∉ inheritedNames :=
      fun e' he' => hname e' (List.mem_append_left _ he')
    have hne := hname e (List.mem_append_right _ (List.mem_singleton_self _))
    obtain ⟨q, hq⟩ := h e (List.mem_append_right _ (List.mem_singleton_self _))
    have hq' : toNumber e.amount = JSNum.num q := by simp [toNumber, hq]
    obtain ⟨ih1, ih2, ih3, ih4, ih5⟩ := ih hl hnl
    obtain ⟨hs1, hs2⟩ := addToProperty_sum (categoryKey e.category) q (categoryTotalsOf l) ih4
    have hkeys := addToProperty_keys (categoryKey e.category) (JSNum.num q) (categoryTotalsOf l)
    rw [categoryTotalsOf_append_singleton, addToCategory_own _ _ _ hne, hq']
    refine ⟨?_, ?_, ?_, hs1, ?_⟩
    · rw [hkeys]
      split_ifs with hc
      · exact ih1
      · rw [List.nodup_append]
        refine ⟨ih1, List.nodup_singleton _, ?_⟩
        intro a ha ha'
        rw [List.mem_singleton] at ha'
        exact hc (ha' ▸ ha)
    · intro k
      rw [hkeys]
      split_ifs with hc
      · rw [ih2]
        constructor
        · rintro ⟨e', he', hk⟩
          exact ⟨e', List.mem_append_left _ he', hk⟩
        · rintro ⟨e', he', hk⟩
          rcases List.mem_append.mp he' with he' | he'
          · exact ⟨e', he', hk⟩
          · rw [List.mem_singleton] at he'
            subst he'
            rw [← hk]
            exact (ih2 _).mp hc
      · rw [List.mem_append, ih2, List.mem_singleton]
        constructor
        · rintro (⟨e', he', hk⟩ | hk)
          · exact ⟨e', List.mem_append_left _ he', hk⟩
          · exact ⟨e, List.mem_append_right _ (List.mem_singleton_self _), hk.symm⟩
        · rintro ⟨e', he', hk⟩
          rcases List.mem_append.mp he' with he' | he'
          · exact Or.inl ⟨e', he', hk⟩
          · rw [List.mem_singleton] at he'
            subst he'
            exact Or.inr hk.symm
    · intro p hp
      rcases addToProperty_mem _ _ _ ih1 p hp with ⟨h1, h2⟩ | ⟨h1, ⟨v, hv, h2⟩ | ⟨h2, h3⟩⟩
      · have h2' : ¬ categoryKey e.category = p.1 := fun hh => h2 hh.symm
        have : (l ++ [e]).filter (fun e => categoryKey e.category = p.1) =
            l.filter (fun e => categoryKey e.category = p.1) := by
          simp [List.filter_append, List.filter_cons, h2']
        rw [this]
        exact ih3 p h1
      · have hfil : (l ++ [e]).filter (fun e => categoryKey e.category = p.1) =
            l.filter (fun e => categoryKey e.category = p.1) ++ [e] := by
          simp [List.filter_append, List.filter_cons, h1]
        rw [hfil, sumAmounts_append_singleton, hq', h2]
        have hv3 := ih3 _ hv
        simp only at hv3
        obtain ⟨w, hw⟩ := ih4 _ hv
        simp only at hw
        rw [← h1] at hv3
        rw [← hv3, hw]
        rfl
      · have hnone : l.filter (fun e => categoryKey e.category = p.1) = [] := by
          rw [List.filter_eq_nil_iff]
          intro e' he'
          simp only [decide_eq_true_eq]
          intro hk
          exact h2 ((ih2 _).mpr ⟨e', he', hk.trans h1⟩)
        have hfil : (l ++ [e]).filter (fun e => categoryKey e.category = p.1) = [e] := by
          rw [List.filter_append, hnone]
          simp [List.filter_cons, h1]
        rw [hfil, h3]
        simp [sumAmounts, hq']
    · rw [hs2, ih5]
      simp [hq', toRat_num]

theorem amounts_num_of_isFinite (l : List Expense)
    (hfin : ∀ e ∈ l, (toNumber e.amount).isFinite = true) :
    ∀ e ∈ l, ∃ q, e.amount = some (JSNum.num q) := by
  intro e he
  have h := hfin e he
  rcases hxa : e.amount with _ | (_ | q | s)
  · rw [hxa] at h; cases h
  · rw [hxa] at h; cases h
  · exact ⟨q, rfl⟩
  · rw [hxa] at h; cases h

/-! ## The order of `Object.entries` -/

theorem insertByIndex_perm (x : String × JSNum) (l : List (String × JSNum)) :
    (insertByIndex x l).Perm (x :: l) := by
  induction l with
  | nil => exact List.Perm.refl _
  | cons y ys ih =>
    rw [insertByIndex]
    split_ifs
    · exact List.Perm.refl _
    · exact (List.Perm.cons y ih).trans (List.Perm.swap x y ys)

theorem foldr_insertByIndex_perm (l : List (String × JSNum)) :
    (l.foldr insertByIndex []).Perm l := by
  induction l with
  | nil => exact List.Perm.refl _
  | cons x xs ih =>
    exact (insertByIndex_perm x _).trans (List.Perm.cons x ih)

theorem foldr_insertByIndex_sorted (l : List (String × JSNum)) :
    (l.foldr insertByIndex []).Pairwise
      (fun p q => digitsToNat p.1.toList ≤ digitsToNat q.1.toList) := by
  have hins : ∀ (x : String × JSNum) (ys : List (String × JSNum)),
      ys.Pairwise (fun p q => digitsToNat p.1.toList ≤ digitsToNat q.1.toList) →
      (insertByIndex x ys).Pairwise
        (fun p q => digitsToNat p.1.toList ≤ digitsToNat q.1.toList) := by
    intro x ys
    induction ys with
    | nil => intro _; exact List.pairwise_singleton _ _
    | cons y ys ih =>
      intro hp
      rw [insertByIndex]
      split_ifs with hle
      · refine List.Pairwise.cons ?_ hp
        intro z hz
        rcases List.mem_cons.mp hz with rfl | hz
        · exact hle
        · exact le_trans hle ((List.pairwise_cons.mp hp).1 z hz)
      · refine List.Pairwise.cons ?_ (ih (List.pairwise_cons.mp hp).2)
        intro z hz
        rcases List.mem_cons.mp ((insertByIndex_perm x ys).mem_iff.mp hz) with rfl | hz
        · exact le_of_lt (not_le.mp hle)
        · exact (List.pairwise_cons.mp hp).1 z hz
  induction l with
  | nil => exact List.Pairwise.nil
  | cons x xs ih => exact hins x _ ih

/-- The entries that `Object.entries` lists are the properties of the object. -/
theorem objectEntries_perm (object : List (String × JSNum)) :
    (objectEntries object).Perm object :=
  ((foldr_insertByIndex_perm _).append (List.Perm.refl _)).trans
    (List.filter_append_perm _ object)

/-- The order of `Object.entries`: first the properties whose name is an array index, in
ascending order of the index, then the other properties in the order of their creation. -/
theorem objectEntries_order (object : List (String × JSNum)) :
    ∃ indexed : List (String × JSNum),
      objectEntries object = indexed ++ object.filter (fun e => !isArrayIndex e.1) ∧
      indexed.Perm (object.filter (fun e => isArrayIndex e.1)) ∧
      indexed.Pairwise (fun p q => digitsToNat p.1.toList ≤ digitsToNat q.1.toList) :=
  ⟨_, rfl, foldr_insertByIndex_perm _, foldr_insertByIndex_sorted _⟩

/-- An object none of whose property names is an array index is listed in the order in
which its properties were created. -/
theorem objectEntries_of_names (object : List (String × JSNum))
    (h : ∀ e ∈ object, isArrayIndex e.1 = false) : objectEntries object = object := by
  have h1 : object.filter (fun e => isArrayIndex e.1) = [] := by
    rw [List.filter_eq_nil_iff]
    intro e he
    simp [h e he]
  have h2 : object.filter (fun e => !isArrayIndex e.1) = object := by
    rw [List.filter_eq_self]
    intro e he
    simp [h e he]
  rw [objectEntries, h1, h2]
  rfl

/-! ## The category breakdown of Analytics -/

/-- C19, counterexample.  With the clock in February 2024: for the one expense of category
`__proto__` and amount 10 the total is 10, which is greater than 0, and `categoryData` is
empty, so that the category has no row and the percentages sum to 0; for the one expense
of category Fuel whose amount is `Infinity` the total is `Infinity`, which is greater than
0, and the percentage of the one row is `NaN`. -/
theorem category_percentages_need_not_sum_to_100 :
    JSNum.gt (Analytics.currentTotal ⟨2024, 1, 15, 0⟩
        [{ id := "1", date := newDate 2024 1 3, category := some "__proto__",
           amount := some (JSNum.num 10) }]) (JSNum.num 0) = true ∧
    Analytics.categoryData ⟨2024, 1, 15, 0⟩
        [{ id := "1", date := newDate 2024 1 3, category := some "__proto__",
           amount := some (JSNum.num 10) }] = [] ∧
    ((Analytics.categoryData ⟨2024, 1, 15, 0⟩
        [{ id := "1", date := newDate 2024 1 3, category := some "__proto__",
           amount := some (JSNum.num 10) }]).map (fun r => r.percentage)).foldl JSNum.add
      (JSNum.num 0) = JSNum.num 0 ∧
    JSNum.gt (Analytics.currentTotal ⟨2024, 1, 15, 0⟩
        [{ id := "1", date := newDate 2024 1 3, category := some "Fuel",
           amount := some (JSNum.inf false) }]) (JSNum.num 0) = true ∧
    Analytics.categoryData ⟨2024, 1, 15, 0⟩
        [{ id := "1", date := newDate 2024 1 3, category := some "Fuel",
           amount := some (JSNum.inf false) }] =
      [{ category := "Fuel", amount := JSNum.inf false, percentage := JSNum.nan }] ∧
    ((Analytics.categoryData ⟨2024, 1, 15, 0⟩
        [{ id := "1", date := newDate 2024 1 3, category := some "Fuel",
           amount := some (JSNum.inf false) }]).map (fun r => r.percentage)).foldl JSNum.add
      (JSNum.num 0) = JSNum.nan := by
  decide!

/-- C19, amended.  When the amounts of the current-month expenses are finite numbers and
no category is a name inherited from `Object.prototype`, `categoryData` has exactly one
row for each category that occurs among the current-month expenses, the amount of a row is
the sum, in the order of the collection, of the amounts of the expenses of its category,
and its percentage is `(amount / currentTotal) * 100`; for the empty collection
`categoryData` is empty. -/
theorem categoryData_rows (now : Clock) (expenses : List Expense)
    (hfin : ∀ e ∈ Analytics.currentMonthExpenses now expenses,
      (toNumber e.amount).isFinite = true)
    (hname : ∀ e ∈ Analytics.currentMonthExpenses now expenses,
      categoryKey e.category ∉ inheritedNames) :
    ((Analytics.categoryData now expenses).map (fun r => r.category)).Nodup ∧
    (∀ c, c ∈ (Analytics.categoryData now expenses).map (fun r => r.category) ↔
      ∃ e ∈ Analytics.currentMonthExpenses now expenses, categoryKey e.category = c) ∧
    (∀ r ∈ Analytics.categoryData now expenses,
      r.amount = sumAmounts ((Analytics.currentMonthExpenses now expenses).filter
        (fun e => categoryKey e.category = r.category)) ∧
      r.percentage = JSNum.mul (JSNum.div r.amount (Analytics.currentTotal now expenses))
        (JSNum.num 100)) ∧
    Analytics.categoryData now [] = [] := by
  have hnum := amounts_num_of_isFinite _ hfin
  obtain ⟨n1, n2, n3, -, -⟩ :=
    categoryTotalsOf_spec (Analytics.currentMonthExpenses now expenses) hnum hname
  have hperm : (Analytics.categoryData now expenses).Perm
      ((categoryTotalsOf (Analytics.currentMonthExpenses now expenses)).map (fun e =>
        ({ category := e.1
           amount := e.2
           percentage := JSNum.mul (JSNum.div e.2 (Analytics.currentTotal now expenses))
             (JSNum.num 100) } : CategoryRow))) :=
    (sortByAmountDesc_perm _ _).trans ((objectEntries_perm _).map _)
  have hcat : (List.map (fun r => r.category) (Analytics.categoryData now expenses)).Perm
      ((categoryTotalsOf (Analytics.currentMonthExpenses now expenses)).map
        (fun p => p.1)) := by
    have h := hperm.map (fun r : CategoryRow => r.category)
    rw [List.map_map] at h
    exact h
  refine ⟨hcat.nodup_iff.mpr n1, ?_, ?_, rfl⟩
  · intro c
    rw [← n2 c]
    exact hcat.mem_iff
  · intro r hr
    have hr' := hperm.mem_iff.mp hr
    rw [List.mem_map] at hr'
    obtain ⟨p, hp, rfl⟩ := hr'
    exact ⟨n3 p hp, rfl⟩

/-- Witness for C19, amended: Fuel 10, Meals 30 and Fuel 20 in February 2024, and an
expense of January. -/
theorem categoryData_rows_witness :
    (Analytics.categoryData ⟨2024, 1, 15, 0⟩
        [{ id := "1", date := newDate 2024 1 3, category := some "Fuel",
           amount := some (JSNum.num 10) },
         { id := "2", date := newDate 2024 1 9, category := some "Meals",
           amount := some (JSNum.num 30) },
         { id := "3", date := newDate 2024 1 20, category := some "Fuel",
           amount := some (JSNum.num 20) },
         { id := "4", date := newDate 2024 0 20, category := some "Fuel",
           amount := some (JSNum.num 500) }]).map
      (fun r => (r.category, r.amount, r.percentage)) =
      [("Fuel", JSNum.num 30, JSNum.num 50), ("Meals", JSNum.num 30, JSNum.num 50)] ∧
    ((Analytics.categoryData ⟨2024, 1, 15, 0⟩
        [{ id := "1", date := newDate 2024 1 3, category := some "Fuel",
           amount := some (JSNum.num 10) },
         { id := "2", date := newDate 2024 1 9, category := some "Meals",
           amount := some (JSNum.num 30) },
         { id := "3", date := newDate 2024 1 20, category := some "Fuel",
           amount := some (JSNum.num 20) },
         { id := "4", date := newDate 2024 0 20, category := some "Fuel",
           amount := some (JSNum.num 500) }]).map (fun r => r.category)).Nodup :=
  ⟨by decide!,
    (categoryData_rows ⟨2024, 1, 15, 0⟩ _ (by decide) (by decide)).1⟩

/-! ## The order of the category breakdown -/

theorem comesBefore_self (a : JSNum) : comesBefore a a = false := by
  cases a with
  | nan => rfl
  | num q => simp [comesBefore, JSNum.sub, JSNum.gt]
  | inf s => simp [comesBefore, JSNum.sub, JSNum.gt]

theorem comesBefore_num (a b : ℚ) :
    comesBefore (JSNum.num b) (JSNum.num a) = decide (a < b) := by
  simp [comesBefore, JSNum.sub, JSNum.gt]

/-- The sort keeps the elements of one amount in the order in which they stood. -/
theorem sortByAmountDesc_filter {α : Type} (amount : α → JSNum) (v : JSNum) (l : List α) :
    (sortByAmountDesc amount l).filter (fun a => amount a = v) =
      l.filter (fun a => amount a = v) := by
  have hins : ∀ (x : α) (ys : List α),
      (insertByAmount amount x ys).filter (fun a => amount a = v) =
        (x :: ys).filter (fun a => amount a = v) := by
    intro x ys
    induction ys with
    | nil => rfl
    | cons y ys ih =>
      rw [insertByAmount]
      split_ifs with hc
      · by_cases hx : amount x = v
        · have hy : amount y ≠ v := by
            intro hy
            rw [hx, hy, comesBefore_self] at hc
            cases hc
          rw [List.filter_cons_of_neg (by simpa using hy), ih]
          simp [List.filter_cons, hx, hy]
        · rw [List.filter_cons, ih]
          simp [List.filter_cons, hx]
      · rfl
  induction l with
  | nil => rfl
  | cons x xs ih =>
    show (insertByAmount amount x (sortByAmountDesc amount xs)).filter _ = _
    rw [hins, List.filter_cons, ih, List.filter_cons]

/-- The sort of finite amounts puts them in descending order. -/
theorem sortByAmountDesc_sorted {α : Type} (amount : α → JSNum) (l : List α)
    (hnum : ∀ a ∈ l, ∃ q, amount a = JSNum.num q) :
    (sortByAmountDesc amount l).Pairwise
      (fun a b => JSNum.le (amount b) (amount a) = true) := by
  have hins : ∀ (x : α) (ys : List α), (∃ q, amount x = JSNum.num q) →
      (∀ a ∈ ys, ∃ q, amount a = JSNum.num q) →
      ys.Pairwise (fun a b => JSNum.le (amount b) (amount a) = true) →
      (insertByAmount amount x ys).Pairwise
        (fun a b => JSNum.le (amount b) (amount a) = true) := by
    intro x ys hx
    obtain ⟨qx, hqx⟩ := hx
    induction ys with
    | nil => intro _ _; simp [insertByAmount]
    | cons y ys ih =>
      intro hys hp
      obtain ⟨qy, hqy⟩ := hys y (List.mem_cons_self _ _)
      rw [List.pairwise_cons] at hp
      rw [insertByAmount, hqy, hqx, comesBefore_num]
      by_cases hlt : qx < qy
      · rw [if_pos (by simpa using hlt), List.pairwise_cons]
        refine ⟨?_, ih (fun a ha => hys a (List.mem_cons_of_mem _ ha)) hp.2⟩
        intro z hz
        rcases List.mem_cons.mp ((insertByAmount_perm amount x ys).mem_iff.mp hz) with rfl | hz
        · rw [hqx, hqy]
          simpa [JSNum.le] using le_of_lt hlt
        · exact hp.1 z hz
      · rw [if_neg (by simpa using hlt), List.pairwise_cons]
        refine ⟨?_, List.pairwise_cons.mpr hp⟩
        intro z hz
        rcases List.mem_cons.mp hz with rfl | hz
        · rw [hqx, hqy]
          simpa [JSNum.le] using not_lt.mp hlt
        · obtain ⟨qz, hqz⟩ := hys z (List.mem_cons_of_mem _ hz)
          have h1 := hp.1 z hz
          rw [hqz, hqy] at h1
          rw [hqz, hqx]
          simp only [JSNum.le, decide_eq_true_eq] at h1 ⊢
          exact le_trans h1 (not_lt.mp hlt)
  induction l with
  | nil => exact List.Pairwise.nil
  | cons x xs ih =>
    show (insertByAmount amount x (sortByAmountDesc amount xs)).Pairwise _
    have hxs : ∀ a ∈ xs, ∃ q, amount a = JSNum.num q :=
      fun a ha => hnum a (List.mem_cons_of_mem _ ha)
    exact hins x _ (hnum x (List.mem_cons_self _ _))
      (fun a ha => hxs a ((sortByAmountDesc_perm amount xs).mem_iff.mp ha)) (ih hxs)

theorem firstMet_append_singleton (l : List String) (k : String) :
    firstMet (l ++ [k]) = if k ∈ firstMet l then firstMet l else firstMet l ++ [k] := by
  simp [firstMet, List.foldl_append]

/-- The properties of the object of category totals are created in the order in which the
categories are first met. -/
theorem categoryTotalsOf_keys (l : List Expense)
    (hname : ∀ e ∈ l, categoryKey e.category ∉ inheritedNames) :
    (categoryTotalsOf l).map (fun p => p.1) =
      firstMet (l.map (fun e => categoryKey e.category)) := by
  induction l using List.reverseRecOn with
  | nil => rfl
  | append_singleton l e ih =>
    rw [categoryTotalsOf_append_singleton,
      addToCategory_own _ _ _ (hname e (List.mem_append_right _ (List.mem_singleton_self _))),
      addToProperty_keys, List.map_append, List.map_cons, List.map_nil,
      firstMet_append_singleton, ih (fun e' he' => hname e' (List.mem_append_left _ he'))]

/-- C21, counterexample.  With the clock in February 2024 and three expenses of the month
of amount 10 each, of the categories Fuel, 2024 and 7 in this order, the rows of
`categoryData` are those of 7, 2024 and Fuel and the top category shown is 7, where the
categories are first met in the order Fuel, 2024, 7: `Object.entries` lists the properties
whose name is an array index first, in ascending order. -/
theorem equal_amounts_not_in_first_met_order :
    (Analytics.categoryData ⟨2024, 1, 15, 0⟩
        [{ id := "1", date := newDate 2024 1 3, category := some "Fuel",
           amount := some (JSNum.num 10) },
         { id := "2", date := newDate 2024 1 9, category := some "2024",
           amount := some (JSNum.num 10) },
         { id := "3", date := newDate 2024 1 20, category := some "7",
           amount := some (JSNum.num 10) }]).map (fun r => (r.category, r.amount)) =
      [("7", JSNum.num 10), ("2024", JSNum.num 10), ("Fuel", JSNum.num 10)] ∧
    Analytics.topCategory ⟨2024, 1, 15, 0⟩
        [{ id := "1", date := newDate 2024 1 3, category := some "Fuel",
           amount := some (JSNum.num 10) },
         { id := "2", date := newDate 2024 1 9, category := some "2024",
           amount := some (JSNum.num 10) },
         { id := "3", date := newDate 2024 1 20, category := some "7",
           amount := some (JSNum.num 10) }] = "7" ∧
    firstMet ((Analytics.currentMonthExpenses ⟨2024, 1, 15, 0⟩
        [{ id := "1", date := newDate 2024 1 3, category := some "Fuel",
           amount := some (JSNum.num 10) },
         { id := "2", date := newDate 2024 1 9, category := some "2024",
           amount := some (JSNum.num 10) },
         { id := "3", date := newDate 2024 1 20, category := some "7",
           amount := some (JSNum.num 10) }]).map (fun e => categoryKey e.category)) =
      ["Fuel", "2024", "7"] := by
  decide!

/-- C21, amended.  When the amounts of the current-month expenses are finite numbers and
no category is a name inherited from `Object.prototype`: the rows of `categoryData` are in
descending order of amount; the rows of one amount stand in the order in which
`Object.entries` lists the properties of `categoryTotals`, which were created in the order
in which the categories are first met among the current-month expenses: first the
categories that are array indices, in ascending order of the index, then the other
categories in first-met order, so that in first-met order throughout when no category is
an array index; the top category shown is the category of the first row, whose amount no
row exceeds, and it is "None" when there is no row. -/
theorem categoryData_sorted_stable (now : Clock) (expenses : List Expense)
    (hfin : ∀ e ∈ Analytics.currentMonthExpenses now expenses,
      (toNumber e.amount).isFinite = true)
    (hname : ∀ e ∈ Analytics.currentMonthExpenses now expenses,
      categoryKey e.category ∉ inheritedNames) :
    (Analytics.categoryData now expenses).Pairwise
      (fun r s => JSNum.le s.amount r.amount = true) ∧
    (∀ v, ((Analytics.categoryData now expenses).filter (fun r => r.amount = v)).map
        (fun r => r.category) =
      ((objectEntries (Analytics.categoryTotals now expenses)).filter
        (fun p => p.2 = v)).map (fun p => p.1)) ∧
    (Analytics.categoryTotals now expenses).map (fun p => p.1) =
      firstMet ((Analytics.currentMonthExpenses now expenses).map
        (fun e => categoryKey e.category)) ∧
    (∃ indexed : List (String × JSNum),
      objectEntries (Analytics.categoryTotals now expenses) =
        indexed ++ (Analytics.categoryTotals now expenses).filter
          (fun e => !isArrayIndex e.1) ∧
      indexed.Perm ((Analytics.categoryTotals now expenses).filter
        (fun e => isArrayIndex e.1)) ∧
      indexed.Pairwise (fun p q => digitsToNat p.1.toList ≤ digitsToNat q.1.toList)) ∧
    ((∀ e ∈ Analytics.currentMonthExpenses now expenses,
        isArrayIndex (categoryKey e.category) = false) →
      objectEntries (Analytics.categoryTotals now expenses) =
        Analytics.categoryTotals now expenses) ∧
    (∀ r0 rest, Analytics.categoryData now expenses = r0 :: rest →
      Analytics.topCategory now expenses = r0.category ∧
      ∀ r ∈ Analytics.categoryData now expenses, JSNum.le r.amount r0.amount = true) ∧
    (Analytics.categoryData now expenses = [] → Analytics.topCategory now expenses = "None") := by
  have hnum := amounts_num_of_isFinite _ hfin
  obtain ⟨-, n2, -, n4, -⟩ :=
    categoryTotalsOf_spec (Analytics.currentMonthExpenses now expenses) hnum hname
  have hrows : ∀ r ∈ Analytics.categoryData now expenses, ∃ q, r.amount = JSNum.num q := by
    intro r hr
    have hmem := (sortByAmountDesc_perm (fun row : CategoryRow => row.amount) _).mem_iff.mp hr
    rw [List.mem_map] at hmem
    obtain ⟨p, hp, rfl⟩ := hmem
    exact n4 p ((objectEntries_perm _).mem_iff.mp hp)
  have hsorted : (Analytics.categoryData now expenses).Pairwise
      (fun r s => JSNum.le s.amount r.amount = true) := by
    apply sortByAmountDesc_sorted (fun row : CategoryRow => row.amount)
    intro a ha
    rw [List.mem_map] at ha
    obtain ⟨p, hp, rfl⟩ := ha
    exact n4 p ((objectEntries_perm _).mem_iff.mp hp)
  refine ⟨hsorted, ?_, categoryTotalsOf_keys _ hname, objectEntries_order _, ?_, ?_, ?_⟩
  · intro v
    rw [Analytics.categoryData, sortByAmountDesc_filter, List.filter_map, List.map_map]
    rfl
  · intro hidx
    apply objectEntries_of_names
    intro p hp
    obtain ⟨e, he, hk⟩ := (n2 p.1).mp (List.mem_map.mpr ⟨p, hp, rfl⟩)
    rw [← hk]
    exact hidx e he
  · intro r0 rest h
    refine ⟨by simp only [Analytics.topCategory, h], ?_⟩
    intro r hr
    rw [h] at hsorted hr
    rcases List.mem_cons.mp hr with rfl | hr
    · obtain ⟨q, hq⟩ := hrows r (by rw [h]; exact List.mem_cons_self _ _)
      rw [hq]
      simp [JSNum.le]
    · exact (List.pairwise_cons.mp hsorted).1 r hr
  · intro h
    simp only [Analytics.topCategory, h]

/-- Witness for C21, amended: Fuel 10, Meals 30 and Fuel 20 in February 2024, with Hotel 5;
Fuel and Meals tie at 30 and Fuel, met first, stands first. -/
theorem categoryData_sorted_stable_witness :
    (Analytics.categoryData ⟨2024, 1, 15, 0⟩
        [{ id := "1", date := newDate 2024 1 3, category := some "Hotel",
           amount := some (JSNum.num 5) },
         { id := "2", date := newDate 2024 1 3, category := some "Fuel",
           amount := some (JSNum.num 10) },
         { id := "3", date := newDate 2024 1 9, category := some "Meals",
           amount := some (JSNum.num 30) },
         { id := "4", date := newDate 2024 1 20, category := some "Fuel",
           amount := some (JSNum.num 20) }]).map (fun r => (r.category, r.amount)) =
      [("Fuel", JSNum.num 30), ("Meals", JSNum.num 30), ("Hotel", JSNum.num 5)] ∧
    (Analytics.categoryData ⟨2024, 1, 15, 0⟩
        [{ id := "1", date := newDate 2024 1 3, category := some "Hotel",
           amount := some (JSNum.num 5) },
         { id := "2", date := newDate 2024 1 3, category := some "Fuel",
           amount := some (JSNum.num 10) },
         { id := "3", date := newDate 2024 1 9, category := some "Meals",
           amount := some (JSNum.num 30) },
         { id := "4", date := newDate 2024 1 20, category := some "Fuel",
           amount := some (JSNum.num 20) }]).Pairwise
      (fun r s => JSNum.le s.amount r.amount = true) :=
  ⟨by decide!,
    (categoryData_sorted_stable ⟨2024, 1, 15, 0⟩ _ (by decide) (by decide)).1⟩

/-! ## The weekly breakdown -/

/-- C22.  With the clock in February 2024 and four expenses of the month, dated the 3rd at
00:00, the 7th at 10:00, the 8th at 00:00 and the 29th at 00:00, the four weekly rows count
1, 1, 0 and 0 expenses and their amounts are 1, 4, 0 and 0: the expense of the 7th at 10:00
and the expense of the 29th are in no row, because the end of a week is the midnight at
which its last day starts and the fourth week ends with the 28th.  The counts sum to 2 and
the amounts to 5, where the month has 4 expenses and the total 15. -/
theorem weekly_rows_miss_expenses :
    (Analytics.currentMonthExpenses ⟨2024, 1, 15, 0⟩
        [{ id := "1", date := JSDate.time (makeDay 2024 1 3 * msPerDay),
           amount := some (JSNum.num 1) },
         { id := "2", date := JSDate.time (makeDay 2024 1 7 * msPerDay + 36000000),
           amount := some (JSNum.num 2) },
         { id := "3", date := JSDate.time (makeDay 2024 1 8 * msPerDay),
           amount := some (JSNum.num 4) },
         { id := "4", date := JSDate.time (makeDay 2024 1 29 * msPerDay),
           amount := some (JSNum.num 8) }]).map (fun e => e.id) = ["1", "2", "3", "4"] ∧
    Analytics.currentTotal ⟨2024, 1, 15, 0⟩
        [{ id := "1", date := JSDate.time (makeDay 2024 1 3 * msPerDay),
           amount := some (JSNum.num 1) },
         { id := "2", date := JSDate.time (makeDay 2024 1 7 * msPerDay + 36000000),
           amount := some (JSNum.num 2) },
         { id := "3", date := JSDate.time (makeDay 2024 1 8 * msPerDay),
           amount := some (JSNum.num 4) },
         { id := "4", date := JSDate.time (makeDay 2024 1 29 * msPerDay),
           amount := some (JSNum.num 8) }] = JSNum.num 15 ∧
    Analytics.weeklyData ⟨2024, 1, 15, 0⟩
        [{ id := "1", date := JSDate.time (makeDay 2024 1 3 * msPerDay),
           amount := some (JSNum.num 1) },
         { id := "2", date := JSDate.time (makeDay 2024 1 7 * msPerDay + 36000000),
           amount := some (JSNum.num 2) },
         { id := "3", date := JSDate.time (makeDay 2024 1 8 * msPerDay),
           amount := some (JSNum.num 4) },
         { id := "4", date := JSDate.time (makeDay 2024 1 29 * msPerDay),
           amount := some (JSNum.num 8) }] =
      [{ week := "Week 1", amount := JSNum.num 1, count := 1 },
       { week := "Week 2", amount := JSNum.num 4, count := 1 },
       { week := "Week 3", amount := JSNum.num 0, count := 0 },
       { week := "Week 4", amount := JSNum.num 0, count := 0 }] := by
  decide!

/-! ## The month-over-month change -/

/-- C23.  Whatever the current total is, the month-over-month change is 0 when the total of
the month before is 0: the division is not carried out. -/
theorem monthlyChange_zero_of_lastTotal_zero (now : Clock) (expenses : List Expense)
    (h : Analytics.lastTotal now expenses = JSNum.num 0) :
    Analytics.monthlyChange now expenses = JSNum.num 0 ∧
    ∀ currentTotal, Analytics.monthlyChangeOf currentTotal (JSNum.num 0) = JSNum.num 0 := by
  have hall : ∀ currentTotal, Analytics.monthlyChangeOf currentTotal (JSNum.num 0) =
      JSNum.num 0 := by
    intro c
    simp [Analytics.monthlyChangeOf, JSNum.gt]
  exact ⟨by rw [Analytics.monthlyChange, h]; exact hall _, hall⟩

/-- Witness for C23: an expense of 40 in February 2024 and none in January. -/
theorem monthlyChange_zero_of_lastTotal_zero_witness :
    Analytics.currentTotal ⟨2024, 1, 15, 0⟩
        [{ id := "1", date := newDate 2024 1 3, amount := some (JSNum.num 40) }] =
      JSNum.num 40 ∧
    Analytics.monthlyChange ⟨2024, 1, 15, 0⟩
        [{ id := "1", date := newDate 2024 1 3, amount := some (JSNum.num 40) }] =
      JSNum.num 0 :=
  ⟨by decide!,
    (monthlyChange_zero_of_lastTotal_zero ⟨2024, 1, 15, 0⟩
      [{ id := "1", date := newDate 2024 1 3, amount := some (JSNum.num 40) }]
      (by decide!)).1⟩

/-- C24, counterexample.  With an expense of 10 in February 2024 and an expense of -5 in
January 2024, the total of the month before is -5, which is not 0, and the change is 0,
where `(current - previous) / previous * 100` is -300. -/
theorem monthlyChange_negative_previous :
    Analytics.currentTotal ⟨2024, 1, 15, 0⟩
        [{ id := "1", date := newDate 2024 1 3, amount := some (JSNum.num 10) },
         { id := "2", date := newDate 2024 0 20, amount := some (JSNum.num (-5)) }] =
      JSNum.num 10 ∧
    Analytics.lastTotal ⟨2024, 1, 15, 0⟩
        [{ id := "1", date := newDate 2024 1 3, amount := some (JSNum.num 10) },
         { id := "2", date := newDate 2024 0 20, amount := some (JSNum.num (-5)) }] =
      JSNum.num (-5) ∧
    Analytics.monthlyChange ⟨2024, 1, 15, 0⟩
        [{ id := "1", date := newDate 2024 1 3, amount := some (JSNum.num 10) },
         { id := "2", date := newDate 2024 0 20, amount := some (JSNum.num (-5)) }] =
      JSNum.num 0 ∧
    JSNum.mul (JSNum.div (JSNum.sub (JSNum.num 10) (JSNum.num (-5))) (JSNum.num (-5)))
      (JSNum.num 100) = JSNum.num (-300) := by
  decide!

/-- C24, amended.  For finite totals `c` of the current month and `p` of the month before,
the month-over-month change is `(c - p) / p * 100` when `p` is greater than 0 and is 0
when `p` is 0 or negative; whatever the totals are, it is the value of
`((currentTotal - lastTotal) / lastTotal) * 100` when `lastTotal > 0` holds. -/
theorem monthlyChange_formula (now : Clock) (expenses : List Expense) (c p : ℚ)
    (hc : Analytics.currentTotal now expenses = JSNum.num c)
    (hp : Analytics.lastTotal now expenses = JSNum.num p) :
    Analytics.monthlyChange now expenses =
      (if 0 < p then JSNum.num ((c - p) / p * 100) else JSNum.num 0) ∧
    ∀ currentTotal lastTotal, JSNum.gt lastTotal (JSNum.num 0) = true →
      Analytics.monthlyChangeOf currentTotal lastTotal =
        JSNum.mul (JSNum.div (JSNum.sub currentTotal lastTotal) lastTotal) (JSNum.num 100) := by
  constructor
  · rw [Analytics.monthlyChange, hc, hp, Analytics.monthlyChangeOf]
    by_cases h : 0 < p
    · have hne : p ≠ 0 := ne_of_gt h
      simp [JSNum.gt, JSNum.sub, JSNum.div, JSNum.mul, h, hne]
    · simp [JSNum.gt, h]
  · intro ct lt h
    simp [Analytics.monthlyChangeOf, h]

/-- Witness for C24, amended: 60 in February 2024 after 40 in January 2024, a change of
50. -/
theorem monthlyChange_formula_witness :
    Analytics.monthlyChange ⟨2024, 1, 15, 0⟩
        [{ id := "1", date := newDate 2024 1 3, amount := some (JSNum.num 60) },
         { id := "2", date := newDate 2024 0 20, amount := some (JSNum.num 40) }] =
      JSNum.num 50 :=
  (by decide! : (if (0 : ℚ) < 40 then JSNum.num (((60 : ℚ) - 40) / 40 * 100) else JSNum.num 0) =
      JSNum.num 50) ▸
    (monthlyChange_formula ⟨2024, 1, 15, 0⟩
      [{ id := "1", date := newDate 2024 1 3, amount := some (JSNum.num 60) },
       { id := "2", date := newDate 2024 0 20, amount := some (JSNum.num 40) }] 60 40
      (by decide!) (by decide!)).1

/-! ## The empty collection -/

/-- C25.  For the empty collection, whatever the clock and the selections are, nothing
throws: the totals of `Analytics` and of `Reports` are 0, the month-over-month change is 0,
`categoryData` and the breakdown of `Reports` are empty, the top category is "None", each
of the four weekly rows has amount 0 and count 0, and `csvContent` is the header line
alone. -/
theorem empty_collection_aggregates (now : Clock) (selectedPeriod selectedCategory : String) :
    Analytics.currentTotal now [] = JSNum.num 0 ∧
    Analytics.monthlyChange now [] = JSNum.num 0 ∧
    Analytics.categoryData now [] = [] ∧
    Analytics.topCategory now [] = "None" ∧
    Analytics.weeklyData now [] =
      [{ week := "Week 1", amount := JSNum.num 0, count := 0 },
       { week := "Week 2", amount := JSNum.num 0, count := 0 },
       { week := "Week 3", amount := JSNum.num 0, count := 0 },
       { week := "Week 4", amount := JSNum.num 0, count := 0 }] ∧
    Reports.filteredExpenses now selectedPeriod selectedCategory [] = [] ∧
    Reports.totalAmount (Reports.filteredExpenses now selectedPeriod selectedCategory []) =
      JSNum.num 0 ∧
    Reports.breakdownRows (Reports.filteredExpenses now selectedPeriod selectedCategory []) =
      [] ∧
    Reports.csvContent (Reports.filteredExpenses now selectedPeriod selectedCategory []) =
      some "Date,Title,Category,Amount,Business Purpose,Location,Description".toList ∧
    linesOf "Date,Title,Category,Amount,Business Purpose,Location,Description".toList =
      ["Date,Title,Category,Amount,Business Purpose,Location,Description".toList] := by
  refine ⟨rfl, ?_, rfl, rfl, ?_, rfl, rfl, rfl, ?_, ?_⟩
  · simp [Analytics.monthlyChange, Analytics.monthlyChangeOf, Analytics.lastTotal,
      Analytics.lastMonthExpenses, sumAmounts, JSNum.gt]
  · show Analytics.weeklyData ⟨0, 0, 0, 0⟩ [] = _
    decide
  · show Reports.csvContent [] = _
    decide
  · decide

/-! ## The characters of the date and amount columns -/

theorem digitChar_isDigit (k : Nat) (h : k < 10) : (Nat.digitChar k).isDigit = true := by
  interval_cases k <;> rfl

theorem toDigitsCore_isDigit (fuel n : Nat) (ds : List Char)
    (h : ∀ c ∈ ds, c.isDigit = true) :
    ∀ c ∈ Nat.toDigitsCore 10 fuel n ds, c.isDigit = true := by
  induction fuel generalizing n ds with
  | zero => simpa [Nat.toDigitsCore] using h
  | succ fuel ih =>
    have hd : ∀ c ∈ Nat.digitChar (n % 10) :: ds, c.isDigit = true := by
      intro c hc
      rcases List.mem_cons.mp hc with rfl | hc
      · exact digitChar_isDigit _ (Nat.mod_lt _ (by decide))
      · exact h c hc
    rw [Nat.toDigitsCore]
    split_ifs
    · exact hd
    · exact ih _ _ hd

/-- The decimal rendering of a natural number consists of digits. -/
theorem toString_isDigit (n : Nat) : ∀ c ∈ (toString n).toList, c.isDigit = true := by
  have h := toDigitsCore_isDigit (n + 1) n [] (by simp)
  intro c hc
  apply h
  have : (toString n).toList = Nat.toDigitsCore 10 (n + 1) n [] := by
    show (Nat.repr n).toList = _
    rw [Nat.repr, Nat.toDigits]
    simp [List.asString]
  rw [← this]
  exact hc

theorem padStart_isDigit (k : Nat) (s : List Char) (h : ∀ c ∈ s, c.isDigit = true) :
    ∀ c ∈ padStart k '0' s, c.isDigit = true := by
  intro c hc
  rcases List.mem_append.mp hc with hc | hc
  · rw [List.eq_of_mem_replicate hc]
    rfl
  · exact h c hc

/-- The text of `format(date, 'yyyy-MM-dd')` consists of digits and hyphens. -/
theorem formatDate_chars (date : JSDate) (s : List Char) (h : formatDate date = some s) :
    ∀ c ∈ s, c.isDigit = true ∨ c = '-' := by
  cases date with
  | invalid => cases h
  | time t =>
    simp only [formatDate, Option.some.injEq] at h
    subst h
    intro c hc
    simp only [List.mem_append, List.mem_cons] at hc
    rcases hc with (hc | rfl | hc) | rfl | hc
    · exact Or.inl (padStart_isDigit _ _ (toString_isDigit _) c hc)
    · exact Or.inr rfl
    · exact Or.inl (padStart_isDigit _ _ (toString_isDigit _) c hc)
    · exact Or.inr rfl
    · exact Or.inl (padStart_isDigit _ _ (toString_isDigit _) c hc)

theorem isDigit_plain (c : Char) (h : c.isDigit = true) : c ≠ ',' ∧ c ≠ '"' ∧ c ≠ '\n' := by
  refine ⟨?_, ?_, ?_⟩ <;> (rintro rfl; exact absurd h (by decide))

/-- The text of `format(date, 'yyyy-MM-dd')` has no comma, quote character or line feed. -/
theorem formatDate_plain (date : JSDate) (s : List Char) (h : formatDate date = some s) :
    ∀ c ∈ s, c ≠ ',' ∧ c ≠ '"' ∧ c ≠ '\n' := by
  intro c hc
  rcases formatDate_chars date s h c hc with hd | rfl
  · exact isDigit_plain c hd
  · decide

/-- The text of `toFixed(2)` has no comma, quote character or line feed. -/
theorem toFixed2_plain (a : JSNum) : ∀ c ∈ toFixed2 a, c ≠ ',' ∧ c ≠ '"' ∧ c ≠ '\n' := by
  cases a with
  | nan => decide
  | inf s => cases s <;> decide
  | num q =>
    intro c hc
    simp only [toFixed2, List.mem_append, List.mem_cons] at hc
    rcases hc with (hc | hc) | rfl | hc
    · split_ifs at hc
      · rw [List.mem_singleton] at hc
        subst hc
        decide
      · cases hc
    · exact isDigit_plain c (toString_isDigit _ c hc)
    · decide
    · exact isDigit_plain c (padStart_isDigit _ _ (toString_isDigit _) c hc)

/-! ## The rows of the delimited table -/

/-- The amount column rounds the Number that was read, not the numeral: `1.005` and `2.675`
are read as Numbers below these values and are written `1.00` and `2.67`, and `12.99` is
written `12.99`. -/
theorem toFixed2_of_parsed :
    toFixed2 (parseFloat "1.005".toList) = "1.00".toList ∧
    toFixed2 (parseFloat "2.675".toList) = "2.67".toList ∧
    toFixed2 (parseFloat "12.99".toList) = "12.99".toList ∧
    toFixed2 (parseFloat "0.125".toList) = "0.13".toList := by
  decide!

/-- The row of an expense whose date is valid and whose amount is there. -/
theorem csvRow_eq (expense : Expense) (date : List Char) (amount : JSNum)
    (hdate : formatDate expense.date = some date) (hamount : expense.amount = some amount) :
    Reports.csvRow expense =
      some (date ++ ',' :: '"' :: ((expense.title.getD "undefined").toList ++ '"' :: ',' ::
        ((expense.category.getD "").toList ++ ',' :: (toFixed2 amount ++ ',' :: '"' ::
          ((expense.businessPurpose.getD "").toList ++ '"' :: ',' :: '"' ::
            ((expense.location.getD "").toList ++ '"' :: ',' :: '"' ::
              ((expense.description.getD "").toList ++ ['"']))))))) := by
  simp [Reports.csvRow, Reports.csvColumns, hdate, hamount, List.intercalate,
    List.intersperse]

/-- C26.  `generateCSV` puts each text between two quote characters and copies it as it
is.  That protects a comma: the row of an expense with the title `Lunch, with Ann` is read
back with that title.  A quote character in a text is not escaped: the row of an expense
with the title `He said "hi"` has the two quote characters of the title as they are, so
that a reader of the row ends the quoted field at the first of them and reads the title
`He said hi`; and two expenses that differ in their business purpose and location have
the same row. -/
theorem csv_quotes_are_not_escaped :
    Reports.csvRow { id := "1", date := newDate 2024 1 29, title := some "Lunch, with Ann",
                     category := some "Meals", amount := some (JSNum.num 5) } =
      some "2024-02-29,\"Lunch, with Ann\",Meals,5.00,\"\",\"\",\"\"".toList ∧
    readFields "2024-02-29,\"Lunch, with Ann\",Meals,5.00,\"\",\"\",\"\"".toList [] false =
      ["2024-02-29".toList, "Lunch, with Ann".toList, "Meals".toList, "5.00".toList,
        [], [], []] ∧
    Reports.csvRow { id := "1", date := newDate 2024 1 29, title := some "He said \"hi\"",
                     category := some "Fuel", amount := some (JSNum.num 5) } =
      some "2024-02-29,\"He said \"hi\"\",Fuel,5.00,\"\",\"\",\"\"".toList ∧
    readFields "2024-02-29,\"He said \"hi\"\",Fuel,5.00,\"\",\"\",\"\"".toList [] false =
      ["2024-02-29".toList, "He said hi".toList, "Fuel".toList, "5.00".toList, [], [], []] ∧
    Reports.csvRow { id := "2", date := newDate 2024 1 29, title := some "Lunch",
                     category := some "Meals", amount := some (JSNum.num 5),
                     businessPurpose := some "a\",\"b", location := some "c" } =
      Reports.csvRow { id := "2", date := newDate 2024 1 29, title := some "Lunch",
                       category := some "Meals", amount := some (JSNum.num 5),
                       businessPurpose := some "a", location := some "b\",\"c" } ∧
    Reports.csvRow { id := "2", date := newDate 2024 1 29, title := some "Lunch",
                     category := some "Meals", amount := some (JSNum.num 5),
                     businessPurpose := some "a", location := some "b\",\"c" } =
      some "2024-02-29,\"Lunch\",Meals,5.00,\"a\",\"b\",\"c\",\"\"".toList := by
  decide!

/-! ## The lines of the delimited table -/

theorem mapM_csvRow (l : List Expense)
    (hvalid : ∀ e ∈ l, (formatDate e.date).isSome = true ∧ e.amount.isSome = true) :
    l.mapM Reports.csvRow = some (l.map (fun e => (Reports.csvRow e).getD [])) := by
  induction l with
  | nil => rfl
  | cons e es ih =>
    obtain ⟨hd, ha⟩ := hvalid e (List.mem_cons_self _ _)
    obtain ⟨date, hdate⟩ := Option.isSome_iff_exists.mp hd
    obtain ⟨amount, hamount⟩ := Option.isSome_iff_exists.mp ha
    rw [List.mapM_cons, ih (fun e' he' => hvalid e' (List.mem_cons_of_mem _ he')),
      List.map_cons, csvRow_eq e date amount hdate hamount]
    rfl

/-- A row has a line feed only where one of its texts has one. -/
theorem csvRow_no_line_feed (expense : Expense) (row : List Char)
    (hrow : Reports.csvRow expense = some row)
    (htext : ∀ c ∈ (expense.title.getD "undefined").toList ++
      (expense.category.getD "").toList ++ (expense.businessPurpose.getD "").toList ++
      (expense.location.getD "").toList ++ (expense.description.getD "").toList, c ≠ '\n') :
    '\n' ∉ row := by
  rcases hd : formatDate expense.date with _ | date
  · simp [Reports.csvRow, Reports.csvColumns, hd] at hrow
  rcases ha : expense.amount with _ | amount
  · simp [Reports.csvRow, Reports.csvColumns, hd, ha] at hrow
  rw [csvRow_eq expense date amount hd ha, Option.some.injEq] at hrow
  subst hrow
  intro hmem
  simp only [List.mem_append, List.mem_cons, List.mem_singleton, List.not_mem_nil,
    or_false] at hmem htext
  have hdp := fun h => (formatDate_plain _ _ hd '\n' h).2.2 rfl
  have hap := fun h => (toFixed2_plain amount '\n' h).2.2 rfl
  have hne1 : ¬ ('\n' = ',') := by decide
  have hne2 : ¬ ('\n' = '"') := by decide
  have ht := fun h => htext '\n' h rfl
  tauto

/-- C27, counterexample.  For the list of the one expense whose description is `a`, a line
feed and `b`, the table has three lines, the header line and two more: the row of the
expense is cut in two. -/
theorem csv_line_feed_in_text :
    (Reports.csvContent [{ id := "1", date := newDate 2024 1 29, title := some "Lunch",
                           category := some "Meals", amount := some (JSNum.num 5),
                           description := some "a\nb" }]).map linesOf =
      some ["Date,Title,Category,Amount,Business Purpose,Location,Description".toList,
        "2024-02-29,\"Lunch\",Meals,5.00,\"\",\"\",\"a".toList, "b\"".toList] := by
  decide!

/-- C27, amended.  For a list of expenses whose dates are valid and whose amounts are
there, the table is the header line and, in the order of the list, the row of each expense
(seven columns joined by commas), joined by line feeds.  When no title, category, business
purpose, location or description has a line feed, the lines of the table are the header
line and the rows, one line for each expense; a text with a line feed spreads its row
over several lines. -/
theorem csvContent_lines (l : List Expense)
    (hvalid : ∀ e ∈ l, (formatDate e.date).isSome = true ∧ e.amount.isSome = true) :
    Reports.csvContent l =
      some (['\n'].intercalate
        ("Date,Title,Category,Amount,Business Purpose,Location,Description".toList ::
          l.map (fun e => (Reports.csvRow e).getD []))) ∧
    (∀ e ∈ l, ∃ columns, Reports.csvColumns e = some columns ∧ columns.length = 7 ∧
      Reports.csvRow e = some ([','].intercalate columns)) ∧
    ((∀ e ∈ l, ∀ c ∈ (e.title.getD "undefined").toList ++ (e.category.getD "").toList ++
        (e.businessPurpose.getD "").toList ++ (e.location.getD "").toList ++
        (e.description.getD "").toList, c ≠ '\n') →
      ∀ text, Reports.csvContent l = some text →
        linesOf text =
          "Date,Title,Category,Amount,Business Purpose,Location,Description".toList ::
            l.map (fun e => (Reports.csvRow e).getD []) ∧
        (linesOf text).length = l.length + 1) := by
  have hcontent : Reports.csvContent l =
      some (['\n'].intercalate
        ("Date,Title,Category,Amount,Business Purpose,Location,Description".toList ::
          l.map (fun e => (Reports.csvRow e).getD []))) := by
    rw [Reports.csvContent, mapM_csvRow l hvalid]
    rfl
  refine ⟨hcontent, ?_, ?_⟩
  · intro e he
    obtain ⟨hd, ha⟩ := hvalid e he
    obtain ⟨date, hdate⟩ := Option.isSome_iff_exists.mp hd
    obtain ⟨amount, hamount⟩ := Option.isSome_iff_exists.mp ha
    simp [Reports.csvRow, Reports.csvColumns, hdate, hamount]
  · intro htext text ht
    rw [hcontent, Option.some.injEq] at ht
    subst ht
    have hlines : linesOf (['\n'].intercalate
        ("Date,Title,Category,Amount,Business Purpose,Location,Description".toList ::
          l.map (fun e => (Reports.csvRow e).getD []))) =
        "Date,Title,Category,Amount,Business Purpose,Location,Description".toList ::
          l.map (fun e => (Reports.csvRow e).getD []) := by
      apply List.splitOn_intercalate
      · intro row hrow
        rcases List.mem_cons.mp hrow with rfl | hrow
        · decide
        · rw [List.mem_map] at hrow
          obtain ⟨e, he, rfl⟩ := hrow
          obtain ⟨hd, ha⟩ := hvalid e he
          obtain ⟨date, hdate⟩ := Option.isSome_iff_exists.mp hd
          obtain ⟨amount, hamount⟩ := Option.isSome_iff_exists.mp ha
          have hr := csvRow_eq e date amount hdate hamount
          rw [hr]
          exact csvRow_no_line_feed e _ hr (htext e he)
      · exact List.cons_ne_nil _ _
    rw [hlines]
    exact ⟨rfl, by simp⟩

/-- Witness for C27, amended: two expenses, whose rows follow the header line in the order
of the list. -/
theorem csvContent_lines_witness :
    (Reports.csvContent [{ id := "1", date := newDate 2024 1 29, title := some "Lunch",
                           category := some "Meals", amount := some (JSNum.num 5) },
                         { id := "2", date := newDate 2024 1 3, title := some "Gas",
                           category := some "Fuel", amount := some (JSNum.num 40) }]).map
        linesOf =
      some ["Date,Title,Category,Amount,Business Purpose,Location,Description".toList,
        "2024-02-29,\"Lunch\",Meals,5.00,\"\",\"\",\"\"".toList,
        "2024-02-03,\"Gas\",Fuel,40.00,\"\",\"\",\"\"".toList] ∧
    ∀ text, Reports.csvContent [{ id := "1", date := newDate 2024 1 29, title := some "Lunch",
                                  category := some "Meals", amount := some (JSNum.num 5) },
                                { id := "2", date := newDate 2024 1 3, title := some "Gas",
                                  category := some "Fuel", amount := some (JSNum.num 40) }] =
        some text → (linesOf text).length = 3 :=
  ⟨by decide!,
    fun text h => ((csvContent_lines _ (by decide)).2.2 (by decide) text h).2⟩

/-! ## The fields of a date -/

theorem dayFromYear_succ (y : Int) :
    dayFromYear (y + 1) = dayFromYear y + (if isLeapYear y = true then 366 else 365) := by
  simp only [dayFromYear, isLeapYear, Bool.or_eq_true, Bool.and_eq_true, decide_eq_true_eq,
    ne_eq, decide_not, Bool.not_eq_true', decide_eq_false_iff_not]
  split_ifs with h <;> omega

/-- The estimate of the year is at most one year off. -/
theorem dayFromYear_estimate (d y : Int) (hy : y = 1970 + 400 * d / 146097) :
    dayFromYear (y - 1) ≤ d ∧ d < dayFromYear (y + 1 + 1) := by
  subst hy
  simp only [dayFromYear]
  constructor <;> omega

/-- The year of a day number is the year in which the day falls. -/
theorem yearFromDay_spec (d : Int) :
    dayFromYear (yearFromDay d) ≤ d ∧ d < dayFromYear (yearFromDay d + 1) := by
  obtain ⟨h1, h2⟩ := dayFromYear_estimate d _ rfl
  unfold yearFromDay
  split_ifs with ha hb
  · exact ⟨ha, h2⟩
  · exact ⟨hb, not_le.mp ha⟩
  · rw [sub_add_cancel]
    exact ⟨h1, not_le.mp hb⟩

theorem dayWithinYear_bounds (d : Int) :
    0 ≤ dayWithinYear d ∧
      dayWithinYear d < (if isLeapYear (yearFromDay d) = true then 366 else 365) := by
  have h := yearFromDay_spec d
  rw [dayFromYear_succ] at h
  unfold dayWithinYear
  constructor <;> omega

/-- The month and the day of the month of a day number: the month is one of the twelve
and the day is one of the days of the month. -/
theorem month_date_bounds (d : Int) :
    monthFromDay d ≤ 11 ∧ 1 ≤ dateFromDay d ∧
      dateFromDay d ≤ daysInMonth (isLeapYear (yearFromDay d)) (monthFromDay d) := by
  have hb := dayWithinYear_bounds d
  unfold dateFromDay
  generalize hm : monthFromDay d = m
  unfold monthFromDay at hm
  generalize dayWithinYear d = k at hb hm ⊢
  generalize isLeapYear (yearFromDay d) = leap at hb hm ⊢
  have e0 : daysBeforeMonth leap 0 = 0 := rfl
  have e1 : daysBeforeMonth leap 1 = 31 := rfl
  have e2 : daysBeforeMonth leap 2 = if leap = true then 60 else 59 := rfl
  have e3 : daysBeforeMonth leap 3 = if leap = true then 91 else 90 := rfl
  have e4 : daysBeforeMonth leap 4 = if leap = true then 121 else 120 := rfl
  have e5 : daysBeforeMonth leap 5 = if leap = true then 152 else 151 := rfl
  have e6 : daysBeforeMonth leap 6 = if leap = true then 182 else 181 := rfl
  have e7 : daysBeforeMonth leap 7 = if leap = true then 213 else 212 := rfl
  have e8 : daysBeforeMonth leap 8 = if leap = true then 244 else 243 := rfl
  have e9 : daysBeforeMonth leap 9 = if leap = true then 274 else 273 := rfl
  have e10 : daysBeforeMonth leap 10 = if leap = true then 305 else 304 := rfl
  have e11 : daysBeforeMonth leap 11 = if leap = true then 335 else 334 := rfl
  have i0 : daysInMonth leap 0 = 31 := rfl
  have i1 : daysInMonth leap 1 = if leap = true then 29 else 28 := rfl
  have i2 : daysInMonth leap 2 = 31 := rfl
  have i3 : daysInMonth leap 3 = 30 := rfl
  have i4 : daysInMonth leap 4 = 31 := rfl
  have i5 : daysInMonth leap 5 = 30 := rfl
  have i6 : daysInMonth leap 6 = 31 := rfl
  have i7 : daysInMonth leap 7 = 31 := rfl
  have i8 : daysInMonth leap 8 = 30 := rfl
  have i9 : daysInMonth leap 9 = 31 := rfl
  have i10 : daysInMonth leap 10 = 30 := rfl
  have i11 : daysInMonth leap 11 = 31 := rfl
  by_cases c1 : k < daysBeforeMonth leap 1
  · rw [if_pos c1] at hm
    subst hm
    simp only [e0, e1, i0] at c1 ⊢
    cases leap <;> simp only [Bool.false_eq_true, if_true, if_false] at * <;> omega
  rw [if_neg c1] at hm
  by_cases c2 : k < daysBeforeMonth leap 2
  · rw [if_pos c2] at hm
    subst hm
    simp only [e0, e1, e2, i1] at c1 c2 ⊢
    cases leap <;> simp only [Bool.false_eq_true, if_true, if_false] at * <;> omega
  rw [if_neg c2] at hm
  by_cases c3 : k < daysBeforeMonth leap 3
  · rw [if_pos c3] at hm
    subst hm
    simp only [e0, e1, e2, e3, i2] at c1 c2 c3 ⊢
    cases leap <;> simp only [Bool.false_eq_true, if_true, if_false] at * <;> omega
  rw [if_neg c3] at hm
  by_cases c4 : k < daysBeforeMonth leap 4
  · rw [if_pos c4] at hm
    subst hm
    simp only [e0, e1, e2, e3, e4, i3] at c1 c2 c3 c4 ⊢
    cases leap <;> simp only [Bool.false_eq_true, if_true, if_false] at * <;> omega
  rw [if_neg c4] at hm
  by_cases c5 : k < daysBeforeMonth leap 5
  · rw [if_pos c5] at hm
    subst hm
    simp only [e0, e1, e2, e3, e4, e5, i4] at c1 c2 c3 c4 c5 ⊢
    cases leap <;> simp only [Bool.false_eq_true, if_true, if_false] at * <;> omega
  rw [if_neg c5] at hm
  by_cases c6 : k < daysBeforeMonth leap 6
  · rw [if_pos c6] at hm
    subst hm
    simp only [e0, e1, e2, e3, e4, e5, e6, i5] at c1 c2 c3 c4 c5 c6 ⊢
    cases leap <;> simp only [Bool.false_eq_true, if_true, if_false] at * <;> omega
  rw [if_neg c6] at hm
  by_cases c7 : k < daysBeforeMonth leap 7
  · rw [if_pos c7] at hm
    subst hm
    simp only [e0, e1, e2, e3, e4, e5, e6, e7, i6] at c1 c2 c3 c4 c5 c6 c7 ⊢
    cases leap <;> simp only [Bool.false_eq_true, if_true, if_false] at * <;> omega
  rw [if_neg c7] at hm
  by_cases c8 : k < daysBeforeMonth leap 8
  · rw [if_pos c8] at hm
    subst hm
    simp only [e0, e1, e2, e3, e4, e5, e6, e7, e8, i7] at c1 c2 c3 c4 c5 c6 c7 c8 ⊢
    cases leap <;> simp only [Bool.false_eq_true, if_true, if_false] at * <;> omega
  rw [if_neg c8] at hm
  by_cases c9 : k < daysBeforeMonth leap 9
  · rw [if_pos c9] at hm
    subst hm
    simp only [e0, e1, e2, e3, e4, e5, e6, e7, e8, e9, i8] at c1 c2 c3 c4 c5 c6 c7 c8 c9 ⊢
    cases leap <;> simp only [Bool.false_eq_true, if_true, if_false] at * <;> omega
  rw [if_neg c9] at hm
  by_cases c10 : k < daysBeforeMonth leap 10
  · rw [if_pos c10] at hm
    subst hm
    simp only [e0, e1, e2, e3, e4, e5, e6, e7, e8, e9, e10, i9] at c1 c2 c3 c4 c5 c6 c7 c8 c9 c10 ⊢
    cases leap <;> simp only [Bool.false_eq_true, if_true, if_false] at * <;> omega
  rw [if_neg c10] at hm
  by_cases c11 : k < daysBeforeMonth leap 11
  · rw [if_pos c11] at hm
    subst hm
    simp only [e0, e1, e2, e3, e4, e5, e6,
      e7, e8, e9, e10, e11, i10] at c1 c2 c3 c4 c5 c6 c7 c8 c9 c10 c11 ⊢
    cases leap <;> simp only [Bool.false_eq_true, if_true, if_false] at * <;> omega
  rw [if_neg c11] at hm
  subst hm
  simp only [e0, e1, e2, e3, e4, e5, e6,
    e7, e8, e9, e10, e11, i11] at c1 c2 c3 c4 c5 c6 c7 c8 c9 c10 c11 ⊢
  cases leap <;> simp only [Bool.false_eq_true, if_true, if_false] at * <;> omega

/-- The day number of the fields of a day number is the day number. -/
theorem makeDay_fields (d : Int) :
    makeDay (yearFromDay d) (((monthFromDay d + 1 : Nat) : Int) - 1) (dateFromDay d) = d := by
  have hm := (month_date_bounds d).1
  have h1 : ((monthFromDay d + 1 : Nat) : Int) - 1 = (monthFromDay d : Int) := by
    push_cast; ring
  have h2 : (monthFromDay d : Int) / 12 = 0 := by omega
  have h3 : ((monthFromDay d : Int) % 12).toNat = monthFromDay d := by omega
  rw [h1, makeDay, h2, h3, add_zero]
  unfold dateFromDay dayWithinYear
  ring

/-! ## Reading the ISO format back -/

theorem fixedDigits_length (n k : Nat) : (fixedDigits n k).length = n := by
  induction n generalizing k with
  | zero => rfl
  | succ n ih => simp [fixedDigits, ih]

theorem fixedDigits_isDigit (n k : Nat) : ∀ c ∈ fixedDigits n k, c.isDigit = true := by
  induction n generalizing k with
  | zero => intro c hc; cases hc
  | succ n ih =>
    intro c hc
    rw [fixedDigits, List.mem_append, List.mem_singleton] at hc
    rcases hc with hc | rfl
    · exact ih _ c hc
    · exact digitChar_isDigit _ (Nat.mod_lt _ (by decide))

theorem digitsToNat_fixedDigits (n k : Nat) : digitsToNat (fixedDigits n k) = k % 10 ^ n := by
  induction n generalizing k with
  | zero => simp [fixedDigits, digitsToNat, Nat.mod_one]
  | succ n ih =>
    rw [fixedDigits, digitsToNat_append, ih]
    simp only [List.length_singleton, pow_one, digitsToNat, List.foldl_cons, List.foldl_nil,
      Nat.mul_zero, Nat.zero_add]
    rw [digitVal_digitChar _ (Nat.mod_lt _ (by decide)), pow_succ]
    have h := Nat.mod_mul_right_div_self k 10 (10 ^ n)
    have h2 := Nat.div_add_mod (k % (10 * 10 ^ n)) 10
    have h3 : k % (10 * 10 ^ n) % 10 = k % 10 := Nat.mod_mul_right_mod k 10 (10 ^ n)
    rw [mul_comm (10 ^ n) 10]
    omega

/-- The digits written in a fixed width are read back as the number. -/
theorem readDigits_fixedDigits (n k : Nat) (rest : List Char) (h : k < 10 ^ n) :
    readDigits n (fixedDigits n k ++ rest) = some (k, rest) := by
  have hl := fixedDigits_length n k
  have htake : (fixedDigits n k ++ rest).take n = fixedDigits n k := by
    have h1 := List.take_left (fixedDigits n k) rest
    rwa [hl] at h1
  have hdrop : (fixedDigits n k ++ rest).drop n = rest := by
    have h1 := List.drop_left (fixedDigits n k) rest
    rwa [hl] at h1
  have hall : (fixedDigits n k).all Char.isDigit = true := by
    rw [List.all_eq_true]
    exact fixedDigits_isDigit n k
  rw [readDigits, htake, hdrop, if_pos ⟨by simp [hl], hall⟩, digitsToNat_fixedDigits,
    Nat.mod_eq_of_lt h]

theorem readField_fixedDigits (n k : Nat) (c : Char) (rest : List Char) (h : k < 10 ^ n) :
    readField n c (fixedDigits n k ++ c :: rest) = some (k, rest) := by
  rw [readField, readDigits_fixedDigits n k _ h]
  simp [readChar]

theorem readYear_isoYear (y : Int) (rest : List Char) (h1 : -999999 ≤ y) (h2 : y ≤ 999999) :
    readYear (isoYear y ++ rest) = some (y, rest) := by
  unfold isoYear
  by_cases hy : 0 ≤ y ∧ y ≤ 9999
  · rw [if_pos hy]
    have hk : y.toNat < 10 ^ 4 := by omega
    have hr := readDigits_fixedDigits 4 y.toNat rest hk
    have hshape : fixedDigits 4 y.toNat =
        [Nat.digitChar (y.toNat / 10 / 10 / 10 % 10), Nat.digitChar (y.toNat / 10 / 10 % 10),
          Nat.digitChar (y.toNat / 10 % 10), Nat.digitChar (y.toNat % 10)] := by
      simp [fixedDigits]
    have hd := digitChar_isDigit (y.toNat / 10 / 10 / 10 % 10) (Nat.mod_lt _ (by decide))
    rw [hshape] at hr ⊢
    generalize Nat.digitChar (y.toNat / 10 / 10 / 10 % 10) = c0 at hd hr ⊢
    have hp : c0 ≠ '+' := by rintro rfl; exact absurd hd (by decide)
    have hm : c0 ≠ '-' := by rintro rfl; exact absurd hd (by decide)
    simp only [List.cons_append, List.nil_append] at hr ⊢
    unfold readYear
    split
    · next heq => exact absurd (List.cons.inj heq).1 hp
    · next heq => exact absurd (List.cons.inj heq).1 hm
    · rw [hr]
      simp only [Option.map_some']
      congr 2
      omega
  · rw [if_neg hy]
    by_cases hneg : y < 0
    · rw [if_pos hneg]
      have hk : y.natAbs < 10 ^ 6 := by omega
      show (readDigits 6 (fixedDigits 6 y.natAbs ++ rest)).bind _ = _
      rw [readDigits_fixedDigits 6 _ rest hk]
      have h0 : y.natAbs ≠ 0 := by omega
      simp only [Option.some_bind, h0, if_false]
      congr 2
      omega
    · rw [if_neg hneg]
      have hk : y.natAbs < 10 ^ 6 := by omega
      show (readDigits 6 (fixedDigits 6 y.natAbs ++ rest)).map _ = _
      rw [readDigits_fixedDigits 6 _ rest hk]
      simp only [Option.map_some']
      congr 2
      omega

theorem readDatePart_fields (y : Int) (mo day : Nat) (rest : List Char)
    (h1 : -999999 ≤ y) (h2 : y ≤ 999999) (hmo : mo < 10 ^ 2) (hday : day < 10 ^ 2) :
    readDatePart (isoYear y ++ '-' :: (fixedDigits 2 mo ++ '-' ::
      (fixedDigits 2 day ++ 'T' :: rest))) = some ((y, mo, day), rest) := by
  rw [readDatePart, readYear_isoYear y _ h1 h2]
  simp only [readChar, if_true]
  rw [readField_fixedDigits 2 mo '-' _ hmo]
  simp only []
  rw [readField_fixedDigits 2 day 'T' _ hday]

theorem readTimePart_fields (h mi sec ms : Nat) (rest : List Char)
    (hh : h < 10 ^ 2) (hmi : mi < 10 ^ 2) (hsec : sec < 10 ^ 2) (hms : ms < 10 ^ 3) :
    readTimePart (fixedDigits 2 h ++ ':' :: (fixedDigits 2 mi ++ ':' ::
      (fixedDigits 2 sec ++ '.' :: (fixedDigits 3 ms ++ 'Z' :: rest)))) =
      some ((h, mi, sec, ms), rest) := by
  rw [readTimePart, readField_fixedDigits 2 h ':' _ hh]
  simp only []
  rw [readField_fixedDigits 2 mi ':' _ hmi]
  simp only []
  rw [readField_fixedDigits 2 sec '.' _ hsec]
  simp only []
  rw [readField_fixedDigits 3 ms 'Z' _ hms]

/-- The year of a time value is written in at most six digits. -/
theorem yearFromDay_range (t : Int) (h1 : -maxTime ≤ t) (h2 : t ≤ maxTime) :
    -999999 ≤ yearFromDay (t / msPerDay) ∧ yearFromDay (t / msPerDay) ≤ 999999 := by
  have hs := yearFromDay_spec (t / msPerDay)
  have hr0 : 0 ≤ t % msPerDay := Int.emod_nonneg _ (by decide)
  have hr1 : t % msPerDay < msPerDay := Int.emod_lt_of_pos _ (by decide)
  have hdiv := Int.ediv_add_emod t msPerDay
  generalize t / msPerDay = q at *
  generalize t % msPerDay = r at *
  generalize yearFromDay q = y at *
  simp only [dayFromYear, maxTime, msPerDay] at *
  constructor <;> omega

/-- The string that `toISOString` writes for a time value is parsed as that time value. -/
theorem parseISOString_toISOString (t : Int) (h1 : -maxTime ≤ t) (h2 : t ≤ maxTime) :
    parseISOString (toISOString t) = some t := by
  obtain ⟨hy1, hy2⟩ := yearFromDay_range t h1 h2
  obtain ⟨hm, hd1, hd2⟩ := month_date_bounds (t / msPerDay)
  have hdays := makeDay_fields (t / msPerDay)
  have hr0 : 0 ≤ t % msPerDay := Int.emod_nonneg _ (by decide)
  have hr1 : t % msPerDay < msPerDay := Int.emod_lt_of_pos _ (by decide)
  have hdiv := Int.ediv_add_emod t msPerDay
  have hdim : (daysInMonth (isLeapYear (yearFromDay (t / msPerDay)))
      (monthFromDay (t / msPerDay)) : Int) ≤ 31 := by
    unfold daysInMonth
    split_ifs <;> simp
  have hR : ((t % msPerDay).toNat : Int) = t % msPerDay := Int.toNat_of_nonneg hr0
  have hD : ((dateFromDay (t / msPerDay)).toNat : Int) = dateFromDay (t / msPerDay) :=
    Int.toNat_of_nonneg (by omega)
  have hlt : (t % msPerDay).toNat < 86400000 := by
    have h3 : ((t % msPerDay).toNat : Int) < 86400000 := by rw [hR]; exact hr1
    omega
  have htime : timeOfFields (yearFromDay (t / msPerDay)) (monthFromDay (t / msPerDay) + 1)
      (dateFromDay (t / msPerDay)).toNat ((t % msPerDay).toNat / 3600000)
      ((t % msPerDay).toNat / 60000 % 60) ((t % msPerDay).toNat / 1000 % 60)
      ((t % msPerDay).toNat % 1000) = t := by
    rw [timeOfFields, hD, hdays]
    have hsum : (t % msPerDay).toNat / 3600000 * 3600000 +
        (t % msPerDay).toNat / 60000 % 60 * 60000 +
        (t % msPerDay).toNat / 1000 % 60 * 1000 + (t % msPerDay).toNat % 1000 =
        (t % msPerDay).toNat := by omega
    rw [hsum, hR]
    rw [mul_comm]
    exact hdiv
  have hrange : fieldsInRange (yearFromDay (t / msPerDay)) (monthFromDay (t / msPerDay) + 1)
      (dateFromDay (t / msPerDay)).toNat ((t % msPerDay).toNat / 3600000)
      ((t % msPerDay).toNat / 60000 % 60) ((t % msPerDay).toNat / 1000 % 60)
      ((t % msPerDay).toNat % 1000) = true := by
    have hday1 : 1 ≤ (dateFromDay (t / msPerDay)).toNat := by omega
    have hday2 : (dateFromDay (t / msPerDay)).toNat ≤
        daysInMonth (isLeapYear (yearFromDay (t / msPerDay)))
          (monthFromDay (t / msPerDay) + 1 - 1) := by
      rw [Nat.add_sub_cancel]
      exact Int.toNat_le.mpr hd2
    have hh : (t % msPerDay).toNat / 3600000 ≤ 23 := by omega
    have hmi : (t % msPerDay).toNat / 60000 % 60 ≤ 59 := by omega
    have hs : (t % msPerDay).toNat / 1000 % 60 ≤ 59 := by omega
    have hmo : monthFromDay (t / msPerDay) + 1 ≤ 12 := by omega
    simp [fieldsInRange, hday1, hday2, hh, hmi, hs, hmo, hd2]
  rw [toISOString, parseISOString,
    readDatePart_fields _ _ _ _ hy1 hy2 (by omega) (by omega)]
  simp only []
  rw [readTimePart_fields _ _ _ _ [] (by omega) (by omega) (by omega) (by omega)]
  simp only []
  rw [if_pos ⟨trivial, hrange, by rw [htime]; exact h1, by rw [htime]; exact h2⟩, htime]

/-! ## Saving and loading the collection -/

theorem sameNumber_jsonOfNum (x : Option JSNum) (h : finiteOrMissing x = true) :
    sameNumber x (x.map UseExpenses.jsonOfNum) = true := by
  rcases x with _ | (_ | q | s)
  · rfl
  · cases h
  · simp [sameNumber, UseExpenses.jsonOfNum]
  · cases h

/-- A valid date is read back from what `toJSON` writes for it. -/
theorem dateOfJSON_dateToJSON (tz : Int) (date : JSDate) (h : date.isValid tz = true) :
    UseExpenses.dateOfJSON tz (UseExpenses.dateToJSON tz date) = date := by
  cases date with
  | invalid => cases h
  | time t =>
    simp only [JSDate.isValid, Bool.and_eq_true, decide_eq_true_eq] at h
    have hs : (String.mk (toISOString (t - tz))).toList = toISOString (t - tz) := rfl
    simp only [UseExpenses.dateToJSON, UseExpenses.dateOfJSON]
    rw [hs, parseISOString_toISOString _ h.1 h.2]
    simp

/-- C28, counterexample.  The form whose date field is cleared gives an expense with an
`Invalid Date`, which `saveExpenses` writes as `null` and the load step reads as the time
value 0, 1 January 1970; an amount that is `NaN` is written as `null` and read back as
`null`.  Neither record is structurally equal to the one that was saved. -/
theorem reload_changes_invalid_date_and_nan :
    (UseExpenses.addExpense 0 1705312800000
        (ExpenseForm.submitted ⟨"Lunch", "5", "Meals", none, "", "", "", ""⟩) []).saved.map
        (fun e => e.date) = [JSDate.invalid] ∧
    (UseExpenses.loadExpenses 0 (UseExpenses.saveExpenses 0
        (UseExpenses.addExpense 0 1705312800000
          (ExpenseForm.submitted ⟨"Lunch", "5", "Meals", none, "", "", "", ""⟩) []).saved)).map
        (fun r => (r.date, formatDate r.date)) =
      [(JSDate.time 0, some "1970-01-01".toList)] ∧
    (UseExpenses.loadExpenses 0 (UseExpenses.saveExpenses 0
        [{ id := "2", date := newDate 2024 1 29, amount := some JSNum.nan }])).map
        (fun r => r.amount) = [some UseExpenses.JsonNum.null] ∧
    List.zipWith sameRecord
        ((UseExpenses.addExpense 0 1705312800000
            (ExpenseForm.submitted ⟨"Lunch", "5", "Meals", none, "", "", "", ""⟩) []).saved ++
          [{ id := "2", date := newDate 2024 1 29, amount := some JSNum.nan }])
        (UseExpenses.loadExpenses 0 (UseExpenses.saveExpenses 0
          ((UseExpenses.addExpense 0 1705312800000
              (ExpenseForm.submitted ⟨"Lunch", "5", "Meals", none, "", "", "", ""⟩)
              []).saved ++
            [{ id := "2", date := newDate 2024 1 29, amount := some JSNum.nan }]))) =
      [false, false] := by
  decide!

/-- C28, amended.  For a collection in which every date is valid and every numeric
property that is there is a finite number, the collection that the load step reads from
what `saveExpenses` wrote has the same length and, position by position, records that are
structurally equal to the ones saved, with the same date (the same time value, hence the
same calendar day) and the same id. -/
theorem load_save_same_records (tz : Int) (l : List Expense)
    (hdate : ∀ e ∈ l, e.date.isValid tz = true)
    (hnum : ∀ e ∈ l, e.numbersFinite = true) :
    (UseExpenses.loadExpenses tz (UseExpenses.saveExpenses tz l)).length = l.length ∧
    List.Forall₂ (fun e r => sameRecord e r = true) l
      (UseExpenses.loadExpenses tz (UseExpenses.saveExpenses tz l)) ∧
    (UseExpenses.loadExpenses tz (UseExpenses.saveExpenses tz l)).map (fun r => r.date) =
      l.map (fun e => e.date) ∧
    (UseExpenses.loadExpenses tz (UseExpenses.saveExpenses tz l)).map (fun r => r.id) =
      l.map (fun e => e.id) := by
  refine ⟨by simp [UseExpenses.loadExpenses, UseExpenses.saveExpenses], ?_, ?_, ?_⟩
  · simp only [UseExpenses.loadExpenses, UseExpenses.saveExpenses, List.map_map]
    rw [List.forall₂_map_right_iff, List.forall₂_same]
    intro e he
    have hd := dateOfJSON_dateToJSON tz e.date (hdate e he)
    have hn := hnum e he
    simp only [Expense.numbersFinite, Bool.and_eq_true] at hn
    obtain ⟨⟨⟨⟨⟨n1, n2⟩, n3⟩, n4⟩, n5⟩, n6⟩ := hn
    simp [sameRecord, hd, sameNumber_jsonOfNum, n1, n2, n3, n4, n5, n6]
  · simp only [UseExpenses.loadExpenses, UseExpenses.saveExpenses, List.map_map]
    apply List.map_congr_left
    intro e he
    exact dateOfJSON_dateToJSON tz e.date (hdate e he)
  · simp only [UseExpenses.loadExpenses, UseExpenses.saveExpenses, List.map_map]
    rfl

/-- Witness for C28, amended: two expenses saved and loaded where local time is five hours
behind UTC. -/
theorem load_save_same_records_witness :
    List.Forall₂ (fun e r => sameRecord e r = true)
      [{ id := "1", date := newDate 2024 1 29, title := some "Lunch",
         category := some "Meals", amount := some (JSNum.num (1299 / 100)) },
       { id := "2", date := JSDate.time (makeDay 2024 0 15 * msPerDay - 18000000),
         title := some "Gas", amount := some (JSNum.num 40) }]
      (UseExpenses.loadExpenses (-18000000) (UseExpenses.saveExpenses (-18000000)
        [{ id := "1", date := newDate 2024 1 29, title := some "Lunch",
           category := some "Meals", amount := some (JSNum.num (1299 / 100)) },
         { id := "2", date := JSDate.time (makeDay 2024 0 15 * msPerDay - 18000000),
           title := some "Gas", amount := some (JSNum.num 40) }])) ∧
    (UseExpenses.saveExpenses (-18000000)
        [{ id := "1", date := newDate 2024 1 29, title := some "Lunch",
           category := some "Meals", amount := some (JSNum.num (1299 / 100)) },
         { id := "2", date := JSDate.time (makeDay 2024 0 15 * msPerDay - 18000000),
           title := some "Gas", amount := some (JSNum.num 40) }]).map (fun r => r.date) =
      [some "2024-02-29T05:00:00.000Z", some "2024-01-15T00:00:00.000Z"] :=
  ⟨(load_save_same_records (-18000000) _ (by decide) (by decide)).2.1, by decide⟩

/-! ## The sign of the numbers of a draft -/

/-- The Number for a value that is not negative passes the test `0 <= v`. -/
theorem zero_le_ofRat (q : ℚ) (h : 0 ≤ q) : JSNum.le (JSNum.num 0) (JSNum.ofRat q) = true := by
  rcases ofRat_nonneg q h with h1 | ⟨r, hr, h1⟩
  · rw [h1]
    rfl
  · rw [h1]
    simpa [JSNum.le] using hr

/-- C29.  Whatever the transcript and the intent are, `amount`, `startOdometer`,
`endOdometer` and `odometerReading` of the draft of `parseVoiceInput` are missing or
numbers that are not negative (`0 <= v` holds: a finite value from 0, or `Infinity` for a
numeral too large for a finite Number), and so is `amount` of the generic parser: each of
them is 0 or the value that `parseFloat` or `parseInt` reads from a token that starts with
a digit, so a minus sign before the digits is not read ("paid -45 dollars" gives 45). -/
theorem voice_numbers_not_negative (today : CalDate) (text type : String) :
    nonNegativeOrMissing (VoiceInput.parseVoiceInput today text type).amount = true ∧
    nonNegativeOrMissing (VoiceInput.parseVoiceInput today text type).startOdometer = true ∧
    nonNegativeOrMissing (VoiceInput.parseVoiceInput today text type).endOdometer = true ∧
    nonNegativeOrMissing (VoiceInput.parseVoiceInput today text type).odometerReading = true ∧
    nonNegativeOrMissing (some (UseVoiceInput.parseVoiceInput text).amount) = true ∧
    (VoiceInput.parseVoiceInput ⟨2024, 1, 15⟩ "paid -45 dollars" "fuel").amount =
      some (JSNum.num 45) ∧
    (VoiceInput.parseVoiceInput ⟨2024, 1, 15⟩
      (String.mk ('-' :: '1' :: List.replicate 309 '0')) "fuel").amount =
      some (JSNum.inf false) := by
  have h0 := numbers_zero text
  have h1 := numbers_one text
  have hf := parsedOrZero_firstNumeral text.toList
  have hs := parsedOrZero_secondNumeral text.toList
  have hg := amountRE_search (toLowerCase text.toList)
  have v1 := zero_le_ofRat _ (valueOrZero_nonneg (firstNumeral text.toList))
  have f1 := zero_le_ofRat _ (Int.cast_nonneg.mpr
    (Int.floor_nonneg.mpr (valueOrZero_nonneg (firstNumeral text.toList))))
  have f2 := zero_le_ofRat _ (Int.cast_nonneg.mpr
    (Int.floor_nonneg.mpr (valueOrZero_nonneg (secondNumeral text.toList))))
  have hgen : nonNegativeOrMissing (some (UseVoiceInput.parseVoiceInput text).amount) =
      true := by
    show nonNegativeOrMissing (some (match (RE.group UseVoiceInput.amountRE).search
      (toLowerCase text.toList) with
      | some (_, m) => parseFloat (replaceFirstChar '$' [] (m.cap 1))
      | none => JSNum.num 0)) = true
    rw [hg]
    exact zero_le_ofRat _ (valueOrZero_nonneg _)
  refine ⟨?_, ?_, ?_, ?_, hgen, by decide!, by decide!⟩ <;>
    (unfold VoiceInput.parseVoiceInput
     simp only [h0, h1, hf.1, hf.2, hs]
     split_ifs <;> dsimp only [nonNegativeOrMissing] <;>
       first
       | rfl
       | exact v1
       | exact f1
       | exact f2)

/-! ## The title of a draft -/

theorem dropWhile_head_not (p : Char → Bool) (s : List Char) (x : Char) (rest : List Char)
    (h : s.dropWhile p = x :: rest) : p x = false := by
  induction s with
  | nil => cases h
  | cons c cs ih =>
    by_cases hc : p c = true
    · rw [List.dropWhile_cons_of_pos hc] at h
      exact ih h
    · rw [List.dropWhile_cons_of_neg hc] at h
      rw [← (List.cons.inj h).1]
      simpa using hc

/-- Trimming a trimmed text changes nothing. -/
theorem jsTrim_idempotent (s : List Char) : jsTrim (jsTrim s) = jsTrim s := by
  have hform : ∀ l : List Char, jsTrim l = List.rdropWhile isJsSpace (l.dropWhile isJsSpace) :=
    fun l => rfl
  have hhead : (jsTrim s).dropWhile isJsSpace = jsTrim s := by
    cases hu : jsTrim s with
    | nil => rfl
    | cons x u =>
      have hpre : jsTrim s <+: s.dropWhile isJsSpace := by
        rw [hform]
        exact List.rdropWhile_prefix _ _
      rw [hu] at hpre
      obtain ⟨t, ht⟩ := hpre
      have hx := dropWhile_head_not isJsSpace s x (u ++ t) (by rw [← ht]; rfl)
      rw [List.dropWhile_cons_of_neg (by simp [hx])]
  rw [hform (jsTrim s), hhead, hform s, List.rdropWhile_idempotent]

theorem orElseStr_trimmed (a : Option String) (b : String)
    (ha : ∀ s, a = some s → jsTrim s.toList = s.toList)
    (hb : b ≠ "" ∧ jsTrim b.toList = b.toList) :
    orElseStr a b ≠ "" ∧ jsTrim (orElseStr a b).toList = (orElseStr a b).toList ∧
      (orElseStr a b = b ∨ a = some (orElseStr a b)) := by
  cases a with
  | none => exact ⟨hb.1, hb.2, Or.inl rfl⟩
  | some s =>
    by_cases hs : s = ""
    · have h : orElseStr (some s) b = b := by simp [orElseStr, hs]
      rw [h]
      exact ⟨hb.1, hb.2, Or.inl rfl⟩
    · have h : orElseStr (some s) b = s := by simp [orElseStr, hs]
      rw [h]
      exact ⟨hs, ha s rfl, Or.inr rfl⟩

theorem extractLocation_trimmed (text preposition s : String)
    (h : VoiceInput.extractLocation text preposition = some s) :
    jsTrim s.toList = s.toList := by
  unfold VoiceInput.extractLocation at h
  split at h
  · rw [Option.some.injEq] at h
    rw [← h]
    exact jsTrim_idempotent _
  · cases h

theorem extractRestaurant_trimmed (text s : String)
    (h : VoiceInput.extractRestaurant text = some s) : jsTrim s.toList = s.toList := by
  unfold VoiceInput.extractRestaurant at h
  split at h
  · rw [Option.some.injEq] at h
    rw [← h]
    exact jsTrim_idempotent _
  · cases h

theorem extractHotel_trimmed (text s : String)
    (h : VoiceInput.extractHotel text = some s) : jsTrim s.toList = s.toList := by
  unfold VoiceInput.extractHotel at h
  split at h
  · rw [Option.some.injEq] at h
    rw [← h]
    exact jsTrim_idempotent _
  · cases h

theorem extractExpenseType_trimmed (text s : String)
    (h : VoiceInput.extractExpenseType text = some s) : jsTrim s.toList = s.toList := by
  unfold VoiceInput.extractExpenseType at h
  rw [Option.map_eq_some'] at h
  obtain ⟨type, hfind, hcap⟩ := h
  have hmem := List.mem_of_find?_eq_some hfind
  have hall : ∀ t ∈ VoiceInput.expenseTypes,
      jsTrim (VoiceInput.capitalize t).toList = (VoiceInput.capitalize t).toList := by
    decide
  rw [← hcap]
  exact hall type hmem

/-- C30.  Whatever the transcript is, the title of the fuel, meal, accommodation and
miscellaneous drafts of `parseVoiceInput` is not empty and has no white space at its ends:
it is the phrase that the extractor of the intent returns, trimmed, or the fixed label of
the intent when there is no phrase or the phrase is empty after trimming.  The title of the
generic parser is the transcript without the matches of the amount pattern, trimmed, or
the category followed by the word expense when nothing is left; it is not empty and has
no white space at its ends. -/
theorem voice_title_nonempty_trimmed (today : CalDate) (text : String) :
    (∀ type ∈ ["fuel", "meal", "accommodation", "miscellaneous"],
      ∃ t, (VoiceInput.parseVoiceInput today text type).title = some t ∧ t ≠ "" ∧
        jsTrim t.toList = t.toList) ∧
    ((VoiceInput.parseVoiceInput today text "fuel").title = some "Gas Station" ∨
      (VoiceInput.parseVoiceInput today text "fuel").title =
        VoiceInput.extractLocation text "at") ∧
    ((VoiceInput.parseVoiceInput today text "meal").title = some "Business Meal" ∨
      (VoiceInput.parseVoiceInput today text "meal").title =
        VoiceInput.extractRestaurant text) ∧
    ((VoiceInput.parseVoiceInput today text "accommodation").title = some "Hotel Stay" ∨
      (VoiceInput.parseVoiceInput today text "accommodation").title =
        VoiceInput.extractHotel text) ∧
    ((VoiceInput.parseVoiceInput today text "miscellaneous").title =
        some "Business Expense" ∨
      (VoiceInput.parseVoiceInput today text "miscellaneous").title =
        VoiceInput.extractExpenseType text) ∧
    (UseVoiceInput.parseVoiceInput text).title ≠ "" ∧
    jsTrim (UseVoiceInput.parseVoiceInput text).title.toList =
      (UseVoiceInput.parseVoiceInput text).title.toList ∧
    ((UseVoiceInput.parseVoiceInput text).title =
        String.mk (jsTrim (UseVoiceInput.amountRE.replaceAll [] text.toList)) ∨
      (UseVoiceInput.parseVoiceInput text).title =
        (UseVoiceInput.parseVoiceInput text).category ++ " expense") ∧
    (VoiceInput.parseVoiceInput ⟨2024, 1, 15⟩ "65 dollars at   " "fuel").title =
      some "Gas Station" ∧
    (VoiceInput.parseVoiceInput ⟨2024, 1, 15⟩ "" "meal").title = some "Business Meal" ∧
    (UseVoiceInput.parseVoiceInput " 45 ").title = "Miscellaneous expense" := by
  have hfuel : (VoiceInput.parseVoiceInput today text "fuel").title =
      some (orElseStr (VoiceInput.extractLocation text "at") "Gas Station") := rfl
  have hmeal : (VoiceInput.parseVoiceInput today text "meal").title =
      some (orElseStr (VoiceInput.extractRestaurant text) "Business Meal") := rfl
  have hacc : (VoiceInput.parseVoiceInput today text "accommodation").title =
      some (orElseStr (VoiceInput.extractHotel text) "Hotel Stay") := rfl
  have hmisc : (VoiceInput.parseVoiceInput today text "miscellaneous").title =
      some (orElseStr (VoiceInput.extractExpenseType text) "Business Expense") := rfl
  have o1 := orElseStr_trimmed (VoiceInput.extractLocation text "at") "Gas Station"
    (fun s hs => extractLocation_trimmed text "at" s hs) (by decide)
  have o2 := orElseStr_trimmed (VoiceInput.extractRestaurant text) "Business Meal"
    (fun s hs => extractRestaurant_trimmed text s hs) (by decide)
  have o3 := orElseStr_trimmed (VoiceInput.extractHotel text) "Hotel Stay"
    (fun s hs => extractHotel_trimmed text s hs) (by decide)
  have o4 := orElseStr_trimmed (VoiceInput.extractExpenseType text) "Business Expense"
    (fun s hs => extractExpenseType_trimmed text s hs) (by decide)
  have hcat : ∀ c ∈ ["Fuel", "Meals", "Accommodation", "Transportation", "Miscellaneous"],
      c ++ " expense" ≠ "" ∧ jsTrim (c ++ " expense").toList = (c ++ " expense").toList := by
    decide
  have hmem : UseVoiceInput.inferCategory (toLowerCase text.toList) ∈
      ["Fuel", "Meals", "Accommodation", "Transportation", "Miscellaneous"] := by
    unfold UseVoiceInput.inferCategory
    split_ifs <;> decide
  have hgen : (UseVoiceInput.parseVoiceInput text).title =
      orElseStr (some (String.mk (jsTrim (UseVoiceInput.amountRE.replaceAll [] text.toList))))
        (UseVoiceInput.inferCategory (toLowerCase text.toList) ++ " expense") := rfl
  have hgcat : (UseVoiceInput.parseVoiceInput text).category =
      UseVoiceInput.inferCategory (toLowerCase text.toList) := rfl
  have o5 := orElseStr_trimmed
    (some (String.mk (jsTrim (UseVoiceInput.amountRE.replaceAll [] text.toList))))
    (UseVoiceInput.inferCategory (toLowerCase text.toList) ++ " expense")
    (fun s hs => by
      rw [Option.some.injEq] at hs
      rw [← hs]
      exact jsTrim_idempotent _)
    (hcat _ hmem)
  refine ⟨?_, ?_, ?_, ?_, ?_, ?_, ?_, ?_, by decide, by decide, by decide⟩
  · intro type htype
    simp only [List.mem_cons, List.mem_singleton, List.not_mem_nil, or_false] at htype
    rcases htype with rfl | rfl | rfl | rfl
    · exact ⟨_, hfuel, o1.1, o1.2.1⟩
    · exact ⟨_, hmeal, o2.1, o2.2.1⟩
    · exact ⟨_, hacc, o3.1, o3.2.1⟩
    · exact ⟨_, hmisc, o4.1, o4.2.1⟩
  · rw [hfuel]
    rcases o1.2.2 with h | h
    · exact Or.inl (congrArg some h)
    · exact Or.inr h.symm
  · rw [hmeal]
    rcases o2.2.2 with h | h
    · exact Or.inl (congrArg some h)
    · exact Or.inr h.symm
  · rw [hacc]
    rcases o3.2.2 with h | h
    · exact Or.inl (congrArg some h)
    · exact Or.inr h.symm
  · rw [hmisc]
    rcases o4.2.2 with h | h
    · exact Or.inl (congrArg some h)
    · exact Or.inr h.symm
  · rw [hgen]
    exact o5.1
  · rw [hgen]
    exact o5.2.1
  · rw [hgen, hgcat]
    rcases o5.2.2 with h | h
    · exact Or.inr h
    · exact Or.inl (Option.some.inj h).symm

end TravelLogs
